import Mathlib

/-!
# bamgoo/mutex: named, TTL-bounded locks routed over pluggable backends

A shallow embedding of the Go package `mutex` (files `default.go`, `ring.go`,
`internal.go`, `module.go`, `driver.go`, `const.go`, `external.go`) and theorems
about it.

Conventions of the embedding

* A Go `string` is a Lean `String`; its bytes are its UTF-8 encoding.
* `time.Time` and `time.Duration` are integers counting nanoseconds. The
  readings of `time.Now()` that a call takes are passed to it as a `Clock`.
* The router resolves keys as on the 64-bit targets (amd64, arm64), where
  Go's `int` has 64 bits (`intSize`): `hashRing.Locate` is `hashRing.locateOn`
  at that width. The index computation itself (`toInt`, `hashRing.index`,
  `hashRing.locateOn`) takes the width of `int` as an argument, so that the
  32-bit targets are covered as well.
* What the Go language leaves to the implementation where `configure` reads
  numbers is a `Target`: the width of `int`, and the result of converting a
  `float64` to an integer type that cannot hold it.
* A Go `map[string]V` is an association list `GoMap V`. Reading, writing and
  deleting go through `GoMap.get?`, `GoMap.set` and `GoMap.delete`; the order
  of the list carries no meaning. A `range` loop visits the keys in an order
  chosen by a `RangeOrder`, which may be any permutation.
* A Go `error` result is an `Option Error`, `none` standing for `nil`.
* Methods that mutate their receiver return the new receiver next to their
  result. The read/write guards (`sync.Mutex`, `sync.RWMutex`) are not part of
  the state: every method is one atomic step.
* A `panic` of a router method is the field `abort` of its `Outcome`, which
  also holds the state the router is left in and the backend calls made.
* Library functions the package calls and that are not its own code are
  arguments: `time.ParseDuration` (`parse`) and the `%v` formatting of values
  other than strings, integers, booleans and nil (`other`).
* The package-level functions of `external.go` act on the variable `module`;
  here they take the router as an argument.
-/

namespace Mutex

/-! ## Go maps -/

/-- A Go `map[string]V`, as the list of its entries. -/
abbrev GoMap (V : Type) := List (String × V)

namespace GoMap

variable {V : Type}

/-- The read `v, ok := m[k]`: the value stored under `k`, if any. -/
def get? : GoMap V → String → Option V
  | [], _ => none
  | (k', v) :: m, k => if k' = k then some v else get? m k

/-- The write `m[k] = v`: replaces the value stored under `k`, or adds the entry. -/
def set : GoMap V → String → V → GoMap V
  | [], k, v => [(k, v)]
  | (k', v') :: m, k, v => if k' = k then (k, v) :: m else (k', v') :: set m k v

/-- The builtin `delete(m, k)`: removes the entry of `k`; nothing happens when there is none. -/
def delete : GoMap V → String → GoMap V
  | [], _ => []
  | (k', v') :: m, k => if k' = k then delete m k else (k', v') :: delete m k

/-- The keys of the map, each once. -/
def keys (m : GoMap V) : List String := (m.map Prod.fst).dedup

end GoMap

/-- The order in which one `range` loop over a map visits the keys: Go leaves
it unspecified, so it is any rearrangement of the keys. -/
structure RangeOrder where
  visit : List String → List String
  perm : ∀ ks, (visit ks).Perm ks

/-- The keys in the order in which they are stored. -/
def RangeOrder.stored : RangeOrder := ⟨fun ks => ks, fun ks => List.Perm.refl ks⟩

/-- The keys in the opposite order. -/
def RangeOrder.reversed : RangeOrder := ⟨fun ks => ks.reverse, fun ks => List.reverse_perm ks⟩

/-! ## Time, errors, dynamic values -/

/-- A `time.Time` instant, in nanoseconds. -/
abbrev Time := Int

/-- A `time.Duration`, in nanoseconds. -/
abbrev Duration := Int

/-- The constant `time.Second`. -/
def time.Second : Duration := 1000000000

/-- The two readings of `time.Now()` that one `Lock` call of the reference
backend takes: `check` is compared with the recorded expiry, `stamp` is the
reading the new expiry is computed from. -/
structure Clock where
  check : Time
  stamp : Time
deriving DecidableEq, Repr

/-- Both readings at the same instant. -/
def Clock.at (now : Time) : Clock := ⟨now, now⟩

/-- A Go `error` value, identified by its message. -/
abbrev Error := String

/-- The error `ErrInvalidConnection` of `const.go`. -/
def ErrInvalidConnection : Error := "invalid mutex connection"

/-- The error `ErrNotReady` of `const.go`. -/
def ErrNotReady : Error := "mutex is not ready"

/-- The error `errors.New("existed")` with which the reference backend reports
a lock that is already held. -/
def ErrExisted : Error := "existed"

/-- Modelled from the spec: the constant `bamgoo.DEFAULT` of the host
framework, the name of the default instance and of the default backend. -/
def DEFAULT : String := "default"

/-- A `float64`: a finite value, of sign `negative` and of magnitude
`mant * 2 ^ exp`, an infinity, or NaN. -/
inductive Float64 where
  | finite (negative : Bool) (mant : Nat) (exp : Int)
  | inf (negative : Bool)
  | nan
deriving DecidableEq, Repr

/-- The magnitude of a finite `float64` without its fractional part. -/
def Float64.magnitude (mant : Nat) (exp : Int) : Nat :=
  if 0 ≤ exp then mant * 2 ^ exp.toNat else mant / 2 ^ (-exp).toNat

/-- The value of a `float64` truncated towards zero; an infinity and NaN have none. -/
def Float64.trunc : Float64 → Option Int
  | .finite negative mant exp =>
    some (if negative then -(Float64.magnitude mant exp : Int) else Float64.magnitude mant exp)
  | _ => none

/-- A `base.Any`: the dynamically typed values that occur in configuration
and in key parts. -/
inductive Any where
  | null
  | bool (b : Bool)
  | int (n : Int)
  | int64 (n : Int)
  | float64 (v : Float64)
  | string (s : String)
  | duration (d : Duration)
  | map (m : List (String × Any))

/-- A `base.Map`, that is `map[string]any`. -/
abbrev BaseMap := List (String × Any)

/-! ## Configuration, instances, backends (`module.go`, `driver.go`) -/

/-- The struct `Config` of `module.go`. -/
structure Config where
  Driver : String
  Weight : Int
  Prefix : String
  Expire : Duration
  Setting : BaseMap

/-- The fields of `Instance` that exist before the connection is made: what
`Open` hands to `Driver.Connect`. -/
structure InstanceInfo where
  Name : String
  Config : Config
  Setting : BaseMap

/-- The struct `Instance` of `driver.go`. The field `conn` is set before the
instance is stored in the router, so a stored instance always has one. -/
structure Instance (C : Type) where
  conn : C
  Name : String
  Config : Config
  Setting : BaseMap

/-- The interface `Connection` of `driver.go`, over the type `C` of connection
states. `Lock` is given the clock readings it may take. -/
class Connection (C : Type) where
  Open : C → Option Error × C
  Close : C → Option Error × C
  Lock : C → String → Duration → Clock → Option Error × C
  Unlock : C → String → Option Error × C

/-- The interface `Driver` of `driver.go`: `Connect` returns a connection or an error. -/
structure Driver (C : Type) where
  Connect : InstanceInfo → Except Error C

/-! ## The reference backend (`default.go`) -/

/-- The struct `defaultConnect`: the instance it serves and the table of
held locks, key to expiry instant. The table is allocated by `Connect` and by
`Close`, the only places that assign it, so it is never the nil map. -/
structure defaultConnect where
  inst : InstanceInfo
  locks : GoMap Time

/-- The method `defaultDriver.Connect`. -/
def defaultDriver.Connect (inst : InstanceInfo) : Except Error defaultConnect :=
  .ok { inst := inst, locks := [] }

/-- The value `&defaultDriver{}` that `init` registers: the reference backend as a `Driver`. -/
def defaultBackend : Driver defaultConnect := ⟨defaultDriver.Connect⟩

/-- The method `defaultConnect.Open`: the table exists already. -/
def defaultConnect.Open (c : defaultConnect) : Option Error × defaultConnect :=
  (none, c)

/-- The method `defaultConnect.Close`: the table is replaced by an empty one. -/
def defaultConnect.Close (c : defaultConnect) : Option Error × defaultConnect :=
  (none, { c with locks := [] })

/-- The ttl that `defaultConnect.Lock` applies: the argument, else the
instance's configured expiry, else one second. -/
def defaultConnect.effective (c : defaultConnect) (expire : Duration) : Duration :=
  let expire := if expire ≤ 0 then c.inst.Config.Expire else expire
  if expire ≤ 0 then time.Second else expire

/-- The method `defaultConnect.Lock`. -/
def defaultConnect.Lock (c : defaultConnect) (key : String) (expire : Duration)
    (clk : Clock) : Option Error × defaultConnect :=
  let expire := defaultConnect.effective c expire
  match GoMap.get? c.locks key with
  | some untl =>
    if clk.check < untl then
      (some ErrExisted, c)
    else
      (none, { c with locks := GoMap.set (GoMap.delete c.locks key) key (clk.stamp + expire) })
  | none =>
    (none, { c with locks := GoMap.set c.locks key (clk.stamp + expire) })

/-- The method `defaultConnect.Unlock`. Its guard for a nil table returns
success without a change, which is what deleting from the table does when the
key is absent. -/
def defaultConnect.Unlock (c : defaultConnect) (key : String) : Option Error × defaultConnect :=
  (none, { c with locks := GoMap.delete c.locks key })

instance defaultConnect.connection : Connection defaultConnect where
  Open := defaultConnect.Open
  Close := defaultConnect.Close
  Lock := defaultConnect.Lock
  Unlock := defaultConnect.Unlock

/-! ## The weighted selector (`ring.go`) -/

/-- The struct `hashRing`: the flat sequence of instance names. -/
structure hashRing where
  nodes : List String
deriving DecidableEq, Repr

/-- The function `newHashRing`. Its argument is the weight map as the `range`
loop enumerates it; each name with a positive weight is appended that many
times. -/
def newHashRing (weights : List (String × Int)) : hashRing :=
  let nodes := weights.foldl
    (fun nodes e => if e.2 ≤ 0 then nodes else nodes ++ List.replicate e.2.toNat e.1) []
  if nodes.length = 0 then { nodes := [] } else { nodes := nodes }

/-- The bytes of a Go string. -/
def keyBytes (key : String) : List Nat :=
  (key.data.flatMap String.utf8EncodeChar).map UInt8.toNat

/-- One round of FNV-1a on 32 bits: xor the byte in, multiply by the prime. -/
def fnvStep (h b : Nat) : Nat := (Nat.xor h b * 16777619) % 2 ^ 32

/-- The hash value `h.Sum32()` of `fnv.New32a()` after writing the bytes `bs`. -/
def Sum32 (bs : List Nat) : Nat := bs.foldl fnvStep 2166136261

/-- The width of Go's `int` in bits on the 64-bit targets (amd64, arm64), on
which the router is modelled. -/
def intSize : Nat := 64

/-- The conversion `int(u)` of an unsigned value where `int` has `bits` bits:
it wraps, two's complement. -/
def toInt (bits : Nat) (u : Nat) : Int :=
  let v := u % 2 ^ bits
  if v < 2 ^ (bits - 1) then (v : Int) else (v : Int) - 2 ^ bits

/-- The index `int(h.Sum32()) % len(r.nodes)` that `Locate` computes where
`int` has `bits` bits; Go's `%` truncates. -/
def hashRing.index (bits : Nat) (r : hashRing) (bs : List Nat) : Int :=
  Int.tmod (toInt bits (Sum32 bs)) (r.nodes.length : Int)

/-- The indexing `nodes[idx]`; `none` is the run-time failure on an index out of range. -/
def hashRing.nodeAt (r : hashRing) (idx : Int) : Option String :=
  if idx < 0 then none else r.nodes.get? idx.toNat

/-- The method `hashRing.Locate` where `int` has `bits` bits, on the bytes of
the key and for a receiver that is not nil; `none` is the run-time failure of
the indexing, with which the call does not return. -/
def hashRing.locateOn (bits : Nat) (r : hashRing) (bs : List Nat) : Option String :=
  if r.nodes.length = 0 then some ""
  else hashRing.nodeAt r (hashRing.index bits r bs)

/-- The method `hashRing.Locate` on the 64-bit targets, on the bytes of the
key and for a receiver that is not nil. -/
def hashRing.locateBytes (r : hashRing) (bs : List Nat) : String :=
  (hashRing.locateOn intSize r bs).getD ""

/-- The method `hashRing.Locate` on the 64-bit targets; the receiver is a
pointer, `none` being nil. -/
def hashRing.Locate (r : Option hashRing) (key : String) : String :=
  match r with
  | none => ""
  | some r => hashRing.locateBytes r (keyBytes key)

/-! ## The router (`module.go`, `internal.go`) -/

/-- The struct `Module`, without its guard. An entry of `instances` stands for
the heap object the Go map points to. -/
structure Module (C : Type) where
  opened : Bool
  started : Bool
  drivers : GoMap (Driver C)
  configs : GoMap Config
  instances : GoMap (Instance C)
  weights : GoMap Int
  ring : Option hashRing

/-- The variable `module` as first declared: nothing registered, not opened. -/
def Module.fresh (C : Type) : Module C :=
  { opened := false, started := false, drivers := [], configs := [],
    instances := [], weights := [], ring := none }

/-- The method `Module.getInst`. The instance is returned with the key of
`instances` under which it was found, which stands for the pointer. -/
def Module.getInst {C : Type} (m : Module C) (conn key : String) :
    Except Error (String × Instance C) :=
  if conn = "" ∧ m.ring.isNone then
    .error ErrNotReady
  else
    let conn := if conn = "" then hashRing.Locate m.ring key else conn
    if conn = "" then
      .error ErrInvalidConnection
    else
      match GoMap.get? m.instances conn with
      | some inst => .ok (conn, inst)
      | none => .error ErrInvalidConnection

/-- The method `Module.LockOn`; `expires` is the variadic argument, of which
the first value, when there is one, replaces the configured expiry. -/
def Module.LockOn {C : Type} [Connection C] (m : Module C) (conn key : String)
    (expires : List Duration) (clk : Clock) : Option Error × Module C :=
  match Module.getInst m conn key with
  | .error err => (some err, m)
  | .ok (slot, inst) =>
    let expire := expires.headD inst.Config.Expire
    let realKey := inst.Config.Prefix ++ key
    let r := Connection.Lock inst.conn realKey expire clk
    (r.1, { m with instances := GoMap.set m.instances slot { inst with conn := r.2 } })

/-- The method `Module.Lock`. -/
def Module.Lock {C : Type} [Connection C] (m : Module C) (key : String)
    (expires : List Duration) (clk : Clock) : Option Error × Module C :=
  Module.LockOn m "" key expires clk

/-- The method `Module.UnlockOn`. -/
def Module.UnlockOn {C : Type} [Connection C] (m : Module C) (conn key : String) :
    Option Error × Module C :=
  match Module.getInst m conn key with
  | .error err => (some err, m)
  | .ok (slot, inst) =>
    let realKey := inst.Config.Prefix ++ key
    let r := Connection.Unlock inst.conn realKey
    (r.1, { m with instances := GoMap.set m.instances slot { inst with conn := r.2 } })

/-- The method `Module.Unlock`. -/
def Module.Unlock {C : Type} [Connection C] (m : Module C) (key : String) :
    Option Error × Module C :=
  Module.UnlockOn m "" key

/-- The body of the loop of `Module.Setup` on one configuration: empty fields get their defaults. -/
def Config.withDefaults (cfg : Config) : Config :=
  let cfg := if cfg.Driver = "" then { cfg with Driver := DEFAULT } else cfg
  let cfg := if cfg.Weight = 0 then { cfg with Weight := 1 } else cfg
  if cfg.Expire = 0 then { cfg with Expire := time.Second } else cfg

/-- One round of the loop of `Module.Setup`, on the key `name`. -/
def Module.setupStep (configs : GoMap Config) (name : String) : GoMap Config :=
  match GoMap.get? configs name with
  | none => configs
  | some cfg =>
    let name := if name = "" then DEFAULT else name
    GoMap.set configs name (Config.withDefaults cfg)

/-- The method `Module.Setup`; `ord` is the order in which its loop visits
`configs`. Each round reads the configuration stored under the key at that
moment and writes it back, completed, under the key, or under the default name
when the key is empty. An entry that a round adds under the default name is not
visited again; visiting it would write the same completed configuration once
more. -/
def Module.Setup {C : Type} (m : Module C) (ord : RangeOrder) : Module C :=
  if m.opened then m
  else
    let configs :=
      if m.configs.length = 0 then
        GoMap.set m.configs DEFAULT
          { Driver := DEFAULT, Weight := 1, Prefix := "", Expire := time.Second, Setting := [] }
      else m.configs
    { m with configs := (ord.visit (GoMap.keys configs)).foldl Module.setupStep configs }

/-- A call that the router makes on a backend, with the name of the instance concerned. -/
inductive Call where
  | Connect (name : String)
  | Open (name : String)
  | Close (name : String)
deriving DecidableEq, Repr

/-- What a router method that can abort leaves behind: the message of the
`panic`, if it was raised, the state of the router at that point, and the
backend calls made. -/
structure Outcome (C : Type) where
  abort : Option String
  state : Module C
  calls : List Call

/-- One round of the loop of `Module.Open`, on the configuration `cfg` stored
under `name`. A registered driver is never nil (`RegisterDriver` refuses one),
so the only missing driver is an unregistered name. -/
def Module.openStep {C : Type} [Connection C] (m : Module C) (name : String) (cfg : Config) :
    Outcome C :=
  match GoMap.get? m.drivers cfg.Driver with
  | none => ⟨some ("Missing mutex driver: " ++ cfg.Driver), m, []⟩
  | some drv =>
    match drv.Connect { Name := name, Config := cfg, Setting := cfg.Setting } with
    | .error err => ⟨some ("Failed to conn to mutex: " ++ err), m, [Call.Connect name]⟩
    | .ok conn =>
      match Connection.Open conn with
      | (some err, _) =>
        ⟨some ("Failed to open mutex: " ++ err), m, [Call.Connect name, Call.Open name]⟩
      | (none, conn) =>
        let inst : Instance C :=
          { conn := conn, Name := name, Config := cfg, Setting := cfg.Setting }
        let m := { m with instances := GoMap.set m.instances name inst }
        let m := if cfg.Weight > 0 then
            { m with weights := GoMap.set m.weights name cfg.Weight }
          else m
        ⟨none, m, [Call.Connect name, Call.Open name]⟩

/-- The loop of `Module.Open` over the keys still to visit; a `panic` ends it. -/
def Module.openLoop {C : Type} [Connection C] : List String → Module C → Outcome C
  | [], m => ⟨none, m, []⟩
  | name :: rest, m =>
    match GoMap.get? m.configs name with
    | none => Module.openLoop rest m
    | some cfg =>
      let r := Module.openStep m name cfg
      match r.abort with
      | some msg => ⟨some msg, r.state, r.calls⟩
      | none =>
        let r' := Module.openLoop rest r.state
        ⟨r'.abort, r'.state, r.calls ++ r'.calls⟩

/-- The entries of a map in the order in which a `range` loop visits them. -/
def GoMap.range {V : Type} (m : GoMap V) (ord : RangeOrder) : List (String × V) :=
  (ord.visit (GoMap.keys m)).filterMap (fun k => (GoMap.get? m k).map (fun v => (k, v)))

/-- The method `Module.Open`; `ordC` is the order in which its loop visits
`configs`, `ordW` the order in which `newHashRing` visits `weights`. -/
def Module.Open {C : Type} [Connection C] (m : Module C) (ordC ordW : RangeOrder) : Outcome C :=
  if m.opened then ⟨none, m, []⟩
  else if m.configs.length = 0 then ⟨some "Missing mutex config", m, []⟩
  else
    let r := Module.openLoop (ordC.visit (GoMap.keys m.configs)) m
    match r.abort with
    | some msg => ⟨some msg, r.state, r.calls⟩
    | none =>
      ⟨none, { r.state with ring := some (newHashRing (GoMap.range r.state.weights ordW)),
                            opened := true }, r.calls⟩

/-- The method `Module.Close`: what the `Close` of every connection returns,
by name of the instance, in the order `ord` of the loop. The router discards
these results. -/
def Module.closeResults {C : Type} [Connection C] (m : Module C) (ord : RangeOrder) :
    List (String × (Option Error × C)) :=
  (GoMap.range m.instances ord).map (fun e => (e.1, Connection.Close e.2.conn))

/-- The method `Module.Close`; `ord` is the order in which its loop visits `instances`. -/
def Module.Close {C : Type} [Connection C] (m : Module C) (ord : RangeOrder) : Outcome C :=
  if !m.opened then ⟨none, m, []⟩
  else
    ⟨none, { m with instances := [], weights := [], ring := none, opened := false },
      (Module.closeResults m ord).map (fun r => Call.Close r.1)⟩

/-- The method `Module.Start`. -/
def Module.Start {C : Type} (m : Module C) : Module C :=
  if m.started then m else { m with started := true }

/-- The method `Module.Stop`. -/
def Module.Stop {C : Type} (m : Module C) : Module C :=
  if !m.started then m else { m with started := false }

/-- The method `Module.RegisterDriver`; `none` is the nil driver. -/
def Module.RegisterDriver {C : Type} (m : Module C) (name : String)
    (driver : Option (Driver C)) : Outcome C :=
  let name := if name = "" then DEFAULT else name
  match driver with
  | none => ⟨some ("Invalid mutex driver: " ++ name), m, []⟩
  | some drv =>
    if (GoMap.get? m.drivers name).isSome then
      ⟨some ("Mutex driver already registered: " ++ name), m, []⟩
    else ⟨none, { m with drivers := GoMap.set m.drivers name drv }, []⟩

/-- The method `Module.RegisterConfig`. -/
def Module.RegisterConfig {C : Type} (m : Module C) (name : String) (cfg : Config) :
    Outcome C :=
  if m.opened then ⟨none, m, []⟩
  else
    let name := if name = "" then DEFAULT else name
    if (GoMap.get? m.configs name).isSome then
      ⟨some ("Mutex config already registered: " ++ name), m, []⟩
    else ⟨none, { m with configs := GoMap.set m.configs name cfg }, []⟩

/-- The loop of `Module.RegisterConfigs` over the entries still to visit; a `panic` ends it. -/
def Module.registerLoop {C : Type} : List (String × Config) → Module C → Outcome C
  | [], m => ⟨none, m, []⟩
  | (name, cfg) :: rest, m =>
    let name := if name = "" then DEFAULT else name
    if (GoMap.get? m.configs name).isSome then
      ⟨some ("Mutex config already registered: " ++ name), m, []⟩
    else Module.registerLoop rest { m with configs := GoMap.set m.configs name cfg }

/-- The method `Module.RegisterConfigs`; `ord` is the order in which its loop visits the argument. -/
def Module.RegisterConfigs {C : Type} (m : Module C) (configs : GoMap Config)
    (ord : RangeOrder) : Outcome C :=
  if m.opened then ⟨none, m, []⟩
  else Module.registerLoop (GoMap.range configs ord) m

/-- The conversion of a product of two 64-bit integers back to `int64`: it wraps, two's complement. -/
def wrapInt64 (x : Int) : Int := (x + 2 ^ 63) % 2 ^ 64 - 2 ^ 63

/-- The conversion of an integer to a signed integer type of `bits` bits: it
wraps, two's complement. -/
def wrapInt (bits : Nat) (x : Int) : Int :=
  (x + 2 ^ (bits - 1)) % 2 ^ bits - 2 ^ (bits - 1)

/-- What the Go language leaves to the target the package is compiled for. -/
structure Target where
  /-- The width of `int` in bits, 32 or 64. -/
  intBits : Nat
  /-- The result of converting a `float64` to a signed integer type of the
  given width that does not hold its truncated value, NaN and the infinities
  included: "the result value is implementation-dependent". -/
  unrepresentable : Nat → Float64 → Int

/-- The target amd64: `int` has 64 bits, and a `float64` that `int64` does not
hold is converted to `math.MinInt64`. -/
def Target.amd64 : Target :=
  { intBits := 64, unrepresentable := fun _ _ => -9223372036854775808 }

/-- The conversion of a `float64` to a signed integer type of `bits` bits
(`int(v)`, `time.Duration(v)`): the value truncated towards zero when the type
holds it, and otherwise what the target gives, a value of the type. -/
def Float64.toSigned (tgt : Target) (bits : Nat) (v : Float64) : Int :=
  match Float64.trunc v with
  | some t =>
    if -(2 ^ (bits - 1)) ≤ t ∧ t < 2 ^ (bits - 1) then t
    else wrapInt bits (tgt.unrepresentable bits v)
  | none => wrapInt bits (tgt.unrepresentable bits v)

/-- The function `parseDuration`. The library function `time.ParseDuration` is
the argument `parse`, `none` being its error. -/
def parseDuration (tgt : Target) (parse : String → Option Duration) (val : Any) : Duration :=
  match val with
  | .duration v => v
  | .int v => wrapInt64 (time.Second * v)
  | .int64 v => wrapInt64 (time.Second * v)
  | .float64 v => wrapInt64 (time.Second * Float64.toSigned tgt 64 v)
  | .string v =>
    match parse v with
    | some d => d
    | none => 0
  | _ => 0

/-- The field `Driver` after `configure`: a string that is not empty replaces it. -/
def Config.mergeDriver (cfg : Config) (conf : BaseMap) : Config :=
  match GoMap.get? conf "driver" with
  | some (.string v) => if v ≠ "" then { cfg with Driver := v } else cfg
  | _ => cfg

/-- The field `Weight` after `configure`: an `int` replaces it, and so does
an `int64` or a `float64` converted to `int`. -/
def Config.mergeWeight (tgt : Target) (cfg : Config) (conf : BaseMap) : Config :=
  match GoMap.get? conf "weight" with
  | some (.int v) => { cfg with Weight := v }
  | some (.int64 v) => { cfg with Weight := wrapInt tgt.intBits v }
  | some (.float64 v) => { cfg with Weight := Float64.toSigned tgt tgt.intBits v }
  | _ => cfg

/-- The field `Prefix` after `configure`: a string replaces it. -/
def Config.mergePrefix (cfg : Config) (conf : BaseMap) : Config :=
  match GoMap.get? conf "prefix" with
  | some (.string v) => { cfg with Prefix := v }
  | _ => cfg

/-- The field `Expire` after `configure`: a value that parses to a positive duration replaces it. -/
def Config.mergeExpire (tgt : Target) (parse : String → Option Duration) (cfg : Config)
    (conf : BaseMap) : Config :=
  match GoMap.get? conf "expire" with
  | some v =>
    if parseDuration tgt parse v > 0 then { cfg with Expire := parseDuration tgt parse v } else cfg
  | none => cfg

/-- The field `Setting` after `configure`: a map replaces it. -/
def Config.mergeSetting (cfg : Config) (conf : BaseMap) : Config :=
  match GoMap.get? conf "setting" with
  | some (.map v) => { cfg with Setting := v }
  | _ => cfg

/-- The configuration that `configure` starts from when the name has none. -/
def Config.initial : Config :=
  { Driver := DEFAULT, Weight := 1, Prefix := "", Expire := time.Second, Setting := [] }

/-- The field tests of `configure`, in the order of the source: the fields of
`conf` are merged onto `cfg` one after the other. -/
def Config.merge (tgt : Target) (parse : String → Option Duration) (cfg : Config)
    (conf : BaseMap) : Config :=
  let cfg := Config.mergeDriver cfg conf
  let cfg := Config.mergeWeight tgt cfg conf
  let cfg := Config.mergePrefix cfg conf
  let cfg := Config.mergeExpire tgt parse cfg conf
  Config.mergeSetting cfg conf

/-- The method `Module.configure`: the fields of `conf` are merged onto the
configuration registered under `name`, or onto the initial one, and the result
is stored under `name`. -/
def Module.configure {C : Type} (tgt : Target) (parse : String → Option Duration)
    (m : Module C) (name : String) (conf : BaseMap) : Module C :=
  let cfg := match GoMap.get? m.configs name with
    | some existing => existing
    | none => Config.initial
  { m with configs := GoMap.set m.configs name (Config.merge tgt parse cfg conf) }

/-- The partial mapping that the `mutex` section holds for the instance `key`:
the value under `key` when it is a map and `key` is not "setting", which is the
test of the loop of `Module.Config`. -/
def nestedConf (cfgMap : BaseMap) (key : String) : Option BaseMap :=
  match GoMap.get? cfgMap key with
  | some (.map conf) => if key ≠ "setting" then some conf else none
  | _ => none

/-- The value that the loop of `Module.Config` collects into the root
configuration under `key`: the value under `key` when the test fails. -/
def rootValue (cfgMap : BaseMap) (key : String) : Option Any :=
  match GoMap.get? cfgMap key with
  | none => none
  | some (.map conf) => if key ≠ "setting" then none else some (.map conf)
  | some val => some val

/-- One round of the loop of `Module.Config` on the key `key` of the `mutex`
section: a nested map other than `setting` configures the instance of that
name, anything else is collected into the root configuration. -/
def Module.configStep {C : Type} (tgt : Target) (parse : String → Option Duration)
    (cfgMap : BaseMap) (acc : Module C × BaseMap) (key : String) : Module C × BaseMap :=
  match GoMap.get? cfgMap key with
  | none => acc
  | some (.map conf) =>
    if key ≠ "setting" then (Module.configure tgt parse acc.1 key conf, acc.2)
    else (acc.1, GoMap.set acc.2 key (.map conf))
  | some val => (acc.1, GoMap.set acc.2 key val)

/-- The method `Module.Config`, under the name the specification gives it, as
the struct `Config` holds the name here; `ord` is the order in which its loop
visits the `mutex` section. -/
def Module.ApplyConfig {C : Type} (tgt : Target) (parse : String → Option Duration)
    (m : Module C) (global : BaseMap) (ord : RangeOrder) : Module C :=
  if m.opened then m
  else
    match GoMap.get? global "mutex" with
    | some (.map cfgMap) =>
      let r := (ord.visit (GoMap.keys cfgMap)).foldl (Module.configStep tgt parse cfgMap) (m, [])
      if r.2.length > 0 then Module.configure tgt parse r.1 DEFAULT r.2 else r.1
    | _ => m

/-! ## The convenience functions (`external.go`) -/

/-- The struct `locker`. -/
structure locker where
  conn : String
  key : String
deriving DecidableEq, Repr

/-- The text `fmt.Sprintf("%v", arg)`: a string is itself, an integer its
decimal digits, a boolean `true` or `false`, nil `<nil>`. For the other values
the library's formatting is the argument `other`. -/
def Sprintf (other : Any → String) (arg : Any) : String :=
  match arg with
  | .string s => s
  | .int n => toString n
  | .int64 n => toString n
  | .bool b => toString b
  | .null => "<nil>"
  | v => other v

/-- The function `Key`. -/
def Key (other : Any → String) (args : List Any) : String :=
  "-".intercalate (args.map (Sprintf other))

/-- The duration arguments of `args`, in order: the `exps` of the function `LockOn`. -/
def durationArgs : List Any → List Duration
  | [] => []
  | .duration d :: rest => d :: durationArgs rest
  | _ :: rest => durationArgs rest

/-- The other arguments of `args`, in order: the `keys` of the function `LockOn`. -/
def keyArgs : List Any → List Any
  | [] => []
  | .duration _ :: rest => keyArgs rest
  | a :: rest => a :: keyArgs rest

/-- The function `LockOn` on the router `m`, which stands for the variable `module`. -/
def LockOn {C : Type} [Connection C] (other : Any → String) (m : Module C) (conn : String)
    (args : List Any) (clk : Clock) : Except Error locker × Module C :=
  let key := Key other (keyArgs args)
  let r := Module.LockOn m conn key (durationArgs args) clk
  match r.1 with
  | some err => (.error err, r.2)
  | none => (.ok { conn := conn, key := key }, r.2)

/-- The function `UnlockOn`. -/
def UnlockOn {C : Type} [Connection C] (other : Any → String) (m : Module C) (conn : String)
    (args : List Any) : Option Error × Module C :=
  Module.UnlockOn m conn (Key other args)

/-- The method `locker.Unlock`. -/
def locker.Unlock {C : Type} [Connection C] (other : Any → String) (l : locker)
    (m : Module C) : Option Error × Module C :=
  UnlockOn other m l.conn [.string l.key]

/-- The function `LockedOn`. -/
def LockedOn {C : Type} [Connection C] (other : Any → String) (m : Module C) (conn : String)
    (args : List Any) (clk : Clock) : Bool × Module C :=
  match LockOn other m conn args clk with
  | (.error _, m') => (true, m')
  | (.ok lok, m') => (false, (locker.Unlock other lok m').2)

/-- The function `Lock`. -/
def Lock {C : Type} [Connection C] (other : Any → String) (m : Module C)
    (args : List Any) (clk : Clock) : Except Error locker × Module C :=
  LockOn other m "" args clk

/-- The function `Unlock`. -/
def Unlock {C : Type} [Connection C] (other : Any → String) (m : Module C)
    (args : List Any) : Option Error × Module C :=
  UnlockOn other m "" args

/-- The function `Locked`. -/
def Locked {C : Type} [Connection C] (other : Any → String) (m : Module C)
    (args : List Any) (clk : Clock) : Bool × Module C :=
  LockedOn other m "" args clk

/-! ## Concrete inputs -/

/-- A connection of the reference backend with an empty table, for an
instance named "main" whose configured expiry is 50 ms. -/
def exampleConnect : defaultConnect :=
  { inst := { Name := "main",
              Config := { Driver := "default", Weight := 1, Prefix := "", Expire := 50000000,
                          Setting := [] },
              Setting := [] },
    locks := [] }

/-- A router as the bootstrap leaves it before `Setup`: the reference backend
registered under the default name, and two configured instances, "a" with
weight 2 and an expiry of 50 ms, "b" with neither weight nor expiry set. -/
def exampleRegistered : Module defaultConnect :=
  { Module.fresh defaultConnect with
    drivers := [(DEFAULT, defaultBackend)],
    configs :=
      [("a", { Driver := "", Weight := 2, Prefix := "a:", Expire := 50000000, Setting := [] }),
       ("b", { Driver := "", Weight := 0, Prefix := "b:", Expire := 0, Setting := [] })] }

/-- The router of `exampleRegistered` after `Setup` and `Open`. -/
def exampleRouter : Module defaultConnect :=
  (Module.Open (Module.Setup exampleRegistered RangeOrder.stored)
    RangeOrder.stored RangeOrder.stored).state

/-- A router before `Setup`: the reference backend, an instance "main" with
weight 1 and an instance "spare" with weight -1. -/
def exampleSpare : Module defaultConnect :=
  { Module.fresh defaultConnect with
    drivers := [(DEFAULT, defaultBackend)],
    configs :=
      [("main", { Driver := "", Weight := 1, Prefix := "", Expire := 0, Setting := [] }),
       ("spare", { Driver := "", Weight := -1, Prefix := "s:", Expire := 0, Setting := [] })] }

/-- A connection of a backend whose `Close` returns the error it was made
with; its locks always succeed. -/
structure stubConnect where
  name : String
  closeErr : Option Error
deriving DecidableEq, Repr

instance stubConnect.connection : Connection stubConnect where
  Open := fun c => (none, c)
  Close := fun c => (c.closeErr, c)
  Lock := fun c _ _ _ => (none, c)
  Unlock := fun c _ => (none, c)

/-- A backend of `stubConnect` connections: the `Close` of the instances named in `failing` fails. -/
def stubBackend (failing : List String) : Driver stubConnect :=
  ⟨fun inst => .ok { name := inst.Name,
                     closeErr := if inst.Name ∈ failing then some "close failed" else none }⟩

/-- An open router over `stubBackend` with the instances "a" and "b", of which "a" fails to close. -/
def exampleStubRouter : Module stubConnect :=
  (Module.Open
    { Module.fresh stubConnect with
      drivers := [(DEFAULT, stubBackend ["a"])],
      configs :=
        [("a", { Driver := DEFAULT, Weight := 1, Prefix := "", Expire := time.Second,
                 Setting := [] }),
         ("b", { Driver := DEFAULT, Weight := 1, Prefix := "", Expire := time.Second,
                 Setting := [] })] }
    RangeOrder.stored RangeOrder.stored).state

/-- The library's text for the values `Sprintf` leaves to it, as far as the
examples need it: the duration of one second reads `1s`. -/
def exampleFormat (v : Any) : String :=
  match v with
  | .duration d => if d = time.Second then "1s" else ""
  | _ => ""

/-- A fresh router with the reference backend, after `Module.Config` has read
a `mutex` section with one nested entry under the empty name. -/
def exampleEmptyName : Module defaultConnect :=
  Module.ApplyConfig Target.amd64 (fun _ => none)
    { Module.fresh defaultConnect with drivers := [(DEFAULT, defaultBackend)] }
    [("mutex", .map [("", .map [("weight", .int 1)])])] RangeOrder.stored

/-- A fresh router after `RegisterConfig` of the name "x" with the weight 3 and
nothing else set. -/
def exampleWeighted : Module defaultConnect :=
  (Module.RegisterConfig (Module.fresh defaultConnect) "x"
    { Driver := "", Weight := 3, Prefix := "", Expire := 0, Setting := [] }).state

/-- A `mutex` section with nested entries for "y" and "x" and the root entry
`weight: 5.0`. -/
def exampleSection : BaseMap :=
  [("y", .map [("weight", .int64 7)]), ("weight", .float64 (.finite false 5 0)),
    ("x", .map [("prefix", .string "p:")])]

/-- A partial mapping whose weight and expiry are the `float64` 1e30, which is
7105427357601002 * 2^47. -/
def exampleHuge : BaseMap :=
  [("weight", .float64 (.finite false 7105427357601002 47)),
    ("expire", .float64 (.finite false 7105427357601002 47))]

/-- An open router with the reference backend whose only instance, "main", has
the weight -1: `Setup` keeps the weight, `Open` connects the instance and gives
it no place in the Selector. -/
def exampleUnrouted : Module defaultConnect :=
  (Module.Open (Module.Setup
    { Module.fresh defaultConnect with
      drivers := [(DEFAULT, defaultBackend)],
      configs :=
        [("main", { Driver := "", Weight := -1, Prefix := "", Expire := 0, Setting := [] })] }
    RangeOrder.stored) RangeOrder.stored RangeOrder.stored).state

/-- The instance "b" of `exampleRouter`, as `Open` stored it. -/
def exampleInstanceB : Instance defaultConnect :=
  { conn :=
      { inst :=
          { Name := "b",
            Config := { Driver := DEFAULT, Weight := 1, Prefix := "b:", Expire := time.Second,
                        Setting := [] },
            Setting := [] },
        locks := [] },
    Name := "b",
    Config := { Driver := DEFAULT, Weight := 1, Prefix := "b:", Expire := time.Second,
                Setting := [] },
    Setting := [] }

end Mutex

namespace Mutex

/-! ## Lemmas on Go maps -/

namespace GoMap

variable {V : Type}

theorem get?_set_self (m : GoMap V) (k : String) (v : V) :
    get? (set m k v) k = some v := by
  induction m with
  | nil => simp [set, get?]
  | cons e m ih =>
    obtain ⟨k', v'⟩ := e
    by_cases h : k' = k
    · simp [set, get?, h]
    · simp [set, get?, h, ih]

theorem get?_set_ne (m : GoMap V) {k k' : String} (v : V) (h : k' ≠ k) :
    get? (set m k v) k' = get? m k' := by
  induction m with
  | nil => simp [set, get?, Ne.symm h]
  | cons e m ih =>
    obtain ⟨k0, v0⟩ := e
    by_cases h0 : k0 = k
    · subst h0
      simp [set, get?, Ne.symm h]
    · by_cases h1 : k0 = k'
      · subst h1
        simp [set, get?, h0]
      · simp [set, get?, h0, h1, ih]

theorem get?_delete_self (m : GoMap V) (k : String) : get? (delete m k) k = none := by
  induction m with
  | nil => simp [delete, get?]
  | cons e m ih =>
    obtain ⟨k', v'⟩ := e
    by_cases h : k' = k <;> simp [delete, get?, h, ih]

theorem get?_delete_ne (m : GoMap V) {k k' : String} (h : k' ≠ k) :
    get? (delete m k) k' = get? m k' := by
  induction m with
  | nil => simp [delete, get?]
  | cons e m ih =>
    obtain ⟨k0, v0⟩ := e
    by_cases h0 : k0 = k
    · subst h0
      simp [delete, get?, Ne.symm h, ih]
    · by_cases h1 : k0 = k'
      · subst h1
        simp [delete, get?, h0]
      · simp [delete, get?, h0, h1, ih]

theorem delete_of_get?_none (m : GoMap V) (k : String) (h : get? m k = none) :
    delete m k = m := by
  induction m with
  | nil => simp [delete]
  | cons e m ih =>
    obtain ⟨k', v'⟩ := e
    by_cases h0 : k' = k
    · simp [get?, h0] at h
    · simp [get?, h0] at h
      simp [delete, h0, ih h]

theorem delete_delete (m : GoMap V) (k : String) : delete (delete m k) k = delete m k :=
  delete_of_get?_none _ _ (get?_delete_self m k)

theorem set_of_get? (m : GoMap V) (k : String) (v : V) (h : get? m k = some v) :
    set m k v = m := by
  induction m with
  | nil => simp [get?] at h
  | cons e m ih =>
    obtain ⟨k', v'⟩ := e
    by_cases h0 : k' = k
    · simp [get?, h0] at h
      simp [set, h0, h]
    · simp [get?, h0] at h
      simp [set, h0, ih h]

theorem set_set (m : GoMap V) (k : String) (v w : V) : set (set m k v) k w = set m k w := by
  induction m with
  | nil => simp [set]
  | cons e m ih =>
    obtain ⟨k', v'⟩ := e
    by_cases h0 : k' = k <;> simp [set, h0, ih]

theorem get?_isSome_iff_mem_keys (m : GoMap V) (k : String) :
    (get? m k).isSome ↔ k ∈ keys m := by
  unfold keys
  rw [List.mem_dedup]
  induction m with
  | nil => simp [get?]
  | cons e m ih =>
    obtain ⟨k', v'⟩ := e
    by_cases h0 : k' = k
    · simp [get?, h0]
    · simp [get?, h0, ih, Ne.symm h0]

end GoMap

/-! ## The reference backend: contention, expiry, release -/

theorem defaultConnect.effective_pos (c : defaultConnect) (expire : Duration) :
    0 < defaultConnect.effective c expire := by
  unfold defaultConnect.effective
  simp only
  split_ifs with h1 h2 <;> first | (simp [time.Second]) | exact not_le.mp ‹_›

theorem defaultConnect.effective_of_pos (c : defaultConnect) {expire : Duration}
    (h : 0 < expire) : defaultConnect.effective c expire = expire := by
  unfold defaultConnect.effective
  simp only
  have h1 : ¬ expire ≤ 0 := not_le.mpr h
  simp [h1]

theorem defaultConnect.Lock_held (c : defaultConnect) (key : String) (expire : Duration)
    (clk : Clock) (untl : Time) (hk : GoMap.get? c.locks key = some untl)
    (hlt : clk.check < untl) :
    defaultConnect.Lock c key expire clk = (some ErrExisted, c) := by
  simp [defaultConnect.Lock, hk, hlt]

theorem defaultConnect.Lock_free (c : defaultConnect) (key : String) (expire : Duration)
    (clk : Clock)
    (hfree : ∀ untl, GoMap.get? c.locks key = some untl → untl ≤ clk.check) :
    (defaultConnect.Lock c key expire clk).1 = none ∧
    GoMap.get? (defaultConnect.Lock c key expire clk).2.locks key =
      some (clk.stamp + defaultConnect.effective c expire) ∧
    (defaultConnect.Lock c key expire clk).2.inst = c.inst := by
  unfold defaultConnect.Lock
  cases hk : GoMap.get? c.locks key with
  | none => simp [GoMap.get?_set_self]
  | some untl =>
    have := hfree untl hk
    have h1 : ¬ clk.check < untl := not_lt.mpr this
    simp [h1, GoMap.get?_set_self]

theorem defaultConnect.Lock_ok_get? (c : defaultConnect) (key : String) (expire : Duration)
    (clk : Clock) (hok : (defaultConnect.Lock c key expire clk).1 = none) :
    GoMap.get? (defaultConnect.Lock c key expire clk).2.locks key =
      some (clk.stamp + defaultConnect.effective c expire) ∧
    (defaultConnect.Lock c key expire clk).2.inst = c.inst := by
  refine (defaultConnect.Lock_free c key expire clk ?_).2
  intro untl hk
  by_contra hlt
  have hlt' : clk.check < untl := not_le.mp hlt
  rw [defaultConnect.Lock_held c key expire clk untl hk hlt'] at hok
  simp at hok

/-- C1. Contention on the reference backend. When `Lock(k, ttl)` with `ttl > 0`
succeeds, recording its expiry from the clock reading `t1`, every `Lock(k, ttl')`
whose clock reads an instant `t2 < t1 + ttl` (in particular every `t2` with
`t1 ≤ t2 < t1 + ttl`) fails with the already-held error, whatever `ttl'` is, and
returns the connection as it was: the whole lock table is unchanged and still
maps `k` to `t1 + ttl`. -/
theorem C1_lock_contention (c : defaultConnect) (k : String) (ttl ttl' : Duration)
    (clk1 clk2 : Clock) (t1 t2 : Time)
    (httl : 0 < ttl) (hclk1 : clk1.stamp = t1) (hclk2 : clk2.check = t2)
    (h2 : t2 < t1 + ttl)
    (hok : (defaultConnect.Lock c k ttl clk1).1 = none) :
    defaultConnect.Lock (defaultConnect.Lock c k ttl clk1).2 k ttl' clk2 =
      (some ErrExisted, (defaultConnect.Lock c k ttl clk1).2) ∧
    (defaultConnect.Lock (defaultConnect.Lock c k ttl clk1).2 k ttl' clk2).2.locks =
      (defaultConnect.Lock c k ttl clk1).2.locks ∧
    GoMap.get? (defaultConnect.Lock (defaultConnect.Lock c k ttl clk1).2 k ttl' clk2).2.locks k =
      some (t1 + ttl) := by
  have hget := (defaultConnect.Lock_ok_get? c k ttl clk1 hok).1
  rw [defaultConnect.effective_of_pos c httl, hclk1] at hget
  have hheld := defaultConnect.Lock_held (defaultConnect.Lock c k ttl clk1).2 k ttl' clk2
    (t1 + ttl) hget (by rw [hclk2]; exact h2)
  rw [hheld]
  exact ⟨rfl, rfl, hget⟩

/-- C1 at a concrete input: a lock on "job-1" taken at instant 100 for 50 units
refuses a second `Lock` at instant 120. -/
theorem C1_lock_contention_witness :
    defaultConnect.Lock (defaultConnect.Lock exampleConnect "job-1" 50 (Clock.at 100)).2
        "job-1" 7 (Clock.at 120) =
      (some ErrExisted, (defaultConnect.Lock exampleConnect "job-1" 50 (Clock.at 100)).2) ∧
    (defaultConnect.Lock (defaultConnect.Lock exampleConnect "job-1" 50 (Clock.at 100)).2
        "job-1" 7 (Clock.at 120)).2.locks =
      (defaultConnect.Lock exampleConnect "job-1" 50 (Clock.at 100)).2.locks ∧
    GoMap.get? (defaultConnect.Lock
        (defaultConnect.Lock exampleConnect "job-1" 50 (Clock.at 100)).2
        "job-1" 7 (Clock.at 120)).2.locks "job-1" = some (100 + 50) :=
  C1_lock_contention exampleConnect "job-1" 50 7 (Clock.at 100) (Clock.at 120) 100 120
    (by decide) rfl rfl (by decide) (by decide)

/-- C2. Expiry on the reference backend. When `k` is absent from the lock
table, or its recorded expiry is not after the clock reading `now`, then
`Lock(k, ttl)` with `ttl > 0` succeeds and the table afterwards maps `k` to the
reading the expiry is computed from plus `ttl`; in particular a lock recorded at
`t1` with `ttl` is acquired again by any `Lock` whose clock reads `t2 ≥ t1 + ttl`. -/
theorem C2_lock_after_expiry (c : defaultConnect) (k : String) (ttl : Duration) (clk : Clock)
    (httl : 0 < ttl)
    (hfree : GoMap.get? c.locks k = none ∨
      ∃ untl, GoMap.get? c.locks k = some untl ∧ untl ≤ clk.check) :
    (defaultConnect.Lock c k ttl clk).1 = none ∧
    GoMap.get? (defaultConnect.Lock c k ttl clk).2.locks k = some (clk.stamp + ttl) ∧
    ∀ (ttl2 : Duration) (clk2 : Clock), 0 < ttl2 → clk.stamp + ttl ≤ clk2.check →
      (defaultConnect.Lock (defaultConnect.Lock c k ttl clk).2 k ttl2 clk2).1 = none ∧
      GoMap.get? (defaultConnect.Lock (defaultConnect.Lock c k ttl clk).2 k ttl2 clk2).2.locks k =
        some (clk2.stamp + ttl2) := by
  have hfree' : ∀ untl, GoMap.get? c.locks k = some untl → untl ≤ clk.check := by
    intro untl hk
    rcases hfree with h | ⟨u, hu, hle⟩
    · rw [h] at hk; cases hk
    · rw [hu] at hk; cases hk; exact hle
  obtain ⟨h1, h2, _⟩ := defaultConnect.Lock_free c k ttl clk hfree'
  rw [defaultConnect.effective_of_pos c httl] at h2
  refine ⟨h1, h2, ?_⟩
  intro ttl2 clk2 httl2 hle
  obtain ⟨h3, h4, _⟩ := defaultConnect.Lock_free (defaultConnect.Lock c k ttl clk).2 k ttl2 clk2
    (by intro untl hk; rw [h2] at hk; cases hk; exact hle)
  rw [defaultConnect.effective_of_pos _ httl2] at h4
  exact ⟨h3, h4⟩

/-- C2 at a concrete input: "job-1", held until instant 150, is locked at
instant 150 for 50 units. -/
theorem C2_lock_after_expiry_witness :
    (defaultConnect.Lock { exampleConnect with locks := [("job-1", 150)] } "job-1" 50
      (Clock.at 150)).1 = none ∧
    GoMap.get? (defaultConnect.Lock { exampleConnect with locks := [("job-1", 150)] } "job-1" 50
      (Clock.at 150)).2.locks "job-1" = some (150 + 50) :=
  have h := C2_lock_after_expiry { exampleConnect with locks := [("job-1", 150)] } "job-1" 50
    (Clock.at 150) (by decide) (Or.inr ⟨150, by decide, by decide⟩)
  ⟨h.1, h.2.1⟩

/-- C3. Unlock on the reference backend always succeeds; it leaves the lock
table unchanged when `k` is absent; and a second `Unlock(k)` right after the
first succeeds too and leaves the table as the first one left it. -/
theorem C3_unlock_idempotent (c : defaultConnect) (k : String) :
    (defaultConnect.Unlock c k).1 = none ∧
    (GoMap.get? c.locks k = none → (defaultConnect.Unlock c k).2 = c) ∧
    (defaultConnect.Unlock (defaultConnect.Unlock c k).2 k).1 = none ∧
    (defaultConnect.Unlock (defaultConnect.Unlock c k).2 k).2 = (defaultConnect.Unlock c k).2 ∧
    GoMap.get? (defaultConnect.Unlock c k).2.locks k = none := by
  refine ⟨rfl, ?_, rfl, ?_, ?_⟩
  · intro h
    simp [defaultConnect.Unlock, GoMap.delete_of_get?_none c.locks k h]
  · simp [defaultConnect.Unlock, GoMap.delete_delete]
  · simp [defaultConnect.Unlock, GoMap.get?_delete_self]

/-! ## Instance resolution and dispatch -/

/-- The name that `getInst` looks up: the one given, or the one the Selector locates. -/
theorem Module.getInst_ok_iff {C : Type} (m : Module C) (conn key slot : String)
    (inst : Instance C) :
    Module.getInst m conn key = .ok (slot, inst) ↔
      ¬ (conn = "" ∧ m.ring = none) ∧
      slot = (if conn = "" then hashRing.Locate m.ring key else conn) ∧
      slot ≠ "" ∧ GoMap.get? m.instances slot = some inst := by
  unfold Module.getInst
  by_cases h1 : conn = "" ∧ m.ring = none
  · simp [h1]
  · have h1' : ¬ (conn = "" ∧ m.ring.isNone = true) := by
      simpa [Option.isNone_iff_eq_none] using h1
    simp only [h1', if_false, h1, not_false_eq_true, true_and]
    by_cases h2 : (if conn = "" then hashRing.Locate m.ring key else conn) = ""
    · simp only [h2, if_true]
      constructor
      · intro h; cases h
      · rintro ⟨rfl, hne, _⟩; exact absurd rfl hne
    · simp only [h2, if_false]
      cases hg : GoMap.get? m.instances (if conn = "" then hashRing.Locate m.ring key else conn) with
      | none =>
        simp only []
        constructor
        · intro h; cases h
        · rintro ⟨rfl, _, h⟩; rw [hg] at h; cases h
      | some i =>
        simp only []
        constructor
        · intro h
          injection h with h
          injection h with ha hb
          subst ha hb
          exact ⟨rfl, h2, hg⟩
        · rintro ⟨rfl, _, h⟩
          rw [hg] at h
          cases h
          rfl

/-- Resolution reads the Selector and the instance map only. -/
theorem Module.getInst_congr {C : Type} (m m' : Module C) (conn key : String)
    (hring : m'.ring = m.ring)
    (hinst : ∀ n, GoMap.get? m'.instances n = GoMap.get? m.instances n) :
    Module.getInst m' conn key = Module.getInst m conn key := by
  unfold Module.getInst
  simp only [hring, hinst]

theorem Module.getInst_set {C : Type} (m : Module C) (conn key slot : String)
    (inst inst' : Instance C) (h : Module.getInst m conn key = .ok (slot, inst)) :
    Module.getInst { m with instances := GoMap.set m.instances slot inst' } conn key =
      .ok (slot, inst') := by
  rw [Module.getInst_ok_iff] at h ⊢
  obtain ⟨h1, h2, h3, _⟩ := h
  exact ⟨h1, h2, h3, GoMap.get?_set_self _ _ _⟩

theorem Module.LockOn_of_getInst {C : Type} [Connection C] (m : Module C) (conn key slot : String)
    (expires : List Duration) (clk : Clock) (inst : Instance C)
    (h : Module.getInst m conn key = .ok (slot, inst)) :
    Module.LockOn m conn key expires clk =
      ((Connection.Lock inst.conn (inst.Config.Prefix ++ key)
          (expires.headD inst.Config.Expire) clk).1,
       { m with
          instances := GoMap.set m.instances slot
            { inst with
              conn := (Connection.Lock inst.conn (inst.Config.Prefix ++ key)
                (expires.headD inst.Config.Expire) clk).2 } }) := by
  simp [Module.LockOn, h]

theorem Module.UnlockOn_of_getInst {C : Type} [Connection C] (m : Module C)
    (conn key slot : String) (inst : Instance C)
    (h : Module.getInst m conn key = .ok (slot, inst)) :
    Module.UnlockOn m conn key =
      ((Connection.Unlock inst.conn (inst.Config.Prefix ++ key)).1,
       { m with
          instances := GoMap.set m.instances slot
            { inst with conn := (Connection.Unlock inst.conn (inst.Config.Prefix ++ key)).2 } }) := by
  simp [Module.UnlockOn, h]

theorem Module.LockOn_ok_getInst {C : Type} [Connection C] (m : Module C) (conn key : String)
    (expires : List Duration) (clk : Clock)
    (hok : (Module.LockOn m conn key expires clk).1 = none) :
    ∃ slot inst, Module.getInst m conn key = .ok (slot, inst) := by
  cases hg : Module.getInst m conn key with
  | error e => simp [Module.LockOn, hg] at hok
  | ok p => exact ⟨p.1, p.2, rfl⟩

theorem defaultConnect.effective_default (c : defaultConnect) {expire : Duration}
    (h : expire ≤ 0) (hd : 0 < c.inst.Config.Expire) :
    defaultConnect.effective c expire = c.inst.Config.Expire := by
  unfold defaultConnect.effective
  simp only [h, if_true, not_le.mpr hd, if_false]

theorem defaultConnect.effective_floor (c : defaultConnect) {expire : Duration}
    (h : expire ≤ 0) (hd : c.inst.Config.Expire ≤ 0) :
    defaultConnect.effective c expire = time.Second := by
  unfold defaultConnect.effective
  simp only [h, if_true, hd]

/-- C5. TTL resolution. When `LockOn` succeeds on an instance whose configured
expiry is `d` (the connection of the reference backend serving that very
instance), the expiry recorded for the prefixed key is the clock reading plus
`e`, where `e` is the explicit ttl when one is given and positive, else `d`
when `d` is positive, else one second; so the recorded expiry is strictly after
the reading. -/
theorem C5_ttl_resolution (m : Module defaultConnect) (conn key slot : String)
    (expires : List Duration) (clk : Clock) (inst : Instance defaultConnect)
    (hres : Module.getInst m conn key = .ok (slot, inst))
    (hback : inst.conn.inst.Config.Expire = inst.Config.Expire)
    (hok : (Module.LockOn m conn key expires clk).1 = none) :
    ∃ (inst' : Instance defaultConnect) (e : Duration),
      GoMap.get? (Module.LockOn m conn key expires clk).2.instances slot = some inst' ∧
      GoMap.get? inst'.conn.locks (inst.Config.Prefix ++ key) = some (clk.stamp + e) ∧
      (∀ t rest, expires = t :: rest → 0 < t → e = t) ∧
      ((expires = [] ∨ ∃ t rest, expires = t :: rest ∧ t ≤ 0) →
        (0 < inst.Config.Expire → e = inst.Config.Expire) ∧
        (inst.Config.Expire ≤ 0 → e = time.Second)) ∧
      clk.stamp < clk.stamp + e := by
  rw [Module.LockOn_of_getInst m conn key slot expires clk inst hres] at hok ⊢
  simp only at hok
  obtain ⟨hget, _⟩ := defaultConnect.Lock_ok_get? inst.conn (inst.Config.Prefix ++ key)
    (expires.headD inst.Config.Expire) clk hok
  refine ⟨_, defaultConnect.effective inst.conn (expires.headD inst.Config.Expire),
    GoMap.get?_set_self _ _ _, hget, ?_, ?_, ?_⟩
  · intro t rest hexp ht
    subst hexp
    exact defaultConnect.effective_of_pos _ ht
  · intro hcase
    have hle : 0 < inst.Config.Expire ∨ expires.headD inst.Config.Expire ≤ 0 := by
      rcases hcase with h | ⟨t, rest, h, ht⟩
      · subst h
        by_cases hd : 0 < inst.Config.Expire
        · exact Or.inl hd
        · exact Or.inr (not_lt.mp hd)
      · subst h
        exact Or.inr ht
    have hhead : 0 < inst.Config.Expire → expires.headD inst.Config.Expire ≤ 0 ∨
        expires.headD inst.Config.Expire = inst.Config.Expire := by
      intro _
      rcases hcase with h | ⟨t, rest, h, ht⟩
      · subst h; exact Or.inr rfl
      · subst h; exact Or.inl ht
    constructor
    · intro hd
      rcases hhead hd with h | h
      · rw [defaultConnect.effective_default _ h (by rw [hback]; exact hd), hback]
      · rw [h, defaultConnect.effective_of_pos _ hd]
    · intro hd
      have hh : expires.headD inst.Config.Expire ≤ 0 := by
        rcases hle with h | h
        · exact absurd h (not_lt.mpr hd)
        · exact h
      exact defaultConnect.effective_floor _ hh (by rw [hback]; exact hd)
  · exact lt_add_of_pos_right _ (defaultConnect.effective_pos _ _)

/-- C4. Release through the router. After `Module.Lock(k)` has succeeded,
leaving the router in state `m1`, the auto-routed `Unlock(k)` resolves to the
same instance as `Lock(k)` did and addresses the same prefixed key, which the
lock table of that instance then holds; it succeeds, whoever calls it and
whatever ttl remains; it removes that entry only, every other key of that table
and every other instance being left as they were; and a `Lock(k)` that follows
succeeds, at any instant and with any ttl. -/
theorem C4_unlock_then_lock (m m1 : Module defaultConnect) (k : String)
    (expires : List Duration) (clk : Clock)
    (hlock : Module.Lock m k expires clk = (none, m1)) :
    ∃ (slot : String) (inst inst1 : Instance defaultConnect),
      Module.getInst m "" k = .ok (slot, inst) ∧
      Module.getInst m1 "" k = .ok (slot, inst1) ∧
      inst1.Config = inst.Config ∧
      (GoMap.get? inst1.conn.locks (inst.Config.Prefix ++ k)).isSome ∧
      Module.Unlock m1 k = (none,
        { m1 with
          instances := GoMap.set m1.instances slot
            { inst1 with
              conn := { inst1.conn with
                locks := GoMap.delete inst1.conn.locks (inst.Config.Prefix ++ k) } } }) ∧
      GoMap.get? (GoMap.delete inst1.conn.locks (inst.Config.Prefix ++ k))
        (inst.Config.Prefix ++ k) = none ∧
      (∀ k', k' ≠ inst.Config.Prefix ++ k →
        GoMap.get? (GoMap.delete inst1.conn.locks (inst.Config.Prefix ++ k)) k' =
          GoMap.get? inst1.conn.locks k') ∧
      (∀ n, n ≠ slot →
        GoMap.get? (Module.Unlock m1 k).2.instances n = GoMap.get? m1.instances n) ∧
      (∀ expires2 clk2, (Module.Lock (Module.Unlock m1 k).2 k expires2 clk2).1 = none) := by
  have hok : (Module.LockOn m "" k expires clk).1 = none := by
    have := congrArg Prod.fst hlock
    exact this
  obtain ⟨slot, inst, hres⟩ := Module.LockOn_ok_getInst m "" k expires clk hok
  have hm1 : m1 = (Module.LockOn m "" k expires clk).2 := (congrArg Prod.snd hlock).symm
  rw [Module.LockOn_of_getInst m "" k slot expires clk inst hres] at hok hm1
  simp only at hok hm1
  obtain ⟨hget, _⟩ := defaultConnect.Lock_ok_get? inst.conn (inst.Config.Prefix ++ k)
    (expires.headD inst.Config.Expire) clk hok
  have hres1 := Module.getInst_set m "" k slot inst
    { inst with conn := (Connection.Lock inst.conn (inst.Config.Prefix ++ k)
        (expires.headD inst.Config.Expire) clk).2 } hres
  rw [← hm1] at hres1
  have hunlock := Module.UnlockOn_of_getInst m1 "" k slot _ hres1
  refine ⟨slot, inst, _, hres, hres1, rfl, ?_, hunlock, GoMap.get?_delete_self _ _,
    fun k' hk' => GoMap.get?_delete_ne _ hk', ?_, ?_⟩
  · show (GoMap.get? (defaultConnect.Lock inst.conn (inst.Config.Prefix ++ k)
        (expires.headD inst.Config.Expire) clk).2.locks (inst.Config.Prefix ++ k)).isSome = true
    rw [hget]
    rfl
  · intro n hn
    show GoMap.get? (Module.UnlockOn m1 "" k).2.instances n = _
    rw [hunlock]
    exact GoMap.get?_set_ne _ _ hn
  · intro expires2 clk2
    show (Module.LockOn (Module.UnlockOn m1 "" k).2 "" k expires2 clk2).1 = none
    have hres2 := Module.getInst_set m1 "" k slot _
      { inst with conn := (Connection.Unlock (Connection.Lock inst.conn (inst.Config.Prefix ++ k)
          (expires.headD inst.Config.Expire) clk).2 (inst.Config.Prefix ++ k)).2 } hres1
    rw [hunlock, Module.LockOn_of_getInst _ "" k slot expires2 clk2 _ hres2]
    refine (defaultConnect.Lock_free _ _ _ _ ?_).1
    intro untl hu
    have hnone : GoMap.get? (defaultConnect.Unlock (defaultConnect.Lock inst.conn
        (inst.Config.Prefix ++ k) (expires.headD inst.Config.Expire) clk).2
        (inst.Config.Prefix ++ k)).2.locks (inst.Config.Prefix ++ k) = none :=
      GoMap.get?_delete_self _ _
    exact Option.noConfusion (hnone.symm.trans hu)

/-! ## The weighted selector -/

/-- The names one entry of the weight map contributes to the sequence. -/
theorem newHashRing_fold (ws : List (String × Int)) (acc : List String) :
    ws.foldl (fun nodes e => if e.2 ≤ 0 then nodes else nodes ++ List.replicate e.2.toNat e.1) acc
      = acc ++ ws.flatMap (fun e => List.replicate e.2.toNat e.1) := by
  induction ws generalizing acc with
  | nil => simp
  | cons e ws ih =>
    rw [List.foldl_cons, ih]
    by_cases h : e.2 ≤ 0
    · have h0 : e.2.toNat = 0 := Int.toNat_eq_zero.mpr h
      simp [h, h0]
    · simp [h]

theorem newHashRing_nodes (ws : List (String × Int)) :
    (newHashRing ws).nodes = ws.flatMap (fun e => List.replicate e.2.toNat e.1) := by
  unfold newHashRing
  simp only [newHashRing_fold, List.nil_append]
  split_ifs with h
  · exact (List.length_eq_zero.mp h).symm
  · rfl

theorem newHashRing_count (ws : List (String × Int)) (n : String) :
    (newHashRing ws).nodes.count n =
      ((ws.filter (fun e => e.1 = n)).map (fun e => e.2.toNat)).sum := by
  rw [newHashRing_nodes]
  induction ws with
  | nil => simp
  | cons e ws ih =>
    rw [List.flatMap_cons, List.count_append, ih]
    by_cases h : e.1 = n
    · simp [List.filter_cons, h, List.count_replicate]
    · simp [List.filter_cons, h, List.count_replicate]

theorem newHashRing_mem (ws : List (String × Int)) (n : String) :
    n ∈ (newHashRing ws).nodes ↔ ∃ w, (n, w) ∈ ws ∧ 0 < w := by
  rw [newHashRing_nodes]
  simp only [List.mem_flatMap, List.mem_replicate, Prod.exists]
  constructor
  · rintro ⟨a, w, hmem, hw, rfl⟩
    exact ⟨w, hmem, by omega⟩
  · rintro ⟨w, hmem, hw⟩
    exact ⟨n, w, hmem, by omega, rfl⟩

theorem newHashRing_length (ws : List (String × Int)) :
    ((newHashRing ws).nodes.length : Int) = (ws.map (fun e => max e.2 0)).sum := by
  rw [newHashRing_nodes]
  induction ws with
  | nil => simp
  | cons e ws ih =>
    rw [List.flatMap_cons, List.length_append, List.map_cons, List.sum_cons, ← ih]
    simp only [List.length_replicate, Nat.cast_add, Int.toNat_eq_max]

/-- In a list with distinct keys the entries under one key are that entry alone. -/
theorem filter_key_of_nodup {V : Type} (ws : List (String × V)) (n : String) (w : V)
    (hnodup : (ws.map Prod.fst).Nodup) (hmem : (n, w) ∈ ws) :
    ws.filter (fun e => e.1 = n) = [(n, w)] := by
  induction ws with
  | nil => simp at hmem
  | cons e ws ih =>
    rw [List.map_cons, List.nodup_cons] at hnodup
    rcases List.mem_cons.mp hmem with h | h
    · subst h
      have : ws.filter (fun e => e.1 = n) = [] := by
        rw [List.filter_eq_nil_iff]
        intro e' he heq
        simp only [decide_eq_true_eq] at heq
        exact hnodup.1 (List.mem_map.mpr ⟨e', he, heq⟩)
      simp [List.filter_cons, this]
    · have hne : e.1 ≠ n := by
        intro heq
        exact hnodup.1 (List.mem_map.mpr ⟨(n, w), h, heq.symm⟩)
      simp [List.filter_cons, hne, ih hnodup.2 h]

/-- C7. Selector construction. For every weight map (an enumeration with
distinct names), the sequence built by `newHashRing` contains each name of
weight `w > 0` exactly `w` times and no name of weight `≤ 0`, nor any name that
is not in the map; its length is the sum of the positive weights; and when no
weight is positive the sequence is empty and `Locate` returns the empty name
for every key. -/
theorem C7_newHashRing_weights (ws : List (String × Int))
    (hnodup : (ws.map Prod.fst).Nodup) :
    (∀ n w, (n, w) ∈ ws → 0 < w → ((newHashRing ws).nodes.count n : Int) = w) ∧
    (∀ n w, (n, w) ∈ ws → w ≤ 0 → n ∉ (newHashRing ws).nodes) ∧
    (∀ n, n ∈ (newHashRing ws).nodes → ∃ w, (n, w) ∈ ws ∧ 0 < w) ∧
    ((newHashRing ws).nodes.length : Int) = (ws.map (fun e => max e.2 0)).sum ∧
    ((∀ e ∈ ws, e.2 ≤ 0) →
      (newHashRing ws).nodes = [] ∧
      ∀ key, hashRing.Locate (some (newHashRing ws)) key = "") := by
  refine ⟨?_, ?_, ?_, newHashRing_length ws, ?_⟩
  · intro n w hmem hw
    rw [newHashRing_count, filter_key_of_nodup ws n w hnodup hmem]
    simp [Int.toNat_of_nonneg (le_of_lt hw)]
  · intro n w hmem hw hin
    obtain ⟨w', hmem', hw'⟩ := (newHashRing_mem ws n).mp hin
    have h1 := filter_key_of_nodup ws n w hnodup hmem
    have h2 := filter_key_of_nodup ws n w' hnodup hmem'
    rw [h1] at h2
    simp only [List.cons.injEq, Prod.mk.injEq, true_and, and_true] at h2
    omega
  · intro n hin
    exact (newHashRing_mem ws n).mp hin
  · intro hall
    have hnil : (newHashRing ws).nodes = [] := by
      rw [List.eq_nil_iff_forall_not_mem]
      intro n hin
      obtain ⟨w, hmem, hw⟩ := (newHashRing_mem ws n).mp hin
      have := hall (n, w) hmem
      simp only at this
      omega
    refine ⟨hnil, fun key => ?_⟩
    simp [hashRing.Locate, hashRing.locateBytes, hashRing.locateOn, hnil]

/-- C7 at the weight map {A:2, B:1, C:0}: two entries A, one entry B, none for C. -/
theorem C7_newHashRing_weights_witness :
    (newHashRing [("A", 2), ("B", 1), ("C", 0)]).nodes = ["A", "A", "B"] ∧
    ((newHashRing [("A", 2), ("B", 1), ("C", 0)]).nodes.count "A" : Int) = 2 ∧
    "C" ∉ (newHashRing [("A", 2), ("B", 1), ("C", 0)]).nodes :=
  have h := C7_newHashRing_weights [("A", 2), ("B", 1), ("C", 0)] (by decide)
  ⟨by decide, h.1 "A" 2 (by decide) (by decide), h.2.1 "C" 0 (by decide) (by decide)⟩

theorem fnvStep_lt (h b : Nat) : fnvStep h b < 2 ^ 32 :=
  Nat.mod_lt _ (by decide)

theorem Sum32_lt (bs : List Nat) : Sum32 bs < 2 ^ 32 := by
  unfold Sum32
  have key : ∀ (l : List Nat) (h : Nat), h < 2 ^ 32 → l.foldl fnvStep h < 2 ^ 32 := by
    intro l
    induction l with
    | nil => intro h hh; exact hh
    | cons b l ih => intro h _; exact ih _ (fnvStep_lt h b)
  exact key bs _ (by decide)

/-- On 64 bits the conversion of a 32-bit hash value keeps its unsigned value. -/
theorem toInt_of_lt {u : Nat} (h : u < 2 ^ 32) : toInt intSize u = (u : Int) := by
  unfold toInt intSize
  have h1 : u % 2 ^ 64 = u := Nat.mod_eq_of_lt (by omega)
  simp only [h1]
  have h2 : u < 2 ^ (64 - 1) := by omega
  rw [if_pos h2]

/-- On 32 bits the conversion keeps a hash value below 2^31. -/
theorem toInt_32_of_lt {u : Nat} (h : u < 2 ^ 31) : toInt 32 u = (u : Int) := by
  unfold toInt
  have h1 : u % 2 ^ 32 = u := Nat.mod_eq_of_lt (by omega)
  simp only [h1]
  have h2 : u < 2 ^ (32 - 1) := by omega
  rw [if_pos h2]

/-- On 32 bits the conversion makes a hash value from 2^31 on negative. -/
theorem toInt_32_of_ge {u : Nat} (h0 : 2 ^ 31 ≤ u) (h1 : u < 2 ^ 32) :
    toInt 32 u = -((2 ^ 32 - u : Nat) : Int) := by
  unfold toInt
  have h2 : u % 2 ^ 32 = u := Nat.mod_eq_of_lt h1
  simp only [h2]
  have h3 : ¬ u < 2 ^ (32 - 1) := by omega
  rw [if_neg h3]
  omega

/-- The index where the conversion keeps the unsigned hash value. -/
theorem hashRing.index_of_kept (bits : Nat) (r : hashRing) (bs : List Nat)
    (h : toInt bits (Sum32 bs) = (Sum32 bs : Int)) :
    hashRing.index bits r bs = ((Sum32 bs % r.nodes.length : Nat) : Int) := by
  unfold hashRing.index
  rw [h, Int.ofNat_tmod]

theorem hashRing.index_eq (r : hashRing) (bs : List Nat) :
    hashRing.index intSize r bs = ((Sum32 bs % r.nodes.length : Nat) : Int) :=
  hashRing.index_of_kept intSize r bs (toInt_of_lt (Sum32_lt bs))

/-- Where the conversion keeps the unsigned hash value, `Locate` returns the
entry at the index hash mod length, which is within bounds. -/
theorem hashRing.locateOn_of_kept (bits : Nat) (r : hashRing) (bs : List Nat)
    (hne : r.nodes ≠ []) (h : toInt bits (Sum32 bs) = (Sum32 bs : Int)) :
    hashRing.index bits r bs = ((Sum32 bs % r.nodes.length : Nat) : Int) ∧
    0 ≤ hashRing.index bits r bs ∧ hashRing.index bits r bs < (r.nodes.length : Int) ∧
    hashRing.locateOn bits r bs = r.nodes.get? (Sum32 bs % r.nodes.length) ∧
    ∃ n, n ∈ r.nodes ∧ hashRing.locateOn bits r bs = some n := by
  have hlen : 0 < r.nodes.length := List.length_pos.mpr hne
  have hlt : Sum32 bs % r.nodes.length < r.nodes.length := Nat.mod_lt _ hlen
  have hidx := hashRing.index_of_kept bits r bs h
  have hloc : hashRing.locateOn bits r bs = r.nodes.get? (Sum32 bs % r.nodes.length) := by
    unfold hashRing.locateOn hashRing.nodeAt
    rw [hidx]
    have h0 : ¬ r.nodes.length = 0 := by omega
    have h1 : ¬ ((Sum32 bs % r.nodes.length : Nat) : Int) < 0 := by omega
    simp only [h0, if_false, h1, Int.toNat_ofNat]
  refine ⟨hidx, ?_, ?_, hloc, r.nodes.get ⟨_, hlt⟩, List.get_mem _ _ _, ?_⟩
  · rw [hidx]; omega
  · rw [hidx]; omega
  · rw [hloc, List.get?_eq_get hlt]

theorem hashRing.locateBytes_eq (r : hashRing) (bs : List Nat) (h : r.nodes ≠ []) :
    r.nodes.get? (Sum32 bs % r.nodes.length) = some (hashRing.locateBytes r bs) := by
  obtain ⟨_, _, _, hloc, n, _, hn⟩ :=
    hashRing.locateOn_of_kept intSize r bs h (toInt_of_lt (Sum32_lt bs))
  unfold hashRing.locateBytes
  rw [← hloc, hn]
  rfl

/-- The truncating remainder of the opposite of a natural number. -/
theorem neg_ofNat_tmod (k n : Nat) :
    Int.tmod (-(k : Int)) (n : Int) = -((k % n : Nat) : Int) := by
  cases k with
  | zero => simp
  | succ m => rfl

/-- On 32 bits a hash value from 2^31 on gives the index minus ((2^32 - hash)
mod length), which is negative unless the length divides 2^32 - hash, and then
the indexing fails. -/
theorem hashRing.index_32_of_ge (r : hashRing) (bs : List Nat) (hne : r.nodes ≠ [])
    (hge : 2 ^ 31 ≤ Sum32 bs) :
    hashRing.index 32 r bs = -(((2 ^ 32 - Sum32 bs) % r.nodes.length : Nat) : Int) ∧
    hashRing.index 32 r bs ≤ 0 ∧
    ((2 ^ 32 - Sum32 bs) % r.nodes.length ≠ 0 →
      hashRing.index 32 r bs < 0 ∧ hashRing.locateOn 32 r bs = none) := by
  have hlen : 0 < r.nodes.length := List.length_pos.mpr hne
  have hidx : hashRing.index 32 r bs =
      -(((2 ^ 32 - Sum32 bs) % r.nodes.length : Nat) : Int) := by
    unfold hashRing.index
    rw [toInt_32_of_ge hge (Sum32_lt bs), neg_ofNat_tmod]
  refine ⟨hidx, ?_, ?_⟩
  · rw [hidx]; omega
  · intro hrem
    have hneg : hashRing.index 32 r bs < 0 := by rw [hidx]; omega
    refine ⟨hneg, ?_⟩
    unfold hashRing.locateOn hashRing.nodeAt
    have h0 : ¬ r.nodes.length = 0 := by omega
    simp only [h0, if_false, hneg, if_true]

/-- C8, the claim fails where `int` has 32 bits. `Locate` converts the
unsigned 32-bit hash to `int` before it takes the remainder. The key "a" has the
FNV-1a hash 3826002220, which is not below 2^31: as a 32-bit `int` it is
-468965076, and on the five-node sequence A, A, B, B, B built from the weights
{A:2, B:3} the index is -1, so the indexing fails and `Locate` does not return.
In general on 32 bits, a hash from 2^31 on gives an index that is zero or
negative, and negative unless the length divides 2^32 - hash. Where the
conversion keeps the hash, which is so on 64 bits for every key and on 32 bits
for a hash below 2^31, the claim holds: the index is the hash modulo the length,
it lies in `0 ≤ idx < len`, and `Locate` returns the entry there, a member of the
sequence; on 64 bits the key "a" is located at index 0. -/
theorem C8_locate_negative_index :
    Sum32 (keyBytes "a") = 3826002220 ∧
    toInt 32 (Sum32 (keyBytes "a")) = -468965076 ∧
    (newHashRing [("A", 2), ("B", 3)]).nodes = ["A", "A", "B", "B", "B"] ∧
    hashRing.index 32 (newHashRing [("A", 2), ("B", 3)]) (keyBytes "a") = -1 ∧
    hashRing.locateOn 32 (newHashRing [("A", 2), ("B", 3)]) (keyBytes "a") = none ∧
    hashRing.index 64 (newHashRing [("A", 2), ("B", 3)]) (keyBytes "a") = 0 ∧
    hashRing.locateOn 64 (newHashRing [("A", 2), ("B", 3)]) (keyBytes "a") = some "A" ∧
    (∀ (r : hashRing) (bs : List Nat), r.nodes ≠ [] → 2 ^ 31 ≤ Sum32 bs →
      hashRing.index 32 r bs = -(((2 ^ 32 - Sum32 bs) % r.nodes.length : Nat) : Int) ∧
      hashRing.index 32 r bs ≤ 0 ∧
      ((2 ^ 32 - Sum32 bs) % r.nodes.length ≠ 0 →
        hashRing.index 32 r bs < 0 ∧ hashRing.locateOn 32 r bs = none)) ∧
    (∀ (r : hashRing) (bs : List Nat), r.nodes ≠ [] → Sum32 bs < 2 ^ 31 →
      hashRing.index 32 r bs = ((Sum32 bs % r.nodes.length : Nat) : Int) ∧
      0 ≤ hashRing.index 32 r bs ∧ hashRing.index 32 r bs < (r.nodes.length : Int) ∧
      hashRing.locateOn 32 r bs = r.nodes.get? (Sum32 bs % r.nodes.length) ∧
      ∃ n, n ∈ r.nodes ∧ hashRing.locateOn 32 r bs = some n) ∧
    (∀ (r : hashRing) (bs : List Nat), r.nodes ≠ [] →
      hashRing.index 64 r bs = ((Sum32 bs % r.nodes.length : Nat) : Int) ∧
      0 ≤ hashRing.index 64 r bs ∧ hashRing.index 64 r bs < (r.nodes.length : Int) ∧
      hashRing.locateOn 64 r bs = r.nodes.get? (Sum32 bs % r.nodes.length) ∧
      ∃ n, n ∈ r.nodes ∧ hashRing.locateOn 64 r bs = some n) ∧
    (∀ (r : hashRing) (key : String), r.nodes ≠ [] →
      hashRing.locateOn 64 r (keyBytes key) = some (hashRing.Locate (some r) key)) := by
  refine ⟨by decide, by decide, by decide, by decide, by decide, by decide, by decide,
    ?_, ?_, ?_, ?_⟩
  · intro r bs hne hge
    exact hashRing.index_32_of_ge r bs hne hge
  · intro r bs hne hlt
    exact hashRing.locateOn_of_kept 32 r bs hne (toInt_32_of_lt hlt)
  · intro r bs hne
    exact hashRing.locateOn_of_kept 64 r bs hne (toInt_of_lt (Sum32_lt bs))
  · intro r key hne
    obtain ⟨_, _, _, hloc, _⟩ :=
      hashRing.locateOn_of_kept 64 r (keyBytes key) hne (toInt_of_lt (Sum32_lt _))
    rw [hloc]
    exact hashRing.locateBytes_eq r (keyBytes key) hne

theorem GoMap.keys_nodup {V : Type} (m : GoMap V) : (GoMap.keys m).Nodup :=
  List.nodup_dedup _

theorem RangeOrder.mem_visit (ord : RangeOrder) (ks : List String) (k : String) :
    k ∈ ord.visit ks ↔ k ∈ ks :=
  (ord.perm ks).mem_iff

theorem RangeOrder.nodup_visit (ord : RangeOrder) {ks : List String} (h : ks.Nodup) :
    (ord.visit ks).Nodup :=
  (ord.perm ks).nodup_iff.mpr h

theorem GoMap.mem_range {V : Type} (m : GoMap V) (ord : RangeOrder) (k : String) (v : V) :
    (k, v) ∈ GoMap.range m ord ↔ GoMap.get? m k = some v := by
  unfold GoMap.range
  rw [List.mem_filterMap]
  constructor
  · rintro ⟨k', _, h⟩
    cases hg : GoMap.get? m k' with
    | none => simp [hg] at h
    | some v' =>
      simp only [hg, Option.map_some', Option.some.injEq, Prod.mk.injEq] at h
      obtain ⟨rfl, rfl⟩ := h
      exact hg
  · intro h
    refine ⟨k, ?_, by simp [h]⟩
    rw [RangeOrder.mem_visit, ← GoMap.get?_isSome_iff_mem_keys, h]
    rfl

theorem Config.withDefaults_Weight (cfg : Config) :
    (Config.withDefaults cfg).Weight = if cfg.Weight = 0 then 1 else cfg.Weight := by
  unfold Config.withDefaults
  by_cases h1 : cfg.Driver = "" <;> by_cases h2 : cfg.Weight = 0 <;>
    by_cases h3 : cfg.Expire = 0 <;> simp [h1, h2, h3]

/-- Completing a configuration twice is completing it once. -/
theorem Config.withDefaults_idem (cfg : Config) :
    Config.withDefaults (Config.withDefaults cfg) = Config.withDefaults cfg := by
  unfold Config.withDefaults
  by_cases h1 : cfg.Driver = "" <;> by_cases h2 : cfg.Weight = 0 <;>
    by_cases h3 : cfg.Expire = 0 <;> simp [h1, h2, h3, DEFAULT, time.Second]

/-- The key that one round of the loop of `Setup` writes. -/
theorem Module.setupStep_get?_of_ne (cs : GoMap Config) (k0 name : String)
    (h : (if k0 = "" then DEFAULT else k0) ≠ name) :
    GoMap.get? (Module.setupStep cs k0) name = GoMap.get? cs name := by
  unfold Module.setupStep
  cases hg : GoMap.get? cs k0 with
  | none => rfl
  | some cfg => exact GoMap.get?_set_ne _ _ (Ne.symm h)

theorem Module.setupStep_get?_self (cs : GoMap Config) (name : String) (cfg : Config)
    (hne : name ≠ "") (hg : GoMap.get? cs name = some cfg) :
    GoMap.get? (Module.setupStep cs name) name = some (Config.withDefaults cfg) := by
  unfold Module.setupStep
  simp only [hg, hne, if_false]
  exact GoMap.get?_set_self _ _ _

theorem Module.setup_fold_untouched (ks : List String) (cs : GoMap Config) (name : String)
    (hnot : name ∉ ks) (hdef : name ≠ DEFAULT ∨ "" ∉ ks) :
    GoMap.get? (ks.foldl Module.setupStep cs) name = GoMap.get? cs name := by
  induction ks generalizing cs with
  | nil => rfl
  | cons k0 rest ih =>
    rw [List.foldl_cons]
    have hk0 : k0 ≠ name := fun h => hnot (h ▸ List.mem_cons_self _ _)
    have hrest : name ∉ rest := fun h => hnot (List.mem_cons_of_mem _ h)
    have hdef' : name ≠ DEFAULT ∨ "" ∉ rest := by
      rcases hdef with h | h
      · exact Or.inl h
      · exact Or.inr (fun h' => h (List.mem_cons_of_mem _ h'))
    rw [ih _ hrest hdef']
    apply Module.setupStep_get?_of_ne
    by_cases h0 : k0 = ""
    · simp only [h0, if_true]
      rcases hdef with h | h
      · exact Ne.symm h
      · exact absurd (h0 ▸ List.mem_cons_self _ _) h
    · simp only [h0, if_false]
      exact hk0

theorem Module.setup_fold_visited (ks : List String) (cs : GoMap Config) (name : String)
    (cfg : Config) (hnodup : ks.Nodup) (hin : name ∈ ks) (hne : name ≠ "")
    (hdef : name ≠ DEFAULT ∨ "" ∉ ks) (hg : GoMap.get? cs name = some cfg) :
    GoMap.get? (ks.foldl Module.setupStep cs) name = some (Config.withDefaults cfg) := by
  induction ks generalizing cs with
  | nil => simp at hin
  | cons k0 rest ih =>
    rw [List.foldl_cons]
    rw [List.nodup_cons] at hnodup
    have hdef' : name ≠ DEFAULT ∨ "" ∉ rest := by
      rcases hdef with h | h
      · exact Or.inl h
      · exact Or.inr (fun h' => h (List.mem_cons_of_mem _ h'))
    by_cases hk0 : k0 = name
    · subst hk0
      rw [Module.setup_fold_untouched rest _ k0 hnodup.1 hdef']
      exact Module.setupStep_get?_self cs k0 cfg hne hg
    · have hin' : name ∈ rest := by
        rcases List.mem_cons.mp hin with h | h
        · exact absurd h.symm hk0
        · exact h
      apply ih _ hnodup.2 hin' hdef'
      rw [Module.setupStep_get?_of_ne, hg]
      by_cases h0 : k0 = ""
      · simp only [h0, if_true]
        rcases hdef with h | h
        · exact Ne.symm h
        · exact absurd (h0 ▸ List.mem_cons_self _ _) h
      · simp only [h0, if_false]
        exact hk0

/-- What `Setup` leaves under a name that is not empty and that the entry of
the empty name, if there is one, does not overwrite: the registered
configuration with its defaults filled in. -/
theorem Module.Setup_get? {C : Type} (m : Module C) (ord : RangeOrder) (name : String)
    (cfg : Config) (hclosed : m.opened = false) (hne : name ≠ "")
    (hdef : name ≠ DEFAULT ∨ GoMap.get? m.configs "" = none)
    (hg : GoMap.get? m.configs name = some cfg) :
    GoMap.get? (Module.Setup m ord).configs name = some (Config.withDefaults cfg) := by
  unfold Module.Setup
  have hlen : ¬ m.configs.length = 0 := by
    intro h
    rw [List.length_eq_zero] at h
    rw [h] at hg
    cases hg
  simp only [hclosed, Bool.false_eq_true, if_false, hlen]
  apply Module.setup_fold_visited _ _ _ _ (RangeOrder.nodup_visit _ (GoMap.keys_nodup _)) _ hne _ hg
  · rw [RangeOrder.mem_visit, ← GoMap.get?_isSome_iff_mem_keys, hg]
    rfl
  · rcases hdef with h | h
    · exact Or.inl h
    · right
      rw [RangeOrder.mem_visit, ← GoMap.get?_isSome_iff_mem_keys, h]
      simp

/-- A round of the loop of `Open` that does not abort stores the connected
instance under its name and, for a positive weight, records the weight. -/
theorem Module.openStep_ok {C : Type} [Connection C] (m : Module C) (name : String)
    (cfg : Config) (h : (Module.openStep m name cfg).abort = none) :
    ∃ conn : C, (Module.openStep m name cfg).state =
      { m with
        instances := GoMap.set m.instances name
          { conn := conn, Name := name, Config := cfg, Setting := cfg.Setting },
        weights := if 0 < cfg.Weight then GoMap.set m.weights name cfg.Weight else m.weights } := by
  unfold Module.openStep at h ⊢
  cases hd : GoMap.get? m.drivers cfg.Driver with
  | none => simp [hd] at h
  | some drv =>
    simp only [hd] at h ⊢
    cases hc : drv.Connect { Name := name, Config := cfg, Setting := cfg.Setting } with
    | error e => simp [hc] at h
    | ok conn =>
      simp only [hc] at h ⊢
      rcases ho : Connection.Open conn with ⟨err, conn'⟩
      cases err with
      | some e => simp [ho] at h
      | none =>
        refine ⟨conn', ?_⟩
        simp only [ho]
        by_cases hw : 0 < cfg.Weight
        · simp [hw]
        · simp [hw]

/-- A round of the loop of `Open` that aborts leaves the router as it was. -/
theorem Module.openStep_abort {C : Type} [Connection C] (m : Module C) (name : String)
    (cfg : Config) (msg : String) (h : (Module.openStep m name cfg).abort = some msg) :
    (Module.openStep m name cfg).state = m := by
  unfold Module.openStep at h ⊢
  cases hd : GoMap.get? m.drivers cfg.Driver with
  | none => rfl
  | some drv =>
    simp only [hd] at h ⊢
    cases hc : drv.Connect { Name := name, Config := cfg, Setting := cfg.Setting } with
    | error e => rfl
    | ok conn =>
      simp only [hc] at h ⊢
      rcases ho : Connection.Open conn with ⟨err, conn'⟩
      cases err with
      | some e => rfl
      | none => simp [ho] at h

/-- The loop of `Open` writes `instances` and `weights` only. -/
theorem Module.openLoop_frame {C : Type} [Connection C] (ks : List String) (m : Module C) :
    (Module.openLoop ks m).state.configs = m.configs ∧
    (Module.openLoop ks m).state.drivers = m.drivers ∧
    (Module.openLoop ks m).state.ring = m.ring ∧
    (Module.openLoop ks m).state.opened = m.opened ∧
    (Module.openLoop ks m).state.started = m.started := by
  induction ks generalizing m with
  | nil => exact ⟨rfl, rfl, rfl, rfl, rfl⟩
  | cons name rest ih =>
    unfold Module.openLoop
    cases hg : GoMap.get? m.configs name with
    | none => exact ih m
    | some cfg =>
      simp only
      cases ha : (Module.openStep m name cfg).abort with
      | some msg =>
        simp only
        rw [Module.openStep_abort m name cfg msg ha]
        exact ⟨rfl, rfl, rfl, rfl, rfl⟩
      | none =>
        simp only
        obtain ⟨conn, hs⟩ := Module.openStep_ok m name cfg ha
        have := ih (Module.openStep m name cfg).state
        rw [hs] at this ⊢
        exact this

theorem Module.openLoop_cons_skip {C : Type} [Connection C] (name : String) (rest : List String)
    (m : Module C) (hg : GoMap.get? m.configs name = none) :
    Module.openLoop (name :: rest) m = Module.openLoop rest m := by
  rw [Module.openLoop]
  simp only [hg]

theorem Module.openLoop_cons_ok {C : Type} [Connection C] (name : String) (rest : List String)
    (m : Module C) (cfg : Config) (hg : GoMap.get? m.configs name = some cfg)
    (ha : (Module.openStep m name cfg).abort = none) :
    (Module.openLoop (name :: rest) m).abort =
      (Module.openLoop rest (Module.openStep m name cfg).state).abort ∧
    (Module.openLoop (name :: rest) m).state =
      (Module.openLoop rest (Module.openStep m name cfg).state).state ∧
    (Module.openLoop (name :: rest) m).calls =
      (Module.openStep m name cfg).calls ++
        (Module.openLoop rest (Module.openStep m name cfg).state).calls := by
  rw [Module.openLoop]
  simp only [hg, ha, and_self]

theorem Module.openLoop_cons_abort {C : Type} [Connection C] (name : String)
    (rest : List String) (m : Module C) (cfg : Config) (msg : String)
    (hg : GoMap.get? m.configs name = some cfg)
    (ha : (Module.openStep m name cfg).abort = some msg) :
    Module.openLoop (name :: rest) m =
      ⟨some msg, (Module.openStep m name cfg).state, (Module.openStep m name cfg).calls⟩ := by
  rw [Module.openLoop]
  simp only [hg, ha]

/-- The instance map and the weights after a loop of `Open` that did not abort:
every visited name that has a configuration has its instance, carrying that
name and configuration, and its weight when that is positive; nothing else
changed. -/
theorem Module.openLoop_ok {C : Type} [Connection C] (ks : List String) (m : Module C)
    (h : (Module.openLoop ks m).abort = none) :
    (∀ n cfg, n ∈ ks → GoMap.get? m.configs n = some cfg →
      ∃ inst, GoMap.get? (Module.openLoop ks m).state.instances n = some inst ∧
        inst.Name = n ∧ inst.Config = cfg ∧ inst.Setting = cfg.Setting) ∧
    (∀ n, ¬ (n ∈ ks ∧ (GoMap.get? m.configs n).isSome) →
      GoMap.get? (Module.openLoop ks m).state.instances n = GoMap.get? m.instances n) ∧
    (∀ n cfg, n ∈ ks → GoMap.get? m.configs n = some cfg → 0 < cfg.Weight →
      GoMap.get? (Module.openLoop ks m).state.weights n = some cfg.Weight) ∧
    (∀ n, ¬ (n ∈ ks ∧ ∃ cfg, GoMap.get? m.configs n = some cfg ∧ 0 < cfg.Weight) →
      GoMap.get? (Module.openLoop ks m).state.weights n = GoMap.get? m.weights n) := by
  induction ks generalizing m with
  | nil =>
    refine ⟨?_, fun _ _ => rfl, ?_, fun _ _ => rfl⟩
    · intro n cfg hn; simp at hn
    · intro n cfg hn; simp at hn
  | cons name rest ih =>
    cases hg : GoMap.get? m.configs name with
    | none =>
      rw [Module.openLoop_cons_skip name rest m hg] at h ⊢
      obtain ⟨i1, i2, i3, i4⟩ := ih m h
      have hne : ∀ n cfg, GoMap.get? m.configs n = some cfg → n ≠ name := by
        intro n cfg hc hn
        rw [hn, hg] at hc
        cases hc
      refine ⟨?_, ?_, ?_, ?_⟩
      · intro n cfg hn hc
        rcases List.mem_cons.mp hn with h1 | h1
        · exact absurd h1 (hne n cfg hc)
        · exact i1 n cfg h1 hc
      · intro n hn
        exact i2 n (fun h' => hn ⟨List.mem_cons_of_mem _ h'.1, h'.2⟩)
      · intro n cfg hn hc hw
        rcases List.mem_cons.mp hn with h1 | h1
        · exact absurd h1 (hne n cfg hc)
        · exact i3 n cfg h1 hc hw
      · intro n hn
        exact i4 n (fun h' => hn ⟨List.mem_cons_of_mem _ h'.1, h'.2⟩)
    | some cfg0 =>
      cases ha : (Module.openStep m name cfg0).abort with
      | some msg =>
        rw [Module.openLoop_cons_abort name rest m cfg0 msg hg ha] at h
        cases h
      | none =>
        obtain ⟨e1, e2, _⟩ := Module.openLoop_cons_ok name rest m cfg0 hg ha
        rw [e1] at h
        rw [e2]
        obtain ⟨conn, hs⟩ := Module.openStep_ok m name cfg0 ha
        have hcfg : (Module.openStep m name cfg0).state.configs = m.configs := by rw [hs]
        have hinst : (Module.openStep m name cfg0).state.instances =
            GoMap.set m.instances name
              { conn := conn, Name := name, Config := cfg0, Setting := cfg0.Setting } := by
          rw [hs]
        have hwts : (Module.openStep m name cfg0).state.weights =
            if 0 < cfg0.Weight then GoMap.set m.weights name cfg0.Weight else m.weights := by
          rw [hs]
        obtain ⟨i1, i2, i3, i4⟩ := ih (Module.openStep m name cfg0).state h
        rw [hcfg] at i1 i2 i3 i4
        refine ⟨?_, ?_, ?_, ?_⟩
        · intro n cfg hn hc
          by_cases hr : n ∈ rest
          · exact i1 n cfg hr hc
          · have hnn : n = name := by
              rcases List.mem_cons.mp hn with h1 | h1
              · exact h1
              · exact absurd h1 hr
            subst hnn
            rw [hg] at hc
            cases hc
            rw [i2 n (fun h' => hr h'.1), hinst, GoMap.get?_set_self]
            exact ⟨_, rfl, rfl, rfl, rfl⟩
        · intro n hn
          have hnn : n ≠ name := by
            intro h'
            apply hn
            rw [h', hg]
            exact ⟨List.mem_cons_self _ _, rfl⟩
          rw [i2 n (fun h' => hn ⟨List.mem_cons_of_mem _ h'.1, h'.2⟩), hinst,
            GoMap.get?_set_ne _ _ hnn]
        · intro n cfg hn hc hw
          by_cases hr : n ∈ rest
          · exact i3 n cfg hr hc hw
          · have hnn : n = name := by
              rcases List.mem_cons.mp hn with h1 | h1
              · exact h1
              · exact absurd h1 hr
            subst hnn
            rw [hg] at hc
            cases hc
            rw [i4 n (fun h' => hr h'.1), hwts, if_pos hw, GoMap.get?_set_self]
        · intro n hn
          rw [i4 n (fun h' => hn ⟨List.mem_cons_of_mem _ h'.1, h'.2⟩), hwts]
          by_cases hw : 0 < cfg0.Weight
          · have hnn : n ≠ name := by
              intro h'
              apply hn
              rw [h']
              exact ⟨List.mem_cons_self _ _, cfg0, hg, hw⟩
            rw [if_pos hw, GoMap.get?_set_ne _ _ hnn]
          · rw [if_neg hw]

/-- The router after an `Open` that did not abort, from a router that was not open. -/
theorem Module.Open_ok {C : Type} [Connection C] (m : Module C) (ordC ordW : RangeOrder)
    (hclosed : m.opened = false) (h : (Module.Open m ordC ordW).abort = none) :
    (Module.Open m ordC ordW).state.opened = true ∧
    (Module.Open m ordC ordW).state.configs = m.configs ∧
    (Module.Open m ordC ordW).state.ring =
      some (newHashRing (GoMap.range (Module.Open m ordC ordW).state.weights ordW)) ∧
    (∀ n cfg, GoMap.get? m.configs n = some cfg →
      ∃ inst, GoMap.get? (Module.Open m ordC ordW).state.instances n = some inst ∧
        inst.Name = n ∧ inst.Config = cfg ∧ inst.Setting = cfg.Setting) ∧
    (∀ n, GoMap.get? m.configs n = none →
      GoMap.get? (Module.Open m ordC ordW).state.instances n = GoMap.get? m.instances n) ∧
    (∀ n cfg, GoMap.get? m.configs n = some cfg → 0 < cfg.Weight →
      GoMap.get? (Module.Open m ordC ordW).state.weights n = some cfg.Weight) ∧
    (∀ n, ¬ (∃ cfg, GoMap.get? m.configs n = some cfg ∧ 0 < cfg.Weight) →
      GoMap.get? (Module.Open m ordC ordW).state.weights n = GoMap.get? m.weights n) := by
  unfold Module.Open at h ⊢
  simp only [hclosed, Bool.false_eq_true, if_false] at h ⊢
  by_cases hlen : m.configs.length = 0
  · simp [hlen] at h
  · simp only [hlen, if_false] at h ⊢
    cases ha : (Module.openLoop (ordC.visit (GoMap.keys m.configs)) m).abort with
    | some msg => simp [ha] at h
    | none =>
      simp only [ha]
      obtain ⟨i1, i2, i3, i4⟩ := Module.openLoop_ok _ m ha
      obtain ⟨f1, _, _, _, _⟩ := Module.openLoop_frame (ordC.visit (GoMap.keys m.configs)) m
      have hmem : ∀ n cfg, GoMap.get? m.configs n = some cfg →
          n ∈ ordC.visit (GoMap.keys m.configs) := by
        intro n cfg hc
        rw [RangeOrder.mem_visit, ← GoMap.get?_isSome_iff_mem_keys, hc]
        rfl
      refine ⟨trivial, f1, trivial, ?_, ?_, ?_, ?_⟩
      · intro n cfg hc
        exact i1 n cfg (hmem n cfg hc) hc
      · intro n hc
        exact i2 n (fun h' => by rw [hc] at h'; exact absurd h'.2 (by simp))
      · intro n cfg hc hw
        exact i3 n cfg (hmem n cfg hc) hc hw
      · intro n hn
        exact i4 n (fun h' => hn h'.2)

/-- C10, the claim as stated fails. In `exampleRegistered` the instance "b" is
registered with weight 0; `Setup` replaces that weight by 1, `Open` succeeds
and puts "b" into the Selector, and the auto-routed resolution of the key
"job-1" selects the instance "b". -/
theorem C10_weight_zero_counterexample :
    (GoMap.get? exampleRegistered.configs "b").map (fun cfg => cfg.Weight) = some 0 ∧
    (GoMap.get? (Module.Setup exampleRegistered RangeOrder.stored).configs "b").map
      (fun cfg => cfg.Weight) = some 1 ∧
    (Module.Open (Module.Setup exampleRegistered RangeOrder.stored)
      RangeOrder.stored RangeOrder.stored).abort = none ∧
    exampleRouter.ring = some ⟨["a", "a", "b"]⟩ ∧
    (Module.getInst exampleRouter "" "job-1").toOption.map (fun r => (r.1, r.2.Name)) =
      some ("b", "b") :=
  ⟨by decide, by decide, by decide, by decide, by decide⟩

/-- C10 as amended. Take a router that is not open, with no instances and no
weights, and an instance registered under a name that is not empty (and, when
it is the default name, not overwritten by an entry registered under the empty
name). After `Setup` and a successful `Open`, resolution by its explicit name
returns that instance, with the registered configuration completed by the
defaults. When the registered weight is negative, auto-routing selects that
instance for no key. When the registered weight is 0, `Setup` has replaced it by
1 and the name is in the Selector with weight 1. -/
theorem C10_unrouted_amended {C : Type} [Connection C] (m : Module C)
    (ordS ordC ordW : RangeOrder) (name : String) (cfg : Config)
    (hclosed : m.opened = false) (hinst : m.instances = []) (hweights : m.weights = [])
    (hname : name ≠ "")
    (hdef : name ≠ DEFAULT ∨ GoMap.get? m.configs "" = none)
    (hcfg : GoMap.get? m.configs name = some cfg)
    (hopen : (Module.Open (Module.Setup m ordS) ordC ordW).abort = none) :
    (∃ inst, inst.Name = name ∧ inst.Config = Config.withDefaults cfg ∧
      ∀ key, Module.getInst (Module.Open (Module.Setup m ordS) ordC ordW).state name key =
        .ok (name, inst)) ∧
    (cfg.Weight < 0 →
      ∀ key slot inst,
        Module.getInst (Module.Open (Module.Setup m ordS) ordC ordW).state "" key =
          .ok (slot, inst) →
        slot ≠ name ∧ inst.Name ≠ name) ∧
    (cfg.Weight = 0 →
      GoMap.get? (Module.Open (Module.Setup m ordS) ordC ordW).state.weights name = some 1 ∧
      ∃ r, (Module.Open (Module.Setup m ordS) ordC ordW).state.ring = some r ∧
        name ∈ r.nodes) := by
  have hsetup := Module.Setup_get? m ordS name cfg hclosed hname hdef hcfg
  have hclosed' : (Module.Setup m ordS).opened = false := by
    unfold Module.Setup
    simp [hclosed]
  have hinst' : (Module.Setup m ordS).instances = [] := by
    unfold Module.Setup
    simp [hclosed, hinst]
  have hweights' : (Module.Setup m ordS).weights = [] := by
    unfold Module.Setup
    simp [hclosed, hweights]
  obtain ⟨_, _, hring, o1, o2, o3, o4⟩ :=
    Module.Open_ok (Module.Setup m ordS) ordC ordW hclosed' hopen
  obtain ⟨inst, hget, hn, hc, _⟩ := o1 name _ hsetup
  refine ⟨⟨inst, hn, hc, fun key => ?_⟩, ?_, ?_⟩
  · rw [Module.getInst_ok_iff]
    simp [hname, hget]
  · intro hneg key slot inst' hres
    rw [Module.getInst_ok_iff] at hres
    obtain ⟨_, hslot, hslotne, hgi⟩ := hres
    simp only [if_true] at hslot
    have hnotw : GoMap.get? (Module.Open (Module.Setup m ordS) ordC ordW).state.weights name
        = none := by
      rw [o4 name, hweights']
      · rfl
      · rintro ⟨c, hc1, hc2⟩
        rw [hsetup] at hc1
        cases hc1
        rw [Config.withDefaults_Weight] at hc2
        have hne0 : cfg.Weight ≠ 0 := by omega
        rw [if_neg hne0] at hc2
        omega
    have hslotname : slot ≠ name := by
      intro heq
      rw [heq, hring] at hslot
      have hnodes : (newHashRing (GoMap.range
          (Module.Open (Module.Setup m ordS) ordC ordW).state.weights ordW)).nodes ≠ [] := by
        intro hnil
        rw [hslot] at hname
        simp [hashRing.Locate, hashRing.locateBytes, hashRing.locateOn, hnil] at hname
      have hmem := List.get?_mem (hashRing.locateBytes_eq _ (keyBytes key) hnodes)
      change hashRing.Locate (some _) key ∈ _ at hmem
      rw [← hslot, newHashRing_mem] at hmem
      obtain ⟨w, hw, _⟩ := hmem
      rw [GoMap.mem_range, hnotw] at hw
      cases hw
    refine ⟨hslotname, ?_⟩
    cases hcs : GoMap.get? (Module.Setup m ordS).configs slot with
    | none =>
      rw [o2 slot hcs, hinst'] at hgi
      cases hgi
    | some c =>
      obtain ⟨i, hi, hin, _⟩ := o1 slot c hcs
      rw [hi] at hgi
      cases hgi
      rw [hin]
      exact hslotname
  · intro hzero
    have hw1 : (Config.withDefaults cfg).Weight = 1 := by
      rw [Config.withDefaults_Weight, if_pos hzero]
    have hget1 := o3 name _ hsetup (by rw [hw1]; decide)
    rw [hw1] at hget1
    refine ⟨hget1, _, hring, ?_⟩
    rw [newHashRing_mem]
    exact ⟨1, (GoMap.mem_range _ _ _ _).mpr hget1, by decide⟩

/-- C10 as amended, at `exampleSpare`: "spare" is resolved by name and never auto-routed. -/
theorem C10_unrouted_amended_witness :
    (Module.Open (Module.Setup exampleSpare RangeOrder.stored)
      RangeOrder.stored RangeOrder.stored).state.ring = some ⟨["main"]⟩ ∧
    ∃ inst : Instance defaultConnect, inst.Name = "spare" ∧
      ∀ key, Module.getInst (Module.Open (Module.Setup exampleSpare RangeOrder.stored)
        RangeOrder.stored RangeOrder.stored).state "spare" key = .ok ("spare", inst) :=
  have h := C10_unrouted_amended exampleSpare RangeOrder.stored RangeOrder.stored
    RangeOrder.stored "spare"
    { Driver := "", Weight := -1, Prefix := "s:", Expire := 0, Setting := [] }
    rfl rfl rfl (by decide) (Or.inl (by decide)) rfl (by decide)
  ⟨by decide, h.1.imp (fun _ hi => ⟨hi.1, hi.2.2⟩)⟩

/-! ## The claims on the router at concrete inputs -/

/-- C4 at `exampleRouter`: "job-1" is locked at instant 100, released, and
locked again at instant 101, long before the first lock would have expired. -/
theorem C4_unlock_then_lock_witness :
    (Module.Lock exampleRouter "job-1" [] (Clock.at 100)).1 = none ∧
    (Module.Unlock (Module.Lock exampleRouter "job-1" [] (Clock.at 100)).2 "job-1").1 = none ∧
    (Module.Lock (Module.Unlock (Module.Lock exampleRouter "job-1" [] (Clock.at 100)).2
      "job-1").2 "job-1" [] (Clock.at 101)).1 = none := by
  obtain ⟨_, _, _, _, _, _, _, hu, _, _, _, hl⟩ :=
    C4_unlock_then_lock exampleRouter (Module.Lock exampleRouter "job-1" [] (Clock.at 100)).2
      "job-1" [] (Clock.at 100) (Prod.ext (by decide) rfl)
  exact ⟨by decide, congrArg Prod.fst hu, hl [] (Clock.at 101)⟩

/-- C5 at `exampleRouter`: "job-1" is routed to the instance "b", whose expiry
`Setup` has set to one second; without an explicit ttl the lock taken at
instant 100 is recorded under "b:job-1" with expiry 100 plus one second. -/
theorem C5_ttl_resolution_witness :
    ∃ (inst' : Instance defaultConnect) (e : Duration),
      GoMap.get? (Module.LockOn exampleRouter "" "job-1" [] (Clock.at 100)).2.instances "b" =
        some inst' ∧
      GoMap.get? inst'.conn.locks "b:job-1" = some (100 + e) ∧ e = 1000000000 := by
  obtain ⟨inst', e, h1, h2, _, h4, _⟩ :=
    C5_ttl_resolution exampleRouter "" "job-1" "b" [] (Clock.at 100) exampleInstanceB
      rfl rfl (by decide)
  exact ⟨inst', e, h1, h2, (h4 (Or.inl rfl)).1 (by decide)⟩

/-! ## Setup: the defaults -/

theorem Config.withDefaults_fields (cfg : Config) :
    (Config.withDefaults cfg).Driver = (if cfg.Driver = "" then DEFAULT else cfg.Driver) ∧
    (Config.withDefaults cfg).Weight = (if cfg.Weight = 0 then 1 else cfg.Weight) ∧
    (Config.withDefaults cfg).Expire = (if cfg.Expire = 0 then time.Second else cfg.Expire) ∧
    (Config.withDefaults cfg).Prefix = cfg.Prefix ∧
    (Config.withDefaults cfg).Setting = cfg.Setting := by
  unfold Config.withDefaults
  by_cases h1 : cfg.Driver = "" <;> by_cases h2 : cfg.Weight = 0 <;>
    by_cases h3 : cfg.Expire = 0 <;> simp [h1, h2, h3]

/-- A completed configuration has no field left at its zero value. -/
theorem Config.withDefaults_set (cfg : Config) :
    (Config.withDefaults cfg).Driver ≠ "" ∧ (Config.withDefaults cfg).Weight ≠ 0 ∧
    (Config.withDefaults cfg).Expire ≠ 0 := by
  obtain ⟨h1, h2, h3, _, _⟩ := Config.withDefaults_fields cfg
  rw [h1, h2, h3]
  refine ⟨?_, ?_, ?_⟩
  · split_ifs with h
    · decide
    · exact h
  · split_ifs with h
    · decide
    · exact h
  · split_ifs with h
    · decide
    · exact h

theorem GoMap.get?_set_isSome {V : Type} (m : GoMap V) (k k' : String) (v : V)
    (h : (GoMap.get? m k').isSome) : (GoMap.get? (GoMap.set m k v) k').isSome := by
  by_cases hk : k' = k
  · rw [hk, GoMap.get?_set_self]; rfl
  · rw [GoMap.get?_set_ne _ _ hk]; exact h

theorem Module.setupStep_isSome (cs : GoMap Config) (k0 k : String)
    (h : (GoMap.get? cs k).isSome) : (GoMap.get? (Module.setupStep cs k0) k).isSome := by
  unfold Module.setupStep
  cases hg : GoMap.get? cs k0 with
  | none => exact h
  | some cfg => exact GoMap.get?_set_isSome _ _ _ _ h

theorem Module.setup_fold_isSome (ks : List String) (cs : GoMap Config) (k : String)
    (h : (GoMap.get? cs k).isSome) : (GoMap.get? (ks.foldl Module.setupStep cs) k).isSome := by
  induction ks generalizing cs with
  | nil => exact h
  | cons k0 rest ih => exact ih _ (Module.setupStep_isSome cs k0 k h)

/-- During the loop of `Setup`, an entry under a name that is not empty is
completed or still to be visited. -/
theorem Module.setup_fold_completed (ks : List String) (cs : GoMap Config)
    (h : ∀ k c, k ≠ "" → GoMap.get? cs k = some c →
      (c.Driver ≠ "" ∧ c.Weight ≠ 0 ∧ c.Expire ≠ 0) ∨ k ∈ ks) :
    ∀ k c, k ≠ "" → GoMap.get? (ks.foldl Module.setupStep cs) k = some c →
      c.Driver ≠ "" ∧ c.Weight ≠ 0 ∧ c.Expire ≠ 0 := by
  induction ks generalizing cs with
  | nil =>
    intro k c hk hg
    rcases h k c hk hg with h1 | h1
    · exact h1
    · simp at h1
  | cons k0 rest ih =>
    rw [List.foldl_cons]
    apply ih
    intro k c hk hg
    unfold Module.setupStep at hg
    cases hg0 : GoMap.get? cs k0 with
    | none =>
      rw [hg0] at hg
      rcases h k c hk hg with h1 | h1
      · exact Or.inl h1
      · rcases List.mem_cons.mp h1 with h2 | h2
        · rw [h2, hg0] at hg; cases hg
        · exact Or.inr h2
    | some cfg0 =>
      rw [hg0] at hg
      simp only at hg
      by_cases hkt : k = (if k0 = "" then DEFAULT else k0)
      · rw [hkt, GoMap.get?_set_self] at hg
        cases hg
        exact Or.inl (Config.withDefaults_set cfg0)
      · rw [GoMap.get?_set_ne _ _ hkt] at hg
        rcases h k c hk hg with h1 | h1
        · exact Or.inl h1
        · rcases List.mem_cons.mp h1 with h2 | h2
          · exfalso
            apply hkt
            rw [h2] at hk
            rw [h2, if_neg hk]
          · exact Or.inr h2

/-- C11, the claim as stated fails. On a fresh router the configuration
registered under "x" with an expiry of -5 keeps that expiry through `Setup`: it
is not replaced by one second and is not strictly positive. -/
theorem C11_negative_expiry_counterexample :
    (Module.RegisterConfig (Module.fresh defaultConnect) "x"
      { Driver := "", Weight := 0, Prefix := "", Expire := -5, Setting := [] }).abort = none ∧
    (GoMap.get? (Module.Setup (Module.RegisterConfig (Module.fresh defaultConnect) "x"
      { Driver := "", Weight := 0, Prefix := "", Expire := -5, Setting := [] }).state
        RangeOrder.stored).configs "x").map (fun cfg => (cfg.Driver, cfg.Weight, cfg.Expire)) =
      some ("default", 1, -5) ∧
    ¬ (0 : Duration) < -5 :=
  ⟨by decide, by decide, by decide⟩

/-- C11 as amended. For every router that is not open, after `Setup` the
configuration map is not empty; when nothing was registered it holds the default
instance alone, with the default backend, weight 1 and an expiry of one second;
every configuration stored under a name that is not empty has a backend name
that is not empty, a weight other than 0 and an expiry other than 0; and a
configuration registered under a name that is not empty (and, when it is the
default name, not overwritten by an entry registered under the empty name) keeps
every field that was set, its empty backend name replaced by the default one,
its weight 0 by 1 and its expiry 0 by one second, so that an expiry that was not
negative is strictly positive afterwards. A negative expiry is kept. -/
theorem C11_setup_defaults_amended {C : Type} (m : Module C) (ord : RangeOrder)
    (hclosed : m.opened = false) :
    (Module.Setup m ord).configs ≠ [] ∧
    (m.configs = [] → (Module.Setup m ord).configs = [(DEFAULT, Config.initial)]) ∧
    (∀ name cfg, name ≠ "" → GoMap.get? (Module.Setup m ord).configs name = some cfg →
      cfg.Driver ≠ "" ∧ cfg.Weight ≠ 0 ∧ cfg.Expire ≠ 0) ∧
    (∀ name cfg0, name ≠ "" → (name ≠ DEFAULT ∨ GoMap.get? m.configs "" = none) →
      GoMap.get? m.configs name = some cfg0 →
      ∃ cfg, GoMap.get? (Module.Setup m ord).configs name = some cfg ∧
        cfg.Driver = (if cfg0.Driver = "" then DEFAULT else cfg0.Driver) ∧
        cfg.Weight = (if cfg0.Weight = 0 then 1 else cfg0.Weight) ∧
        cfg.Expire = (if cfg0.Expire = 0 then time.Second else cfg0.Expire) ∧
        cfg.Prefix = cfg0.Prefix ∧ cfg.Setting = cfg0.Setting ∧
        (0 ≤ cfg0.Expire → 0 < cfg.Expire) ∧ (cfg0.Expire < 0 → cfg.Expire = cfg0.Expire)) := by
  refine ⟨?_, ?_, ?_, ?_⟩
  · unfold Module.Setup
    simp only [hclosed, Bool.false_eq_true, if_false]
    by_cases hlen : m.configs.length = 0
    · simp only [hlen, if_true]
      intro hnil
      have := Module.setup_fold_isSome
        (ord.visit (GoMap.keys (GoMap.set m.configs DEFAULT
          { Driver := DEFAULT, Weight := 1, Prefix := "", Expire := time.Second, Setting := [] })))
        (GoMap.set m.configs DEFAULT
          { Driver := DEFAULT, Weight := 1, Prefix := "", Expire := time.Second, Setting := [] })
        DEFAULT (by rw [GoMap.get?_set_self]; rfl)
      rw [hnil] at this
      simp [GoMap.get?] at this
    · simp only [hlen, if_false]
      intro hnil
      cases hc : m.configs with
      | nil => rw [hc] at hlen; simp at hlen
      | cons e rest =>
        have := Module.setup_fold_isSome (ord.visit (GoMap.keys m.configs)) m.configs e.1
          (by rw [hc]; simp [GoMap.get?])
        rw [hnil] at this
        simp [GoMap.get?] at this
  · intro hempty
    unfold Module.Setup
    simp only [hclosed, Bool.false_eq_true, if_false, hempty, List.length_nil, if_true]
    have hkeys : GoMap.keys (GoMap.set ([] : GoMap Config) DEFAULT
        { Driver := DEFAULT, Weight := 1, Prefix := "", Expire := time.Second, Setting := [] })
        = [DEFAULT] := by
      simp [GoMap.keys, GoMap.set]
    rw [hkeys, List.perm_singleton.mp (ord.perm [DEFAULT])]
    rfl
  · intro name cfg hne hg
    unfold Module.Setup at hg
    simp only [hclosed, Bool.false_eq_true, if_false] at hg
    refine Module.setup_fold_completed _ _ ?_ name cfg hne hg
    intro k c _ hk
    right
    rw [RangeOrder.mem_visit, ← GoMap.get?_isSome_iff_mem_keys, hk]
    rfl
  · intro name cfg0 hne hdef hg
    refine ⟨_, Module.Setup_get? m ord name cfg0 hclosed hne hdef hg, ?_⟩
    obtain ⟨h1, h2, h3, h4, h5⟩ := Config.withDefaults_fields cfg0
    refine ⟨h1, h2, h3, h4, h5, ?_, ?_⟩
    · intro hpos
      rw [h3]
      split_ifs with h0
      · decide
      · exact lt_of_le_of_ne hpos (Ne.symm h0)
    · intro hneg
      rw [h3, if_neg (ne_of_lt hneg)]

/-- C11 as amended, at `exampleRegistered`: the instance "b", registered with
neither backend, weight nor expiry, has the default backend, weight 1 and an
expiry of one second after `Setup`. -/
theorem C11_setup_defaults_amended_witness :
    (Module.Setup exampleRegistered RangeOrder.stored).configs ≠ [] ∧
    ∃ cfg, GoMap.get? (Module.Setup exampleRegistered RangeOrder.stored).configs "b" = some cfg ∧
      cfg.Driver = "default" ∧ cfg.Weight = 1 ∧ cfg.Expire = 1000000000 ∧ cfg.Prefix = "b:" := by
  have h := C11_setup_defaults_amended exampleRegistered RangeOrder.stored rfl
  obtain ⟨cfg, h1, h2, h3, h4, h5, _⟩ := h.2.2.2 "b"
    { Driver := "", Weight := 0, Prefix := "b:", Expire := 0, Setting := [] }
    (by decide) (Or.inl (by decide)) rfl
  exact ⟨h.1, cfg, h1, h2, h3, h4, h5⟩

/-! ## Configuration: the merge of `configure` -/

theorem Config.mergeDriver_frame (cfg : Config) (conf : BaseMap) :
    (Config.mergeDriver cfg conf).Weight = cfg.Weight ∧
    (Config.mergeDriver cfg conf).Prefix = cfg.Prefix ∧
    (Config.mergeDriver cfg conf).Expire = cfg.Expire ∧
    (Config.mergeDriver cfg conf).Setting = cfg.Setting := by
  unfold Config.mergeDriver
  split
  · split_ifs <;> exact ⟨rfl, rfl, rfl, rfl⟩
  · exact ⟨rfl, rfl, rfl, rfl⟩

theorem Config.mergeWeight_frame (tgt : Target) (cfg : Config) (conf : BaseMap) :
    (Config.mergeWeight tgt cfg conf).Driver = cfg.Driver ∧
    (Config.mergeWeight tgt cfg conf).Prefix = cfg.Prefix ∧
    (Config.mergeWeight tgt cfg conf).Expire = cfg.Expire ∧
    (Config.mergeWeight tgt cfg conf).Setting = cfg.Setting := by
  unfold Config.mergeWeight
  split <;> exact ⟨rfl, rfl, rfl, rfl⟩

theorem Config.mergePrefix_frame (cfg : Config) (conf : BaseMap) :
    (Config.mergePrefix cfg conf).Driver = cfg.Driver ∧
    (Config.mergePrefix cfg conf).Weight = cfg.Weight ∧
    (Config.mergePrefix cfg conf).Expire = cfg.Expire ∧
    (Config.mergePrefix cfg conf).Setting = cfg.Setting := by
  unfold Config.mergePrefix
  split <;> exact ⟨rfl, rfl, rfl, rfl⟩

theorem Config.mergeExpire_frame (tgt : Target) (parse : String → Option Duration)
    (cfg : Config) (conf : BaseMap) :
    (Config.mergeExpire tgt parse cfg conf).Driver = cfg.Driver ∧
    (Config.mergeExpire tgt parse cfg conf).Weight = cfg.Weight ∧
    (Config.mergeExpire tgt parse cfg conf).Prefix = cfg.Prefix ∧
    (Config.mergeExpire tgt parse cfg conf).Setting = cfg.Setting := by
  unfold Config.mergeExpire
  split
  · split_ifs <;> exact ⟨rfl, rfl, rfl, rfl⟩
  · exact ⟨rfl, rfl, rfl, rfl⟩

theorem Config.mergeSetting_frame (cfg : Config) (conf : BaseMap) :
    (Config.mergeSetting cfg conf).Driver = cfg.Driver ∧
    (Config.mergeSetting cfg conf).Weight = cfg.Weight ∧
    (Config.mergeSetting cfg conf).Prefix = cfg.Prefix ∧
    (Config.mergeSetting cfg conf).Expire = cfg.Expire := by
  unfold Config.mergeSetting
  split <;> exact ⟨rfl, rfl, rfl, rfl⟩

/-- The configuration that `configure` stores: the five merges applied in turn. -/
theorem Module.configure_get? {C : Type} (tgt : Target) (parse : String → Option Duration)
    (m : Module C) (x : String) (conf : BaseMap) (c : Config)
    (hc : GoMap.get? m.configs x = some c ∨ (GoMap.get? m.configs x = none ∧ c = Config.initial)) :
    GoMap.get? (Module.configure tgt parse m x conf).configs x =
      some (Config.merge tgt parse c conf) := by
  unfold Module.configure
  rcases hc with h | ⟨h, rfl⟩
  · simp only [h, GoMap.get?_set_self]
  · simp only [h, GoMap.get?_set_self]

theorem wrapInt64_of_range {x : Int} (h0 : -9223372036854775808 ≤ x)
    (h1 : x < 9223372036854775808) : wrapInt64 x = x := by
  unfold wrapInt64
  norm_num
  omega

/-- A value within the range of the type is converted to itself. -/
theorem wrapInt_of_range {bits : Nat} (hb : 0 < bits) {x : Int}
    (h0 : -(2 ^ (bits - 1)) ≤ x) (h1 : x < 2 ^ (bits - 1)) : wrapInt bits x = x := by
  unfold wrapInt
  have hp : (2 : Int) ^ bits = 2 * 2 ^ (bits - 1) := by
    have : bits = (bits - 1) + 1 := by omega
    conv_lhs => rw [this, pow_succ]
    ring
  rw [hp]
  have h2 : (x + 2 ^ (bits - 1)) % (2 * 2 ^ (bits - 1)) = x + 2 ^ (bits - 1) :=
    Int.emod_eq_of_lt (by linarith) (by linarith)
  rw [h2]
  ring

/-- A `float64` whose truncated value the type holds is converted to that value. -/
theorem Float64.toSigned_of_range (tgt : Target) (bits : Nat) (v : Float64) (t : Int)
    (ht : Float64.trunc v = some t) (h0 : -(2 ^ (bits - 1)) ≤ t) (h1 : t < 2 ^ (bits - 1)) :
    Float64.toSigned tgt bits v = t := by
  unfold Float64.toSigned
  simp only [ht, h0, h1, and_self, if_true]

/-- A whole number of seconds that fits into 64 bits of nanoseconds is converted exactly. -/
theorem parseDuration_seconds (tgt : Target) (parse : String → Option Duration) (n : Int)
    (h0 : 0 ≤ n) (h1 : n ≤ 9223372036) :
    parseDuration tgt parse (.int n) = n * time.Second ∧
    parseDuration tgt parse (.int64 n) = n * time.Second ∧
    ∀ v, Float64.trunc v = some n → parseDuration tgt parse (.float64 v) = n * time.Second := by
  have h : wrapInt64 (time.Second * n) = n * time.Second := by
    rw [wrapInt64_of_range]
    · exact mul_comm _ _
    · unfold time.Second
      change (-9223372036854775808 : Int) ≤ 1000000000 * n
      omega
    · unfold time.Second
      change (1000000000 : Int) * n < 9223372036854775808
      omega
  refine ⟨h, h, ?_⟩
  intro v hv
  have h2 : Float64.toSigned tgt 64 v = n :=
    Float64.toSigned_of_range tgt 64 v n hv (by norm_num; omega) (by norm_num; omega)
  show wrapInt64 (time.Second * Float64.toSigned tgt 64 v) = n * time.Second
  rw [h2]
  exact h

/-- The merge reads the partial mapping through its five keys only. -/
theorem Config.merge_congr (tgt : Target) (parse : String → Option Duration) (c : Config)
    (conf conf' : BaseMap) (h : ∀ k, GoMap.get? conf k = GoMap.get? conf' k) :
    Config.merge tgt parse c conf = Config.merge tgt parse c conf' := by
  simp only [Config.merge, Config.mergeDriver, Config.mergeWeight, Config.mergePrefix,
    Config.mergeExpire, Config.mergeSetting, h]

/-- The router after `configure`: only the configuration of the name changes. -/
theorem Module.configure_configs {C : Type} (tgt : Target) (parse : String → Option Duration)
    (m : Module C) (x : String) (conf : BaseMap) :
    Module.configure tgt parse m x conf =
      { m with
        configs :=
          GoMap.set m.configs x
            (Config.merge tgt parse ((GoMap.get? m.configs x).getD Config.initial) conf) } := by
  unfold Module.configure
  cases h : GoMap.get? m.configs x <;> rfl

/-- The three cases of one round of the loop of `Module.Config`. -/
theorem Module.configStep_cases {C : Type} (tgt : Target) (parse : String → Option Duration)
    (cfgMap : BaseMap) (acc : Module C × BaseMap) (key : String) :
    (∃ conf, nestedConf cfgMap key = some conf ∧ rootValue cfgMap key = none ∧
      Module.configStep tgt parse cfgMap acc key =
        (Module.configure tgt parse acc.1 key conf, acc.2)) ∨
    (∃ v, rootValue cfgMap key = some v ∧ nestedConf cfgMap key = none ∧
      Module.configStep tgt parse cfgMap acc key = (acc.1, GoMap.set acc.2 key v)) ∨
    (GoMap.get? cfgMap key = none ∧ nestedConf cfgMap key = none ∧
      rootValue cfgMap key = none ∧ Module.configStep tgt parse cfgMap acc key = acc) := by
  unfold nestedConf rootValue Module.configStep
  cases h : GoMap.get? cfgMap key with
  | none => exact Or.inr (Or.inr ⟨rfl, rfl, rfl, rfl⟩)
  | some val =>
    cases val with
    | map conf =>
      by_cases hs : key = "setting"
      · refine Or.inr (Or.inl ⟨.map conf, ?_, ?_, ?_⟩) <;> simp [hs]
      · refine Or.inl ⟨conf, ?_, ?_, ?_⟩ <;> simp [hs]
    | null => exact Or.inr (Or.inl ⟨_, rfl, rfl, rfl⟩)
    | bool b => exact Or.inr (Or.inl ⟨_, rfl, rfl, rfl⟩)
    | int n => exact Or.inr (Or.inl ⟨_, rfl, rfl, rfl⟩)
    | int64 n => exact Or.inr (Or.inl ⟨_, rfl, rfl, rfl⟩)
    | float64 v => exact Or.inr (Or.inl ⟨_, rfl, rfl, rfl⟩)
    | string s => exact Or.inr (Or.inl ⟨_, rfl, rfl, rfl⟩)
    | duration d => exact Or.inr (Or.inl ⟨_, rfl, rfl, rfl⟩)

/-- A map that was written to is not empty. -/
theorem GoMap.set_ne_nil {V : Type} (m : GoMap V) (k : String) (v : V) : GoMap.set m k v ≠ [] := by
  cases m with
  | nil => simp [GoMap.set]
  | cons e m =>
    obtain ⟨k', v'⟩ := e
    simp only [GoMap.set]
    split_ifs <;> simp

/-- The loop of `Module.Config` over keys visited once each: what it leaves
under each name of the configuration map and under each key of the root
configuration. -/
theorem Module.configFold {C : Type} (tgt : Target) (parse : String → Option Duration)
    (cfgMap : BaseMap) (ks : List String) (hnd : ks.Nodup) (acc : Module C × BaseMap) :
    (∀ x conf, x ∈ ks → nestedConf cfgMap x = some conf →
      GoMap.get? (ks.foldl (Module.configStep tgt parse cfgMap) acc).1.configs x =
        some (Config.merge tgt parse ((GoMap.get? acc.1.configs x).getD Config.initial) conf)) ∧
    (∀ x, x ∉ ks ∨ nestedConf cfgMap x = none →
      GoMap.get? (ks.foldl (Module.configStep tgt parse cfgMap) acc).1.configs x =
        GoMap.get? acc.1.configs x) ∧
    (∀ k v, k ∈ ks → rootValue cfgMap k = some v →
      GoMap.get? (ks.foldl (Module.configStep tgt parse cfgMap) acc).2 k = some v) ∧
    (∀ k, k ∉ ks ∨ rootValue cfgMap k = none →
      GoMap.get? (ks.foldl (Module.configStep tgt parse cfgMap) acc).2 k = GoMap.get? acc.2 k) ∧
    ((ks.foldl (Module.configStep tgt parse cfgMap) acc).2 = [] ↔
      acc.2 = [] ∧ ∀ k ∈ ks, rootValue cfgMap k = none) ∧
    (ks.foldl (Module.configStep tgt parse cfgMap) acc).1 =
      { acc.1 with configs := (ks.foldl (Module.configStep tgt parse cfgMap) acc).1.configs } := by
  induction ks generalizing acc with
  | nil =>
    refine ⟨?_, ?_, ?_, ?_, ?_, rfl⟩
    · intro x conf hx; exact absurd hx (List.not_mem_nil x)
    · intro x _; rfl
    · intro k v hk; exact absurd hk (List.not_mem_nil k)
    · intro k _; rfl
    · simp
  | cons k ks ih =>
    have hk : k ∉ ks := (List.nodup_cons.mp hnd).1
    obtain ⟨i1, i2, i3, i4, i5, i6⟩ := ih (List.nodup_cons.mp hnd).2
      (Module.configStep tgt parse cfgMap acc k)
    simp only [List.foldl_cons]
    rcases Module.configStep_cases tgt parse cfgMap acc k with
      ⟨conf, hn, hr, hstep⟩ | ⟨v, hr, hn, hstep⟩ | ⟨_, hn, hr, hstep⟩
    · -- a nested entry
      have hc1 : ∀ x, x ≠ k →
          GoMap.get? (Module.configStep tgt parse cfgMap acc k).1.configs x =
            GoMap.get? acc.1.configs x := by
        intro x hx
        rw [hstep, Module.configure_configs]
        simp only
        exact GoMap.get?_set_ne _ _ hx
      have hc2 : GoMap.get? (Module.configStep tgt parse cfgMap acc k).1.configs k =
          some (Config.merge tgt parse ((GoMap.get? acc.1.configs k).getD Config.initial)
            conf) := by
        rw [hstep, Module.configure_configs]
        simp only
        exact GoMap.get?_set_self _ _ _
      have hr2 : (Module.configStep tgt parse cfgMap acc k).2 = acc.2 := by rw [hstep]
      refine ⟨?_, ?_, ?_, ?_, ?_, ?_⟩
      · intro x conf' hx hnx
        by_cases hxk : x = k
        · subst hxk
          rw [i2 x (Or.inl hk), hc2]
          rw [hn] at hnx
          cases hnx
          rfl
        · rw [i1 x conf' ((List.mem_cons.mp hx).resolve_left hxk) hnx, hc1 x hxk]
      · intro x hx
        have hxk : x ≠ k := by
          rcases hx with hx | hx
          · exact fun h => hx (h ▸ List.mem_cons_self _ _)
          · intro h
            rw [h, hn] at hx
            cases hx
        have hx' : x ∉ ks ∨ nestedConf cfgMap x = none := by
          rcases hx with hx | hx
          · exact Or.inl (fun h => hx (List.mem_cons_of_mem _ h))
          · exact Or.inr hx
        rw [i2 x hx', hc1 x hxk]
      · intro k' v hk' hv
        have hkk : k' ≠ k := by
          intro h
          rw [h, hr] at hv
          cases hv
        rw [i3 k' v ((List.mem_cons.mp hk').resolve_left hkk) hv]
      · intro k' hk'
        have hk'' : k' ∉ ks ∨ rootValue cfgMap k' = none := by
          rcases hk' with h | h
          · exact Or.inl (fun h' => h (List.mem_cons_of_mem _ h'))
          · exact Or.inr h
        rw [i4 k' hk'', hr2]
      · rw [i5, hr2]
        constructor
        · rintro ⟨h1, h2⟩
          refine ⟨h1, ?_⟩
          intro k' hk'
          rcases List.mem_cons.mp hk' with h | h
          · rw [h]; exact hr
          · exact h2 k' h
        · rintro ⟨h1, h2⟩
          exact ⟨h1, fun k' hk' => h2 k' (List.mem_cons_of_mem _ hk')⟩
      · rw [i6]
        rw [hstep, Module.configure_configs]
    · -- a root entry
      have hc : (Module.configStep tgt parse cfgMap acc k).1 = acc.1 := by rw [hstep]
      have hr1 : ∀ k', k' ≠ k →
          GoMap.get? (Module.configStep tgt parse cfgMap acc k).2 k' = GoMap.get? acc.2 k' := by
        intro k' hk'
        rw [hstep]
        exact GoMap.get?_set_ne _ _ hk'
      have hr2 : GoMap.get? (Module.configStep tgt parse cfgMap acc k).2 k = some v := by
        rw [hstep]
        exact GoMap.get?_set_self _ _ _
      refine ⟨?_, ?_, ?_, ?_, ?_, ?_⟩
      · intro x conf' hx hnx
        have hxk : x ≠ k := by
          intro h
          rw [h, hn] at hnx
          cases hnx
        rw [i1 x conf' ((List.mem_cons.mp hx).resolve_left hxk) hnx, hc]
      · intro x hx
        by_cases hxk : x = k
        · subst hxk
          rw [i2 x (Or.inl hk), hc]
        · have hx' : x ∉ ks ∨ nestedConf cfgMap x = none := by
            rcases hx with hx | hx
            · exact Or.inl (fun h => hx (List.mem_cons_of_mem _ h))
            · exact Or.inr hx
          rw [i2 x hx', hc]
      · intro k' v' hk' hv
        by_cases hkk : k' = k
        · subst hkk
          rw [i4 k' (Or.inl hk), hr2]
          rw [hr] at hv
          exact hv
        · rw [i3 k' v' ((List.mem_cons.mp hk').resolve_left hkk) hv]
      · intro k' hk'
        have hkk : k' ≠ k := by
          rcases hk' with h | h
          · exact fun h' => h (h' ▸ List.mem_cons_self _ _)
          · intro h'
            rw [h', hr] at h
            cases h
        have hk'' : k' ∉ ks ∨ rootValue cfgMap k' = none := by
          rcases hk' with h | h
          · exact Or.inl (fun h' => h (List.mem_cons_of_mem _ h'))
          · exact Or.inr h
        rw [i4 k' hk'', hr1 k' hkk]
      · rw [i5]
        constructor
        · rintro ⟨h1, _⟩
          rw [hstep] at h1
          exact absurd h1 (GoMap.set_ne_nil _ _ _)
        · rintro ⟨_, h2⟩
          have := h2 k (List.mem_cons_self _ _)
          rw [hr] at this
          cases this
      · rw [i6, hc]
    · -- no entry
      rw [hstep] at i1 i2 i3 i4 i5 i6
      rw [hstep]
      refine ⟨?_, ?_, ?_, ?_, ?_, i6⟩
      · intro x conf' hx hnx
        have hxk : x ≠ k := by
          intro h
          rw [h, hn] at hnx
          cases hnx
        exact i1 x conf' ((List.mem_cons.mp hx).resolve_left hxk) hnx
      · intro x hx
        by_cases hxk : x = k
        · subst hxk
          exact i2 x (Or.inl hk)
        · have hx' : x ∉ ks ∨ nestedConf cfgMap x = none := by
            rcases hx with hx | hx
            · exact Or.inl (fun h => hx (List.mem_cons_of_mem _ h))
            · exact Or.inr hx
          exact i2 x hx'
      · intro k' v' hk' hv
        have hkk : k' ≠ k := by
          intro h
          rw [h, hr] at hv
          cases hv
        exact i3 k' v' ((List.mem_cons.mp hk').resolve_left hkk) hv
      · intro k' hk'
        by_cases hkk : k' = k
        · subst hkk
          exact i4 k' (Or.inl hk)
        · have hk'' : k' ∉ ks ∨ rootValue cfgMap k' = none := by
            rcases hk' with h | h
            · exact Or.inl (fun h' => h (List.mem_cons_of_mem _ h'))
            · exact Or.inr h
          exact i4 k' hk''
      · rw [i5]
        constructor
        · rintro ⟨h1, h2⟩
          refine ⟨h1, ?_⟩
          intro k' hk'
          rcases List.mem_cons.mp hk' with h | h
          · rw [h]; exact hr
          · exact h2 k' h
        · rintro ⟨h1, h2⟩
          exact ⟨h1, fun k' hk' => h2 k' (List.mem_cons_of_mem _ hk')⟩


/-- A name with a nested entry is a key of the section. -/
theorem nestedConf_mem_keys (cfgMap : BaseMap) (x : String) (conf : BaseMap)
    (h : nestedConf cfgMap x = some conf) : x ∈ GoMap.keys cfgMap := by
  rw [← GoMap.get?_isSome_iff_mem_keys]
  unfold nestedConf at h
  cases hg : GoMap.get? cfgMap x with
  | none => rw [hg] at h; cases h
  | some v => rfl

/-- A key with a root entry is a key of the section. -/
theorem rootValue_mem_keys (cfgMap : BaseMap) (k : String) (v : Any)
    (h : rootValue cfgMap k = some v) : k ∈ GoMap.keys cfgMap := by
  rw [← GoMap.get?_isSome_iff_mem_keys]
  unfold rootValue at h
  cases hg : GoMap.get? cfgMap k with
  | none => rw [hg] at h; cases h
  | some v => rfl

/-- What `Module.Config` leaves in the configuration map, name by name: a
nested entry of the `mutex` section is merged onto the configuration of its
name, the root entries are then merged together onto the configuration of the
default name, and the other names keep their configurations. -/
theorem Module.ApplyConfig_get? {C : Type} (tgt : Target) (parse : String → Option Duration)
    (m : Module C) (global cfgMap : BaseMap) (ord : RangeOrder) (hclosed : m.opened = false)
    (hsec : GoMap.get? global "mutex" = some (.map cfgMap)) :
    (∀ x conf, nestedConf cfgMap x = some conf →
      x ≠ DEFAULT ∨ (∀ k, rootValue cfgMap k = none) →
      GoMap.get? (Module.ApplyConfig tgt parse m global ord).configs x =
        some (Config.merge tgt parse ((GoMap.get? m.configs x).getD Config.initial) conf)) ∧
    (∀ x, nestedConf cfgMap x = none →
      x ≠ DEFAULT ∨ (∀ k, rootValue cfgMap k = none) →
      GoMap.get? (Module.ApplyConfig tgt parse m global ord).configs x =
        GoMap.get? m.configs x) ∧
    (∀ root, (∀ k, GoMap.get? root k = rootValue cfgMap k) →
      (∃ k v, rootValue cfgMap k = some v) →
      (nestedConf cfgMap DEFAULT = none →
        GoMap.get? (Module.ApplyConfig tgt parse m global ord).configs DEFAULT =
          some (Config.merge tgt parse
            ((GoMap.get? m.configs DEFAULT).getD Config.initial) root)) ∧
      (∀ conf, nestedConf cfgMap DEFAULT = some conf →
        GoMap.get? (Module.ApplyConfig tgt parse m global ord).configs DEFAULT =
          some (Config.merge tgt parse (Config.merge tgt parse
            ((GoMap.get? m.configs DEFAULT).getD Config.initial) conf) root))) ∧
    Module.ApplyConfig tgt parse m global ord =
      { m with configs := (Module.ApplyConfig tgt parse m global ord).configs } := by
  have hnd : (ord.visit (GoMap.keys cfgMap)).Nodup :=
    RangeOrder.nodup_visit ord (GoMap.keys_nodup cfgMap)
  obtain ⟨f1, f2, f3, f4, f5, f6⟩ :=
    Module.configFold tgt parse cfgMap (ord.visit (GoMap.keys cfgMap)) hnd (m, [])
  have hmem : ∀ k, k ∈ ord.visit (GoMap.keys cfgMap) ↔ k ∈ GoMap.keys cfgMap :=
    fun k => RangeOrder.mem_visit ord _ k
  -- the root configuration that the loop collects
  have hroot : ∀ k, GoMap.get? ((ord.visit (GoMap.keys cfgMap)).foldl
      (Module.configStep tgt parse cfgMap) (m, [])).2 k = rootValue cfgMap k := by
    intro k
    cases hr : rootValue cfgMap k with
    | none => rw [f4 k (Or.inr hr)]; rfl
    | some v => exact f3 k v ((hmem k).mpr (rootValue_mem_keys cfgMap k v hr)) hr
  have hnil : ((ord.visit (GoMap.keys cfgMap)).foldl
      (Module.configStep tgt parse cfgMap) (m, [])).2 = [] ↔ ∀ k, rootValue cfgMap k = none := by
    rw [f5]
    constructor
    · rintro ⟨_, h⟩ k
      cases hr : rootValue cfgMap k with
      | none => rfl
      | some v =>
        have := h k ((hmem k).mpr (rootValue_mem_keys cfgMap k v hr))
        rw [hr] at this
        cases this
    · intro h
      exact ⟨rfl, fun k _ => h k⟩
  have hA : Module.ApplyConfig tgt parse m global ord =
      if ((ord.visit (GoMap.keys cfgMap)).foldl
          (Module.configStep tgt parse cfgMap) (m, [])).2.length > 0 then
        Module.configure tgt parse ((ord.visit (GoMap.keys cfgMap)).foldl
          (Module.configStep tgt parse cfgMap) (m, [])).1 DEFAULT
          ((ord.visit (GoMap.keys cfgMap)).foldl (Module.configStep tgt parse cfgMap) (m, [])).2
      else ((ord.visit (GoMap.keys cfgMap)).foldl
        (Module.configStep tgt parse cfgMap) (m, [])).1 := by
    unfold Module.ApplyConfig
    simp only [hclosed, Bool.false_eq_true, if_false, hsec]
  generalize (ord.visit (GoMap.keys cfgMap)).foldl
    (Module.configStep tgt parse cfgMap) (m, []) = r at f1 f2 f3 f4 f5 f6 hroot hnil hA
  have hlen : r.2.length > 0 ↔ ∃ k v, rootValue cfgMap k = some v := by
    rw [gt_iff_lt, List.length_pos, ne_eq, hnil]
    constructor
    · intro h
      by_contra hcon
      apply h
      intro k
      cases hr : rootValue cfgMap k with
      | none => rfl
      | some v => exact absurd ⟨k, v, hr⟩ hcon
    · rintro ⟨k, v, hv⟩ h
      rw [h k] at hv
      cases hv
  have hnoroot : (∀ k, rootValue cfgMap k = none) → ¬ r.2.length > 0 := by
    intro h hl
    obtain ⟨k, v, hv⟩ := hlen.mp hl
    rw [h k] at hv
    cases hv
  refine ⟨?_, ?_, ?_, ?_⟩
  · intro x conf hn hx
    have hfold := f1 x conf ((hmem x).mpr (nestedConf_mem_keys cfgMap x conf hn)) hn
    rw [hA]
    by_cases hl : r.2.length > 0
    · rw [if_pos hl]
      have hxd : x ≠ DEFAULT := hx.resolve_right (fun h => hnoroot h hl)
      rw [Module.configure_configs]
      simp only
      rw [GoMap.get?_set_ne _ _ hxd]
      exact hfold
    · rw [if_neg hl]
      exact hfold
  · intro x hn hx
    have hfold := f2 x (Or.inr hn)
    rw [hA]
    by_cases hl : r.2.length > 0
    · rw [if_pos hl]
      have hxd : x ≠ DEFAULT := hx.resolve_right (fun h => hnoroot h hl)
      rw [Module.configure_configs]
      simp only
      rw [GoMap.get?_set_ne _ _ hxd]
      exact hfold
    · rw [if_neg hl]
      exact hfold
  · intro root hrt hex
    have hl : r.2.length > 0 := hlen.mpr hex
    have hcong : ∀ c, Config.merge tgt parse c r.2 = Config.merge tgt parse c root :=
      fun c => Config.merge_congr tgt parse c r.2 root (fun k => by rw [hroot k, hrt k])
    constructor
    · intro hn
      rw [hA, if_pos hl, Module.configure_configs]
      simp only
      rw [GoMap.get?_set_self, f2 DEFAULT (Or.inr hn), hcong]
    · intro conf hn
      rw [hA, if_pos hl, Module.configure_configs]
      simp only
      rw [GoMap.get?_set_self,
        f1 DEFAULT conf ((hmem _).mpr (nestedConf_mem_keys cfgMap _ conf hn)) hn, hcong]
      rfl
  · rw [hA]
    by_cases hl : r.2.length > 0
    · rw [if_pos hl, Module.configure_configs]
      simp only
      rw [f6]
    · rw [if_neg hl]
      exact f6


/-- C12. Config merge. When `configure` applies the partial mapping `conf` for
the name `x`, starting from the configuration `c` registered under `x`, or from
the initial configuration (default backend, weight 1, expiry one second) when
there is none, then every field that `conf` does not mention keeps its value
from `c`, and so does a field mentioned with a value that is not valid; every
field mentioned with a valid value takes that value: a backend name that is not
empty, a weight given as `int`, as `int64` within the range of `int`, or as
`float64` whose truncated value is within the range of `int`, a prefix, an
expiry that parses to a positive duration (a duration itself, a whole number of
seconds, a string), a settings map. A weight outside the range of `int` is
stored as the conversion to `int` gives it, wrapped for an `int64` and left to
the target for a `float64`. The other names keep their configurations.
`Module.Config` does this for every nested entry of the `mutex` section, in
whatever order it visits them, and for the root entries of the section, taken
together, on the default name, after the nested entry of that name if there is
one; the names without an entry keep their configurations. -/
theorem C12_config_merge {C : Type} (tgt : Target) (parse : String → Option Duration)
    (m : Module C) (x : String) (conf : BaseMap) (c : Config)
    (hc : GoMap.get? m.configs x = some c ∨
      (GoMap.get? m.configs x = none ∧ c = Config.initial)) :
    ∃ cfg, GoMap.get? (Module.configure tgt parse m x conf).configs x = some cfg ∧
      (GoMap.get? conf "driver" = none → cfg.Driver = c.Driver) ∧
      (∀ v, GoMap.get? conf "driver" = some (.string v) → v ≠ "" → cfg.Driver = v) ∧
      (∀ v, GoMap.get? conf "driver" = some v → (∀ s, v = .string s → s = "") →
        cfg.Driver = c.Driver) ∧
      (GoMap.get? conf "weight" = none → cfg.Weight = c.Weight) ∧
      (∀ v, GoMap.get? conf "weight" = some (.int v) → cfg.Weight = v) ∧
      (∀ v, GoMap.get? conf "weight" = some (.int64 v) →
        cfg.Weight = wrapInt tgt.intBits v ∧
        (0 < tgt.intBits → -(2 ^ (tgt.intBits - 1)) ≤ v → v < 2 ^ (tgt.intBits - 1) →
          cfg.Weight = v)) ∧
      (∀ f, GoMap.get? conf "weight" = some (.float64 f) →
        cfg.Weight = Float64.toSigned tgt tgt.intBits f ∧
        (∀ t, Float64.trunc f = some t → -(2 ^ (tgt.intBits - 1)) ≤ t →
          t < 2 ^ (tgt.intBits - 1) → cfg.Weight = t)) ∧
      (∀ v, GoMap.get? conf "weight" = some v → (∀ n, v ≠ .int n) → (∀ n, v ≠ .int64 n) →
        (∀ f, v ≠ .float64 f) → cfg.Weight = c.Weight) ∧
      (GoMap.get? conf "prefix" = none → cfg.Prefix = c.Prefix) ∧
      (∀ v, GoMap.get? conf "prefix" = some (.string v) → cfg.Prefix = v) ∧
      (∀ v, GoMap.get? conf "prefix" = some v → (∀ s, v ≠ .string s) →
        cfg.Prefix = c.Prefix) ∧
      (GoMap.get? conf "expire" = none → cfg.Expire = c.Expire) ∧
      (∀ v, GoMap.get? conf "expire" = some v → 0 < parseDuration tgt parse v →
        cfg.Expire = parseDuration tgt parse v) ∧
      (∀ v, GoMap.get? conf "expire" = some v → parseDuration tgt parse v ≤ 0 →
        cfg.Expire = c.Expire) ∧
      (GoMap.get? conf "setting" = none → cfg.Setting = c.Setting) ∧
      (∀ v, GoMap.get? conf "setting" = some (.map v) → cfg.Setting = v) ∧
      (∀ v, GoMap.get? conf "setting" = some v → (∀ s, v ≠ .map s) →
        cfg.Setting = c.Setting) ∧
      (∀ d, parseDuration tgt parse (.duration d) = d) ∧
      (∀ n : Int, 0 ≤ n → n ≤ 9223372036 →
        parseDuration tgt parse (.int n) = n * time.Second ∧
        parseDuration tgt parse (.int64 n) = n * time.Second ∧
        ∀ f, Float64.trunc f = some n →
          parseDuration tgt parse (.float64 f) = n * time.Second) ∧
      (∀ s d, parse s = some d → parseDuration tgt parse (.string s) = d) ∧
      (GoMap.get? m.configs x = none →
        c.Driver = DEFAULT ∧ c.Weight = 1 ∧ c.Prefix = "" ∧ c.Expire = time.Second ∧
        c.Setting = []) ∧
      (∀ y, y ≠ x →
        GoMap.get? (Module.configure tgt parse m x conf).configs y = GoMap.get? m.configs y) ∧
      (∀ global cfgMap ord, m.opened = false →
        GoMap.get? global "mutex" = some (.map cfgMap) →
        (nestedConf cfgMap x = some conf →
          x ≠ DEFAULT ∨ (∀ k, rootValue cfgMap k = none) →
          GoMap.get? (Module.ApplyConfig tgt parse m global ord).configs x = some cfg) ∧
        (x = DEFAULT → nestedConf cfgMap x = none →
          (∀ k, GoMap.get? conf k = rootValue cfgMap k) →
          (∃ k v, rootValue cfgMap k = some v) →
          GoMap.get? (Module.ApplyConfig tgt parse m global ord).configs x = some cfg) ∧
        (x = DEFAULT → nestedConf cfgMap x = some conf →
          ∀ root, (∀ k, GoMap.get? root k = rootValue cfgMap k) →
          (∃ k v, rootValue cfgMap k = some v) →
          GoMap.get? (Module.ApplyConfig tgt parse m global ord).configs x =
            some (Config.merge tgt parse cfg root)) ∧
        (∀ y, nestedConf cfgMap y = none →
          y ≠ DEFAULT ∨ (∀ k, rootValue cfgMap k = none) →
          GoMap.get? (Module.ApplyConfig tgt parse m global ord).configs y =
            GoMap.get? m.configs y)) := by
  have hgetD : (GoMap.get? m.configs x).getD Config.initial = c := by
    rcases hc with h | ⟨h, rfl⟩ <;> rw [h] <;> rfl
  refine ⟨Config.merge tgt parse c conf, Module.configure_get? tgt parse m x conf c hc,
    ?_, ?_, ?_, ?_, ?_, ?_, ?_, ?_, ?_, ?_, ?_, ?_, ?_, ?_, ?_, ?_, ?_, ?_, ?_, ?_, ?_, ?_, ?_⟩
  · intro h
    unfold Config.merge
    rw [(Config.mergeSetting_frame _ _).1, (Config.mergeExpire_frame _ _ _ _).1,
      (Config.mergePrefix_frame _ _).1, (Config.mergeWeight_frame _ _ _).1]
    simp [Config.mergeDriver, h]
  · intro v h hv
    unfold Config.merge
    rw [(Config.mergeSetting_frame _ _).1, (Config.mergeExpire_frame _ _ _ _).1,
      (Config.mergePrefix_frame _ _).1, (Config.mergeWeight_frame _ _ _).1]
    simp [Config.mergeDriver, h, hv]
  · intro v h hv
    unfold Config.merge
    rw [(Config.mergeSetting_frame _ _).1, (Config.mergeExpire_frame _ _ _ _).1,
      (Config.mergePrefix_frame _ _).1, (Config.mergeWeight_frame _ _ _).1]
    unfold Config.mergeDriver
    rw [h]
    cases v with
    | string s => simp [hv s rfl]
    | _ => rfl
  · intro h
    unfold Config.merge
    rw [(Config.mergeSetting_frame _ _).2.1, (Config.mergeExpire_frame _ _ _ _).2.1,
      (Config.mergePrefix_frame _ _).2.1]
    simp [Config.mergeWeight, h, (Config.mergeDriver_frame c conf).1]
  · intro v h
    unfold Config.merge
    rw [(Config.mergeSetting_frame _ _).2.1, (Config.mergeExpire_frame _ _ _ _).2.1,
      (Config.mergePrefix_frame _ _).2.1]
    simp [Config.mergeWeight, h]
  · intro v h
    have hw : (Config.merge tgt parse c conf).Weight = wrapInt tgt.intBits v := by
      unfold Config.merge
      rw [(Config.mergeSetting_frame _ _).2.1, (Config.mergeExpire_frame _ _ _ _).2.1,
        (Config.mergePrefix_frame _ _).2.1]
      simp [Config.mergeWeight, h]
    exact ⟨hw, fun hb h0 h1 => hw.trans (wrapInt_of_range hb h0 h1)⟩
  · intro f h
    have hw : (Config.merge tgt parse c conf).Weight = Float64.toSigned tgt tgt.intBits f := by
      unfold Config.merge
      rw [(Config.mergeSetting_frame _ _).2.1, (Config.mergeExpire_frame _ _ _ _).2.1,
        (Config.mergePrefix_frame _ _).2.1]
      simp [Config.mergeWeight, h]
    exact ⟨hw, fun t ht h0 h1 => hw.trans (Float64.toSigned_of_range tgt _ f t ht h0 h1)⟩
  · intro v h h1 h2 h3
    unfold Config.merge
    rw [(Config.mergeSetting_frame _ _).2.1, (Config.mergeExpire_frame _ _ _ _).2.1,
      (Config.mergePrefix_frame _ _).2.1]
    unfold Config.mergeWeight
    rw [h]
    cases v with
    | int n => exact absurd rfl (h1 n)
    | int64 n => exact absurd rfl (h2 n)
    | float64 f => exact absurd rfl (h3 f)
    | _ => exact (Config.mergeDriver_frame c conf).1
  · intro h
    unfold Config.merge
    rw [(Config.mergeSetting_frame _ _).2.2.1, (Config.mergeExpire_frame _ _ _ _).2.2.1]
    simp [Config.mergePrefix, h, (Config.mergeWeight_frame tgt _ conf).2.1,
      (Config.mergeDriver_frame c conf).2.1]
  · intro v h
    unfold Config.merge
    rw [(Config.mergeSetting_frame _ _).2.2.1, (Config.mergeExpire_frame _ _ _ _).2.2.1]
    simp [Config.mergePrefix, h]
  · intro v h hv
    unfold Config.merge
    rw [(Config.mergeSetting_frame _ _).2.2.1, (Config.mergeExpire_frame _ _ _ _).2.2.1]
    unfold Config.mergePrefix
    rw [h]
    cases v with
    | string s => exact absurd rfl (hv s)
    | _ => simp [(Config.mergeWeight_frame tgt _ conf).2.1, (Config.mergeDriver_frame c conf).2.1]
  · intro h
    unfold Config.merge
    rw [(Config.mergeSetting_frame _ _).2.2.2]
    simp [Config.mergeExpire, h, (Config.mergePrefix_frame _ conf).2.2.1,
      (Config.mergeWeight_frame tgt _ conf).2.2.1, (Config.mergeDriver_frame c conf).2.2.1]
  · intro v h hv
    unfold Config.merge
    rw [(Config.mergeSetting_frame _ _).2.2.2]
    simp [Config.mergeExpire, h, hv]
  · intro v h hv
    unfold Config.merge
    rw [(Config.mergeSetting_frame _ _).2.2.2]
    simp [Config.mergeExpire, h, not_lt.mpr hv, (Config.mergePrefix_frame _ conf).2.2.1,
      (Config.mergeWeight_frame tgt _ conf).2.2.1, (Config.mergeDriver_frame c conf).2.2.1]
  · intro h
    unfold Config.merge
    simp [Config.mergeSetting, h, (Config.mergeExpire_frame tgt parse _ conf).2.2.2,
      (Config.mergePrefix_frame _ conf).2.2.2,
      (Config.mergeWeight_frame tgt _ conf).2.2.2, (Config.mergeDriver_frame c conf).2.2.2]
  · intro v h
    unfold Config.merge
    simp [Config.mergeSetting, h]
  · intro v h hv
    unfold Config.merge
    unfold Config.mergeSetting
    rw [h]
    cases v with
    | map s => exact absurd rfl (hv s)
    | _ =>
      simp [(Config.mergeExpire_frame tgt parse _ conf).2.2.2,
        (Config.mergePrefix_frame _ conf).2.2.2,
        (Config.mergeWeight_frame tgt _ conf).2.2.2, (Config.mergeDriver_frame c conf).2.2.2]
  · intro d
    rfl
  · intro n h0 h1
    exact parseDuration_seconds tgt parse n h0 h1
  · intro s d h
    simp [parseDuration, h]
  · intro hnone
    rcases hc with h | ⟨_, rfl⟩
    · rw [hnone] at h
      cases h
    · exact ⟨rfl, rfl, rfl, rfl, rfl⟩
  · intro y hy
    unfold Module.configure
    exact GoMap.get?_set_ne _ _ hy
  · intro global cfgMap ord hclosed hsec
    obtain ⟨a1, a2, a3, _⟩ := Module.ApplyConfig_get? tgt parse m global cfgMap ord hclosed hsec
    refine ⟨?_, ?_, ?_, ?_⟩
    · intro hn hx
      rw [a1 x conf hn hx, hgetD]
    · intro hxd hn hroot hex
      subst hxd
      rw [(a3 conf hroot hex).1 hn, hgetD]
    · intro hxd hn root hroot hex
      subst hxd
      rw [(a3 root hroot hex).2 conf hn, hgetD]
    · intro y hn hy
      exact a2 y hn hy


/-- C12 at the example of the specification: {weight: 3} is registered for "x"
and {prefix: "p:"} is applied for "x" through `Module.Config`; the final
configuration has weight 3 and prefix "p:". The same holds when the section
also has an entry for "y" and the root entry `weight: 5.0`, which configure "y"
and the default name. On amd64 the `float64` 1e30 as weight is stored as
`math.MinInt64`, and as expiry it leaves the expiry as it was. -/
theorem C12_config_merge_witness :
    (∃ cfg, GoMap.get? (Module.ApplyConfig Target.amd64 (fun _ => none) exampleWeighted
        [("mutex", .map [("x", .map [("prefix", .string "p:")])])] RangeOrder.stored).configs "x"
        = some cfg ∧
      cfg.Weight = 3 ∧ cfg.Prefix = "p:") ∧
    (∃ cfg, GoMap.get? (Module.ApplyConfig Target.amd64 (fun _ => none) exampleWeighted
        [("mutex", .map exampleSection)] RangeOrder.reversed).configs "x" = some cfg ∧
      cfg.Weight = 3 ∧ cfg.Prefix = "p:") ∧
    (Module.ApplyConfig Target.amd64 (fun _ => none) exampleWeighted
        [("mutex", .map exampleSection)] RangeOrder.reversed).configs.map
      (fun e => (e.1, e.2.Driver, e.2.Weight, e.2.Prefix, e.2.Expire)) =
      [("x", "", 3, "p:", 0), ("y", "default", 7, "", 1000000000),
        ("default", "default", 5, "", 1000000000)] ∧
    Float64.trunc (.finite false 7105427357601002 47) = some (10 ^ 30 + 19884624838656) ∧
    (Config.merge Target.amd64 (fun _ => none) Config.initial exampleHuge).Weight =
      -9223372036854775808 ∧
    (Config.merge Target.amd64 (fun _ => none) Config.initial exampleHuge).Expire =
      time.Second := by
  obtain ⟨cfg, _, _, _, _, h4, _, _, _, _, _, h10, _, _, _, _, _, _, _, _, _, _, _, _, hM⟩ :=
    C12_config_merge Target.amd64 (fun _ => none) exampleWeighted
      "x" [("prefix", .string "p:")]
      { Driver := "", Weight := 3, Prefix := "", Expire := 0, Setting := [] }
      (Or.inl rfl)
  refine ⟨⟨cfg, ?_, h4 rfl, h10 "p:" rfl⟩, ⟨cfg, ?_, h4 rfl, h10 "p:" rfl⟩, by decide,
    by decide, by decide, by decide⟩
  · exact (hM [("mutex", .map [("x", .map [("prefix", .string "p:")])])]
      [("x", .map [("prefix", .string "p:")])] RangeOrder.stored rfl rfl).1 rfl
      (Or.inl (by decide))
  · exact (hM [("mutex", .map exampleSection)] exampleSection RangeOrder.reversed rfl rfl).1
      rfl (Or.inl (by decide))

/-! ## Open: the backend calls, and the second Open -/

theorem Module.openStep_calls {C : Type} [Connection C] (m : Module C) (name : String)
    (cfg : Config) (h : (Module.openStep m name cfg).abort = none) :
    (Module.openStep m name cfg).calls = [Call.Connect name, Call.Open name] := by
  unfold Module.openStep at h ⊢
  cases hd : GoMap.get? m.drivers cfg.Driver with
  | none => simp [hd] at h
  | some drv =>
    simp only [hd] at h ⊢
    cases hc : drv.Connect { Name := name, Config := cfg, Setting := cfg.Setting } with
    | error e => simp [hc] at h
    | ok conn =>
      simp only [hc] at h ⊢
      rcases ho : Connection.Open conn with ⟨err, conn'⟩
      cases err with
      | some e => simp [ho] at h
      | none => rfl

/-- The backend calls of a loop of `Open` that did not abort: one `Connect` and
one `Open` for every visited name that has a configuration, in the order of the
visit. -/
theorem Module.openLoop_calls {C : Type} [Connection C] (ks : List String) (m : Module C)
    (h : (Module.openLoop ks m).abort = none) :
    (Module.openLoop ks m).calls =
      (ks.filter (fun n => (GoMap.get? m.configs n).isSome)).flatMap
        (fun n => [Call.Connect n, Call.Open n]) := by
  induction ks generalizing m with
  | nil => rfl
  | cons name rest ih =>
    cases hg : GoMap.get? m.configs name with
    | none =>
      rw [Module.openLoop_cons_skip name rest m hg] at h ⊢
      rw [ih m h]
      simp [List.filter_cons, hg]
    | some cfg0 =>
      cases ha : (Module.openStep m name cfg0).abort with
      | some msg =>
        rw [Module.openLoop_cons_abort name rest m cfg0 msg hg ha] at h
        cases h
      | none =>
        obtain ⟨e1, _, e3⟩ := Module.openLoop_cons_ok name rest m cfg0 hg ha
        rw [e1] at h
        rw [e3, ih _ h, Module.openStep_calls m name cfg0 ha]
        obtain ⟨conn, hs⟩ := Module.openStep_ok m name cfg0 ha
        have hcfg : (Module.openStep m name cfg0).state.configs = m.configs := by rw [hs]
        rw [hcfg]
        simp [List.filter_cons, hg]

theorem count_calls_flatMap (ks : List String) (n : String) :
    (ks.flatMap (fun k => [Call.Connect k, Call.Open k])).count (Call.Connect n) = ks.count n ∧
    (ks.flatMap (fun k => [Call.Connect k, Call.Open k])).count (Call.Open n) = ks.count n := by
  induction ks with
  | nil => simp
  | cons k rest ih =>
    rw [List.flatMap_cons, List.count_append, List.count_append, ih.1, ih.2]
    by_cases h : k = n
    · subst h
      simp
      omega
    · have h1 : Call.Connect k ≠ Call.Connect n := fun e => h (by injection e)
      have h2 : Call.Open k ≠ Call.Open n := fun e => h (by injection e)
      simp [List.count_cons, h, h1, h2]

/-- The backend calls of an `Open` that did not abort, from a router that was
not open: each configured name is connected once and opened once, no other name
at all. -/
theorem Module.Open_calls {C : Type} [Connection C] (m : Module C) (ordC ordW : RangeOrder)
    (hclosed : m.opened = false) (h : (Module.Open m ordC ordW).abort = none) (n : String) :
    (Module.Open m ordC ordW).calls.count (Call.Connect n) =
      (if (GoMap.get? m.configs n).isSome then 1 else 0) ∧
    (Module.Open m ordC ordW).calls.count (Call.Open n) =
      (if (GoMap.get? m.configs n).isSome then 1 else 0) ∧
    (Module.Open m ordC ordW).calls.count (Call.Close n) = 0 := by
  unfold Module.Open at h ⊢
  simp only [hclosed, Bool.false_eq_true, if_false] at h ⊢
  by_cases hlen : m.configs.length = 0
  · simp [hlen] at h
  · simp only [hlen, if_false] at h ⊢
    cases ha : (Module.openLoop (ordC.visit (GoMap.keys m.configs)) m).abort with
    | some msg => simp [ha] at h
    | none =>
      simp only [ha]
      rw [Module.openLoop_calls _ m ha]
      have hcount : (List.filter (fun n => (GoMap.get? m.configs n).isSome)
          (ordC.visit (GoMap.keys m.configs))).count n =
          if (GoMap.get? m.configs n).isSome then 1 else 0 := by
        have hnodup : (List.filter (fun n => (GoMap.get? m.configs n).isSome)
            (ordC.visit (GoMap.keys m.configs))).Nodup :=
          (RangeOrder.nodup_visit _ (GoMap.keys_nodup _)).filter _
        by_cases hs : (GoMap.get? m.configs n).isSome
        · rw [if_pos hs]
          apply List.count_eq_one_of_mem hnodup
          rw [List.mem_filter, RangeOrder.mem_visit, ← GoMap.get?_isSome_iff_mem_keys]
          exact ⟨hs, by simpa using hs⟩
        · rw [if_neg hs]
          apply List.count_eq_zero_of_not_mem
          rw [List.mem_filter]
          rintro ⟨_, h2⟩
          exact hs (by simpa using h2)
      refine ⟨?_, ?_, ?_⟩
      · rw [(count_calls_flatMap _ n).1, hcount]
      · rw [(count_calls_flatMap _ n).2, hcount]
      · apply List.count_eq_zero_of_not_mem
        simp [List.mem_flatMap]

/-- C13. `Open` is idempotent. On every router that is open, `Open` returns
the router as it is (same instances and connections, weights and Selector) and
calls no backend. When a first `Open` has succeeded on a router that was not
open, it has left the router open, and over that `Open` and a second one the
backend `Connect`, and the connection's `Open`, were called exactly once for
each configured instance and for no other name. -/
theorem C13_open_idempotent {C : Type} [Connection C] (m : Module C)
    (o1 o2 o3 o4 : RangeOrder) (hclosed : m.opened = false)
    (hopen : (Module.Open m o1 o2).abort = none) :
    (∀ m' : Module C, m'.opened = true → Module.Open m' o3 o4 = ⟨none, m', []⟩) ∧
    (Module.Open m o1 o2).state.opened = true ∧
    Module.Open (Module.Open m o1 o2).state o3 o4 = ⟨none, (Module.Open m o1 o2).state, []⟩ ∧
    (∀ n, (GoMap.get? m.configs n).isSome →
      ((Module.Open m o1 o2).calls ++
        (Module.Open (Module.Open m o1 o2).state o3 o4).calls).count (Call.Connect n) = 1 ∧
      ((Module.Open m o1 o2).calls ++
        (Module.Open (Module.Open m o1 o2).state o3 o4).calls).count (Call.Open n) = 1) ∧
    (∀ n, GoMap.get? m.configs n = none →
      ((Module.Open m o1 o2).calls ++
        (Module.Open (Module.Open m o1 o2).state o3 o4).calls).count (Call.Connect n) = 0) := by
  have hidem : ∀ m' : Module C, m'.opened = true → Module.Open m' o3 o4 = ⟨none, m', []⟩ := by
    intro m' h
    unfold Module.Open
    simp [h]
  have hop := (Module.Open_ok m o1 o2 hclosed hopen).1
  have hsecond := hidem _ hop
  refine ⟨hidem, hop, hsecond, ?_, ?_⟩
  · intro n hn
    rw [hsecond, List.append_nil]
    obtain ⟨h1, h2, _⟩ := Module.Open_calls m o1 o2 hclosed hopen n
    rw [h1, h2, if_pos hn]
    exact ⟨rfl, rfl⟩
  · intro n hn
    rw [hsecond, List.append_nil, (Module.Open_calls m o1 o2 hclosed hopen n).1, hn]
    rfl

/-- C13 at `exampleRegistered` after `Setup`: the first `Open` connects "a" and
"b" once each, the second does nothing. -/
theorem C13_open_idempotent_witness :
    (Module.Open (Module.Setup exampleRegistered RangeOrder.stored)
      RangeOrder.stored RangeOrder.stored).calls =
      [Call.Connect "a", Call.Open "a", Call.Connect "b", Call.Open "b"] ∧
    Module.Open exampleRouter RangeOrder.reversed RangeOrder.reversed =
      ⟨none, exampleRouter, []⟩ :=
  have h := C13_open_idempotent (Module.Setup exampleRegistered RangeOrder.stored)
    RangeOrder.stored RangeOrder.stored RangeOrder.reversed RangeOrder.reversed rfl (by decide)
  ⟨by decide, h.2.2.1⟩

/-! ## Close -/

theorem GoMap.range_keys {V : Type} (m : GoMap V) (ord : RangeOrder) :
    (GoMap.range m ord).map Prod.fst = ord.visit (GoMap.keys m) := by
  unfold GoMap.range
  have key : ∀ l : List String, (∀ k ∈ l, (GoMap.get? m k).isSome) →
      (l.filterMap (fun k => (GoMap.get? m k).map (fun v => (k, v)))).map Prod.fst = l := by
    intro l
    induction l with
    | nil => intro _; rfl
    | cons k rest ih =>
      intro h
      obtain ⟨v, hv⟩ := Option.isSome_iff_exists.mp (h k (List.mem_cons_self _ _))
      rw [List.filterMap_cons]
      simp only [hv, Option.map_some', List.map_cons]
      rw [ih (fun k' hk' => h k' (List.mem_cons_of_mem _ hk'))]
  apply key
  intro k hk
  rw [GoMap.get?_isSome_iff_mem_keys, ← RangeOrder.mem_visit ord]
  exact hk

theorem Module.Close_not_open {C : Type} [Connection C] (m : Module C) (ord : RangeOrder)
    (h : m.opened = false) : Module.Close m ord = ⟨none, m, []⟩ := by
  unfold Module.Close
  simp [h]

theorem Module.Close_open {C : Type} [Connection C] (m : Module C) (ord : RangeOrder)
    (h : m.opened = true) :
    Module.Close m ord =
      ⟨none, { m with instances := [], weights := [], ring := none, opened := false },
        (Module.closeResults m ord).map (fun r => Call.Close r.1)⟩ := by
  unfold Module.Close
  simp [h]

theorem Module.closeResults_names {C : Type} [Connection C] (m : Module C) (ord : RangeOrder) :
    (Module.closeResults m ord).map Prod.fst = ord.visit (GoMap.keys m.instances) := by
  unfold Module.closeResults
  rw [List.map_map]
  exact GoMap.range_keys m.instances ord

theorem count_close_map (ks : List String) (n : String) :
    (ks.map Call.Close).count (Call.Close n) = ks.count n := by
  induction ks with
  | nil => rfl
  | cons k rest ih =>
    rw [List.map_cons, List.count_cons, List.count_cons, ih]
    by_cases h : k = n
    · subst h; simp
    · have h1 : Call.Close k ≠ Call.Close n := fun e => h (by injection e)
      simp [h, h1]

/-- C18. `Close` is best-effort and resets the routing state. On every router
that is open, whatever the `Close` of each connection returns, `Module.Close`
does not abort; it calls `Close` exactly once on the connection of every
instance, and on nothing else; afterwards the instance map and the weights are
empty, there is no Selector and the router is not open, while the configuration
map, the backend registry and the started flag are as before; so the
auto-routed `Lock` and `Unlock` fail with `ErrNotReady` and change nothing. On a
router that is not open `Close` changes nothing and calls nothing. -/
theorem C18_close_resets {C : Type} [Connection C] (m : Module C) (ord : RangeOrder) :
    (m.opened = true →
      (Module.Close m ord).abort = none ∧
      (Module.Close m ord).state.instances = [] ∧
      (Module.Close m ord).state.weights = [] ∧
      (Module.Close m ord).state.ring = none ∧
      (Module.Close m ord).state.opened = false ∧
      (Module.Close m ord).state.configs = m.configs ∧
      (Module.Close m ord).state.drivers = m.drivers ∧
      (Module.Close m ord).state.started = m.started ∧
      (∀ n inst, GoMap.get? m.instances n = some inst →
        (Module.Close m ord).calls.count (Call.Close n) = 1 ∧
        (n, Connection.Close inst.conn) ∈ Module.closeResults m ord) ∧
      (∀ n, GoMap.get? m.instances n = none →
        (Module.Close m ord).calls.count (Call.Close n) = 0) ∧
      (∀ n, (Module.Close m ord).calls.count (Call.Connect n) = 0 ∧
        (Module.Close m ord).calls.count (Call.Open n) = 0) ∧
      (∀ key expires clk,
        Module.Lock (Module.Close m ord).state key expires clk =
          (some ErrNotReady, (Module.Close m ord).state) ∧
        Module.Unlock (Module.Close m ord).state key =
          (some ErrNotReady, (Module.Close m ord).state))) ∧
    (m.opened = false → Module.Close m ord = ⟨none, m, []⟩) := by
  refine ⟨?_, Module.Close_not_open m ord⟩
  intro hopen
  rw [Module.Close_open m ord hopen]
  have hcalls : (Module.closeResults m ord).map (fun r => Call.Close r.1) =
      (ord.visit (GoMap.keys m.instances)).map Call.Close := by
    rw [← Module.closeResults_names, List.map_map]
    rfl
  refine ⟨rfl, rfl, rfl, rfl, rfl, rfl, rfl, rfl, ?_, ?_, ?_, ?_⟩
  · intro n inst hg
    constructor
    · simp only [hcalls]
      rw [count_close_map]
      apply List.count_eq_one_of_mem (RangeOrder.nodup_visit _ (GoMap.keys_nodup _))
      rw [RangeOrder.mem_visit, ← GoMap.get?_isSome_iff_mem_keys, hg]
      rfl
    · unfold Module.closeResults
      rw [List.mem_map]
      exact ⟨(n, inst), (GoMap.mem_range _ _ _ _).mpr hg, rfl⟩
  · intro n hg
    simp only [hcalls]
    rw [count_close_map]
    apply List.count_eq_zero_of_not_mem
    rw [RangeOrder.mem_visit, ← GoMap.get?_isSome_iff_mem_keys, hg]
    simp
  · intro n
    simp only [hcalls]
    constructor <;>
    · apply List.count_eq_zero_of_not_mem
      simp
  · intro key expires clk
    constructor
    · simp [Module.Lock, Module.LockOn, Module.getInst]
    · simp [Module.Unlock, Module.UnlockOn, Module.getInst]

/-- C18 at `exampleStubRouter`: the `Close` of "a" fails and that of "b" is
called all the same; the router is left without instances or Selector, and an
auto-routed `Lock` reports that the router is not ready. -/
theorem C18_close_resets_witness :
    Module.closeResults exampleStubRouter RangeOrder.stored =
      [("a", (some "close failed", { name := "a", closeErr := some "close failed" })),
       ("b", (none, { name := "b", closeErr := none }))] ∧
    (Module.Close exampleStubRouter RangeOrder.stored).calls = [Call.Close "a", Call.Close "b"] ∧
    (Module.Close exampleStubRouter RangeOrder.stored).state.instances = [] ∧
    (Module.Lock (Module.Close exampleStubRouter RangeOrder.stored).state "job-1" []
      (Clock.at 0)).1 = some ErrNotReady :=
  have h := (C18_close_resets exampleStubRouter RangeOrder.stored).1 (by decide)
  ⟨by decide, by decide, h.2.1, congrArg Prod.fst (h.2.2.2.2.2.2.2.2.2.2.2 "job-1" [] (Clock.at 0)).1⟩

/-! ## Close, then Open -/

/-- The connection that a round of the loop of `Open` stores: the one the
registered backend connected, after its `Open`. -/
theorem Module.openStep_conn {C : Type} [Connection C] (m : Module C) (name : String)
    (cfg : Config) (h : (Module.openStep m name cfg).abort = none) :
    ∃ (drv : Driver C) (conn0 : C),
      GoMap.get? m.drivers cfg.Driver = some drv ∧
      drv.Connect { Name := name, Config := cfg, Setting := cfg.Setting } = .ok conn0 ∧
      (Connection.Open conn0).1 = none ∧
      (Module.openStep m name cfg).state.instances =
        GoMap.set m.instances name
          { conn := (Connection.Open conn0).2, Name := name, Config := cfg,
            Setting := cfg.Setting } := by
  unfold Module.openStep at h ⊢
  cases hd : GoMap.get? m.drivers cfg.Driver with
  | none => simp [hd] at h
  | some drv =>
    simp only [hd] at h ⊢
    cases hc : drv.Connect { Name := name, Config := cfg, Setting := cfg.Setting } with
    | error e => simp [hc] at h
    | ok conn =>
      simp only [hc] at h ⊢
      rcases ho : Connection.Open conn with ⟨err, conn'⟩
      cases err with
      | some e => simp [ho] at h
      | none =>
        refine ⟨drv, conn, rfl, hc, by rw [ho], ?_⟩
        simp only [ho]
        by_cases hw : 0 < cfg.Weight
        · simp [hw]
        · simp [hw]

theorem Module.openLoop_conn {C : Type} [Connection C] (ks : List String) (m : Module C)
    (h : (Module.openLoop ks m).abort = none) :
    ∀ n cfg, n ∈ ks → GoMap.get? m.configs n = some cfg →
      ∃ (drv : Driver C) (conn0 : C),
        GoMap.get? m.drivers cfg.Driver = some drv ∧
        drv.Connect { Name := n, Config := cfg, Setting := cfg.Setting } = .ok conn0 ∧
        (Connection.Open conn0).1 = none ∧
        GoMap.get? (Module.openLoop ks m).state.instances n =
          some { conn := (Connection.Open conn0).2, Name := n, Config := cfg,
                 Setting := cfg.Setting } := by
  induction ks generalizing m with
  | nil => intro n cfg hn; simp at hn
  | cons name rest ih =>
    intro n cfg hn hc
    cases hg : GoMap.get? m.configs name with
    | none =>
      rw [Module.openLoop_cons_skip name rest m hg] at h ⊢
      rcases List.mem_cons.mp hn with h1 | h1
      · rw [h1, hg] at hc; cases hc
      · exact ih m h n cfg h1 hc
    | some cfg0 =>
      cases ha : (Module.openStep m name cfg0).abort with
      | some msg =>
        rw [Module.openLoop_cons_abort name rest m cfg0 msg hg ha] at h
        cases h
      | none =>
        obtain ⟨e1, e2, _⟩ := Module.openLoop_cons_ok name rest m cfg0 hg ha
        rw [e1] at h
        rw [e2]
        obtain ⟨conn, hs⟩ := Module.openStep_ok m name cfg0 ha
        have hcfg : (Module.openStep m name cfg0).state.configs = m.configs := by rw [hs]
        have hdrv : (Module.openStep m name cfg0).state.drivers = m.drivers := by rw [hs]
        by_cases hr : n ∈ rest
        · have := ih (Module.openStep m name cfg0).state h n cfg hr (by rw [hcfg]; exact hc)
          rw [hdrv] at this
          exact this
        · have hnn : n = name := by
            rcases List.mem_cons.mp hn with h1 | h1
            · exact h1
            · exact absurd h1 hr
          subst hnn
          rw [hg] at hc
          cases hc
          obtain ⟨drv, conn0, h1, h2, h3, h4⟩ := Module.openStep_conn m n cfg ha
          refine ⟨drv, conn0, h1, h2, h3, ?_⟩
          rw [(Module.openLoop_ok rest _ h).2.1 n (fun h' => hr h'.1), h4, GoMap.get?_set_self]

theorem Module.Open_conn {C : Type} [Connection C] (m : Module C) (ordC ordW : RangeOrder)
    (hclosed : m.opened = false) (h : (Module.Open m ordC ordW).abort = none) :
    ∀ n cfg, GoMap.get? m.configs n = some cfg →
      ∃ (drv : Driver C) (conn0 : C),
        GoMap.get? m.drivers cfg.Driver = some drv ∧
        drv.Connect { Name := n, Config := cfg, Setting := cfg.Setting } = .ok conn0 ∧
        (Connection.Open conn0).1 = none ∧
        GoMap.get? (Module.Open m ordC ordW).state.instances n =
          some { conn := (Connection.Open conn0).2, Name := n, Config := cfg,
                 Setting := cfg.Setting } := by
  intro n cfg hc
  unfold Module.Open at h ⊢
  simp only [hclosed, Bool.false_eq_true, if_false] at h ⊢
  by_cases hlen : m.configs.length = 0
  · simp [hlen] at h
  · simp only [hlen, if_false] at h ⊢
    cases ha : (Module.openLoop (ordC.visit (GoMap.keys m.configs)) m).abort with
    | some msg => simp [ha] at h
    | none =>
      simp only [ha]
      apply Module.openLoop_conn _ m ha n cfg _ hc
      rw [RangeOrder.mem_visit, ← GoMap.get?_isSome_iff_mem_keys, hc]
      rfl

/-- C14. `Close` followed by `Open` starts afresh from the configuration. For
every open router whose registered backends are the reference backend, when the
`Open` after `Close` succeeds: the configuration map is the one held before
`Close`; the instance map holds, for every configured name and for no other, one
instance connected by this `Open` (its `Connect` called once), whose lock table
is empty; the weights are exactly the positive weights of the configuration and
the Selector is built from them, so its names are the configured names of
positive weight; and every `Lock` that resolves to an instance succeeds, whatever
was locked before `Close`. -/
theorem C14_close_then_open (m : Module defaultConnect) (oc o1 o2 : RangeOrder)
    (hopened : m.opened = true)
    (hdrv : ∀ n d, GoMap.get? m.drivers n = some d → d = defaultBackend)
    (hopen : (Module.Open (Module.Close m oc).state o1 o2).abort = none) :
    (Module.Open (Module.Close m oc).state o1 o2).state.configs = m.configs ∧
    (Module.Open (Module.Close m oc).state o1 o2).state.opened = true ∧
    (∀ n cfg, GoMap.get? m.configs n = some cfg →
      GoMap.get? (Module.Open (Module.Close m oc).state o1 o2).state.instances n =
        some { conn := { inst := { Name := n, Config := cfg, Setting := cfg.Setting },
                         locks := [] },
               Name := n, Config := cfg, Setting := cfg.Setting }) ∧
    (∀ n, GoMap.get? m.configs n = none →
      GoMap.get? (Module.Open (Module.Close m oc).state o1 o2).state.instances n = none) ∧
    (∀ n cfg, GoMap.get? m.configs n = some cfg → 0 < cfg.Weight →
      GoMap.get? (Module.Open (Module.Close m oc).state o1 o2).state.weights n =
        some cfg.Weight) ∧
    (∀ n, ¬ (∃ cfg, GoMap.get? m.configs n = some cfg ∧ 0 < cfg.Weight) →
      GoMap.get? (Module.Open (Module.Close m oc).state o1 o2).state.weights n = none) ∧
    (∃ r, (Module.Open (Module.Close m oc).state o1 o2).state.ring = some r ∧
      r = newHashRing
        (GoMap.range (Module.Open (Module.Close m oc).state o1 o2).state.weights o2) ∧
      ∀ n, n ∈ r.nodes ↔ ∃ cfg, GoMap.get? m.configs n = some cfg ∧ 0 < cfg.Weight) ∧
    (∀ n, (Module.Open (Module.Close m oc).state o1 o2).calls.count (Call.Connect n) =
      if (GoMap.get? m.configs n).isSome then 1 else 0) ∧
    (∀ conn key expires clk slot inst,
      Module.getInst (Module.Open (Module.Close m oc).state o1 o2).state conn key =
        .ok (slot, inst) →
      inst.conn.locks = [] ∧
      (Module.LockOn (Module.Open (Module.Close m oc).state o1 o2).state conn key
        expires clk).1 = none) := by
  have hcl := Module.Close_open m oc hopened
  have c2 : (Module.Close m oc).state.instances = [] := by rw [hcl]
  have c3 : (Module.Close m oc).state.weights = [] := by rw [hcl]
  have hclosed : (Module.Close m oc).state.opened = false := by rw [hcl]
  have c6 : (Module.Close m oc).state.configs = m.configs := by rw [hcl]
  have c7 : (Module.Close m oc).state.drivers = m.drivers := by rw [hcl]
  obtain ⟨p1, p2, p3, _, p5, p6, p7⟩ :=
    Module.Open_ok (Module.Close m oc).state o1 o2 hclosed hopen
  rw [c6] at p2 p5 p6 p7
  rw [c2] at p5
  rw [c3] at p7
  have hinst : ∀ n cfg, GoMap.get? m.configs n = some cfg →
      GoMap.get? (Module.Open (Module.Close m oc).state o1 o2).state.instances n =
        some { conn := { inst := { Name := n, Config := cfg, Setting := cfg.Setting },
                         locks := [] },
               Name := n, Config := cfg, Setting := cfg.Setting } := by
    intro n cfg hc
    obtain ⟨drv, conn0, h1, h2, _, h4⟩ :=
      Module.Open_conn (Module.Close m oc).state o1 o2 hclosed hopen n cfg (by rw [c6]; exact hc)
    rw [c7] at h1
    rw [hdrv _ _ h1] at h2
    have hconn0 : conn0 = defaultConnect.mk { Name := n, Config := cfg, Setting := cfg.Setting } [] := by
      injection h2 with h2
      exact h2.symm
    rw [h4, hconn0]
    rfl
  have hwnone : ∀ n, ¬ (∃ cfg, GoMap.get? m.configs n = some cfg ∧ 0 < cfg.Weight) →
      GoMap.get? (Module.Open (Module.Close m oc).state o1 o2).state.weights n = none := by
    intro n hn
    rw [p7 n hn]
    rfl
  refine ⟨p2, p1, hinst, ?_, p6, hwnone, ⟨_, p3, rfl, ?_⟩, ?_, ?_⟩
  · intro n hn
    rw [p5 n hn]
    rfl
  · intro n
    rw [newHashRing_mem]
    constructor
    · rintro ⟨w, hw, hpos⟩
      rw [GoMap.mem_range] at hw
      by_contra hcon
      rw [hwnone n hcon] at hw
      cases hw
    · rintro ⟨cfg, hc, hpos⟩
      exact ⟨cfg.Weight, (GoMap.mem_range _ _ _ _).mpr (p6 n cfg hc hpos), hpos⟩
  · intro n
    rw [(Module.Open_calls (Module.Close m oc).state o1 o2 hclosed hopen n).1, c6]
  · intro conn key expires clk slot inst hres
    have hg := ((Module.getInst_ok_iff _ conn key slot inst).mp hres).2.2.2
    have hlocks : inst.conn.locks = [] := by
      cases hc : GoMap.get? m.configs slot with
      | none =>
        rw [p5 slot hc] at hg
        cases hg
      | some cfg =>
        rw [hinst slot cfg hc] at hg
        cases hg
        rfl
    refine ⟨hlocks, ?_⟩
    rw [Module.LockOn_of_getInst _ conn key slot expires clk inst hres]
    refine (defaultConnect.Lock_free inst.conn _ _ clk ?_).1
    intro untl hu
    rw [hlocks] at hu
    cases hu

/-- C14 at `exampleRouter`: "job-1" is locked for the default ttl, the router
is closed and opened again, and "job-1" is locked at once. -/
theorem C14_close_then_open_witness :
    (Module.Lock exampleRouter "job-1" [] (Clock.at 100)).1 = none ∧
    (Module.Lock (Module.Open (Module.Close
      (Module.Lock exampleRouter "job-1" [] (Clock.at 100)).2 RangeOrder.stored).state
      RangeOrder.stored RangeOrder.stored).state "job-1" [] (Clock.at 101)).1 = none := by
  have h := C14_close_then_open (Module.Lock exampleRouter "job-1" [] (Clock.at 100)).2
    RangeOrder.stored RangeOrder.stored RangeOrder.stored (by decide)
    (by
      intro n d hd
      have hdr : (Module.Lock exampleRouter "job-1" [] (Clock.at 100)).2.drivers =
          [(DEFAULT, defaultBackend)] := rfl
      rw [hdr] at hd
      simp only [GoMap.get?] at hd
      split_ifs at hd
      cases hd
      rfl)
    (by decide)
  refine ⟨by decide, ?_⟩
  exact (h.2.2.2.2.2.2.2.2 "" "job-1" [] (Clock.at 101) "b" exampleInstanceB rfl).2

/-! ## Configuration is frozen while the router is open -/

/-- C15. While the router is open, `RegisterConfig`, `RegisterConfigs`,
`Config` and `Setup` do nothing, whatever their arguments, a name that is
already registered included: they return the router as it is, so the
configuration map, the instance map, the weights and the Selector are
unchanged, and none of them aborts. -/
theorem C15_frozen_while_open {C : Type} (tgt : Target) (parse : String → Option Duration)
    (m : Module C) (hopen : m.opened = true) :
    (∀ name cfg, Module.RegisterConfig m name cfg = ⟨none, m, []⟩) ∧
    (∀ configs ord, Module.RegisterConfigs m configs ord = ⟨none, m, []⟩) ∧
    (∀ global ord, Module.ApplyConfig tgt parse m global ord = m) ∧
    (∀ ord, Module.Setup m ord = m) := by
  refine ⟨?_, ?_, ?_, ?_⟩
  · intro name cfg
    simp [Module.RegisterConfig, hopen]
  · intro configs ord
    simp [Module.RegisterConfigs, hopen]
  · intro global ord
    simp [Module.ApplyConfig, hopen]
  · intro ord
    simp [Module.Setup, hopen]

/-- C15 at `exampleRouter`, which is open and has an instance "a": registering
"a" again does nothing there, while on the router before `Open` it aborts. -/
theorem C15_frozen_while_open_witness :
    Module.RegisterConfig exampleRouter "a" Config.initial = ⟨none, exampleRouter, []⟩ ∧
    (Module.RegisterConfig exampleRegistered "a" Config.initial).abort =
      some "Mutex config already registered: a" :=
  ⟨(C15_frozen_while_open Target.amd64 (fun _ => none) exampleRouter (by decide)).1 "a"
    Config.initial,
   by decide⟩

/-! ## The probe `Locked` -/

theorem Key_single (other : Any → String) (key : String) :
    Key other [.string key] = key := by
  simp [Key, Sprintf, String.intercalate, String.intercalate.go]

theorem defaultConnect.Lock_other_keys (c : defaultConnect) (key : String) (expire : Duration)
    (clk : Clock) (k' : String) (h : k' ≠ key) :
    GoMap.get? (defaultConnect.Lock c key expire clk).2.locks k' = GoMap.get? c.locks k' := by
  unfold defaultConnect.Lock
  cases hk : GoMap.get? c.locks key with
  | none =>
    simp only
    exact GoMap.get?_set_ne _ _ h
  | some untl =>
    simp only
    split_ifs
    · rfl
    · simp only
      rw [GoMap.get?_set_ne _ _ h, GoMap.get?_delete_ne _ h]

/-- What the function `LockOn` returns when the router's `LockOn` fails. -/
theorem LockOn_error {C : Type} [Connection C] (other : Any → String) (m : Module C)
    (conn : String) (args : List Any) (clk : Clock) (err : Error)
    (h : (Module.LockOn m conn (Key other (keyArgs args)) (durationArgs args) clk).1 = some err) :
    LockOn other m conn args clk =
      (.error err,
        (Module.LockOn m conn (Key other (keyArgs args)) (durationArgs args) clk).2) := by
  unfold LockOn
  simp only [h]

/-- What the function `LockOn` returns when the router's `LockOn` succeeds. -/
theorem LockOn_ok {C : Type} [Connection C] (other : Any → String) (m : Module C)
    (conn : String) (args : List Any) (clk : Clock)
    (h : (Module.LockOn m conn (Key other (keyArgs args)) (durationArgs args) clk).1 = none) :
    LockOn other m conn args clk =
      (.ok { conn := conn, key := Key other (keyArgs args) },
        (Module.LockOn m conn (Key other (keyArgs args)) (durationArgs args) clk).2) := by
  unfold LockOn
  simp only [h]

/-- When the key does not resolve to an instance, the function `LockOn` fails
with the error of the resolution and `LockedOn` answers true; the router is
left as it is. -/
theorem LockedOn_unresolved {C : Type} [Connection C] (other : Any → String) (m : Module C)
    (conn : String) (args : List Any) (clk : Clock) (err : Error)
    (h : Module.getInst m conn (Key other (keyArgs args)) = .error err) :
    LockOn other m conn args clk = (.error err, m) ∧
    LockedOn other m conn args clk = (true, m) := by
  have hL : Module.LockOn m conn (Key other (keyArgs args)) (durationArgs args) clk =
      (some err, m) := by
    simp [Module.LockOn, h]
  have h1 : LockOn other m conn args clk = (.error err, m) := by
    rw [LockOn_error other m conn args clk err (by rw [hL]), hL]
  refine ⟨h1, ?_⟩
  unfold LockedOn
  rw [h1]

/-- The probe of a key that resolves to an instance of the reference backend. -/
theorem LockedOn_resolved (other : Any → String) (m : Module defaultConnect) (conn : String)
    (args : List Any) (clk : Clock) (slot : String) (inst : Instance defaultConnect)
    (hres : Module.getInst m conn (Key other (keyArgs args)) = .ok (slot, inst)) :
    ((∀ untl, GoMap.get? inst.conn.locks (inst.Config.Prefix ++ Key other (keyArgs args)) =
        some untl → untl ≤ clk.check) →
      (LockedOn other m conn args clk).1 = false ∧
      (∃ inst', GoMap.get? (LockedOn other m conn args clk).2.instances slot = some inst' ∧
        inst'.Config = inst.Config ∧
        GoMap.get? inst'.conn.locks (inst.Config.Prefix ++ Key other (keyArgs args)) = none ∧
        ∀ k', k' ≠ inst.Config.Prefix ++ Key other (keyArgs args) →
          GoMap.get? inst'.conn.locks k' = GoMap.get? inst.conn.locks k') ∧
      (∀ n, n ≠ slot →
        GoMap.get? (LockedOn other m conn args clk).2.instances n = GoMap.get? m.instances n) ∧
      (∀ expires2 clk2,
        (Module.LockOn (LockedOn other m conn args clk).2 conn (Key other (keyArgs args))
          expires2 clk2).1 = none) ∧
      (∀ args2 clk2, keyArgs args2 = keyArgs args →
        (LockOn other (LockedOn other m conn args clk).2 conn args2 clk2).1 =
          .ok { conn := conn, key := Key other (keyArgs args) })) ∧
    (∀ untl, GoMap.get? inst.conn.locks (inst.Config.Prefix ++ Key other (keyArgs args)) =
        some untl → clk.check < untl →
      LockedOn other m conn args clk = (true, m)) := by
  have hL := Module.LockOn_of_getInst m conn (Key other (keyArgs args)) slot
    (durationArgs args) clk inst hres
  refine ⟨?_, ?_⟩
  · intro hfree
    obtain ⟨f1, _, _⟩ := defaultConnect.Lock_free inst.conn
      (inst.Config.Prefix ++ Key other (keyArgs args))
      ((durationArgs args).headD inst.Config.Expire) clk hfree
    have hok : (Module.LockOn m conn (Key other (keyArgs args)) (durationArgs args) clk).1
        = none := by
      rw [hL]
      exact f1
    have hres1 := Module.getInst_set m conn (Key other (keyArgs args)) slot inst
      { inst with conn := (Connection.Lock inst.conn
          (inst.Config.Prefix ++ Key other (keyArgs args))
          ((durationArgs args).headD inst.Config.Expire) clk).2 } hres
    have hU := Module.UnlockOn_of_getInst _ conn (Key other (keyArgs args)) slot _ hres1
    have hLocked : LockedOn other m conn args clk =
        (false, (Module.UnlockOn (Module.LockOn m conn (Key other (keyArgs args))
          (durationArgs args) clk).2 conn (Key other (keyArgs args))).2) := by
      unfold LockedOn
      rw [LockOn_ok other m conn args clk hok]
      simp only [locker.Unlock, UnlockOn, Key_single]
    have hnext : ∀ expires2 clk2,
        (Module.LockOn (LockedOn other m conn args clk).2 conn (Key other (keyArgs args))
          expires2 clk2).1 = none := by
      intro expires2 clk2
      rw [hLocked, hL]
      simp only
      rw [hU]
      simp only
      have hres2 := Module.getInst_set _ conn (Key other (keyArgs args)) slot _
        { inst with conn := (Connection.Unlock (Connection.Lock inst.conn
            (inst.Config.Prefix ++ Key other (keyArgs args))
            ((durationArgs args).headD inst.Config.Expire) clk).2
            (inst.Config.Prefix ++ Key other (keyArgs args))).2 } hres1
      rw [Module.LockOn_of_getInst _ conn (Key other (keyArgs args)) slot expires2 clk2 _ hres2]
      refine (defaultConnect.Lock_free _ _ _ _ ?_).1
      intro untl hu
      have hnone : GoMap.get? (defaultConnect.Unlock (defaultConnect.Lock inst.conn
          (inst.Config.Prefix ++ Key other (keyArgs args))
          ((durationArgs args).headD inst.Config.Expire) clk).2
          (inst.Config.Prefix ++ Key other (keyArgs args))).2.locks
          (inst.Config.Prefix ++ Key other (keyArgs args)) = none :=
        GoMap.get?_delete_self _ _
      exact Option.noConfusion (hnone.symm.trans hu)
    refine ⟨?_, ?_, ?_, hnext, ?_⟩
    · rw [hLocked]
    · rw [hLocked, hL]
      simp only
      rw [hU]
      simp only
      refine ⟨_, GoMap.get?_set_self _ _ _, rfl, ?_, ?_⟩
      · exact GoMap.get?_delete_self _ _
      · intro k' hk'
        show GoMap.get? (GoMap.delete (defaultConnect.Lock inst.conn
          (inst.Config.Prefix ++ Key other (keyArgs args))
          ((durationArgs args).headD inst.Config.Expire) clk).2.locks
          (inst.Config.Prefix ++ Key other (keyArgs args))) k' = _
        rw [GoMap.get?_delete_ne _ hk', defaultConnect.Lock_other_keys _ _ _ _ _ hk']
    · intro n hn
      rw [hLocked, hL]
      simp only
      rw [hU]
      simp only
      rw [GoMap.get?_set_ne _ _ hn, GoMap.get?_set_ne _ _ hn]
    · intro args2 clk2 hk
      have h2 := hnext (durationArgs args2) clk2
      rw [← hk] at h2
      rw [LockOn_ok other _ conn args2 clk2 h2, hk]
  · intro untl hheld hlt
    have hlock := defaultConnect.Lock_held inst.conn
      (inst.Config.Prefix ++ Key other (keyArgs args))
      ((durationArgs args).headD inst.Config.Expire) clk untl hheld hlt
    have hstate : Module.LockOn m conn (Key other (keyArgs args)) (durationArgs args) clk =
        (some ErrExisted, m) := by
      rw [hL]
      have h1 : Connection.Lock inst.conn (inst.Config.Prefix ++ Key other (keyArgs args))
          ((durationArgs args).headD inst.Config.Expire) clk = (some ErrExisted, inst.conn) :=
        hlock
      rw [h1]
      simp only
      have hg := ((Module.getInst_ok_iff m conn _ slot inst).mp hres).2.2.2
      rw [GoMap.set_of_get? m.instances slot inst hg]
    unfold LockedOn
    rw [LockOn_error other m conn args clk ErrExisted (by rw [hstate]), hstate]

/-- C16, the claim as stated fails. The router `exampleUnrouted` is open, its
only instance "main" has the weight -1 and an empty lock table, and its Selector
is empty. Nobody holds the key "k", yet `Locked` of "k" answers true, at every
instant and for every formatting, and leaves the router as it is; the `Lock` of
"k" that follows fails with `ErrInvalidConnection`. -/
theorem C16_unresolved_probe_counterexample :
    exampleUnrouted.opened = true ∧
    exampleUnrouted.instances.map (fun e => (e.1, e.2.conn.locks)) = [("main", [])] ∧
    exampleUnrouted.weights = [] ∧
    exampleUnrouted.ring = some ⟨[]⟩ ∧
    (∀ (other : Any → String) (clk : Clock),
      Locked other exampleUnrouted [.string "k"] clk = (true, exampleUnrouted) ∧
      Lock other exampleUnrouted [.string "k", .duration time.Second] clk =
        (.error ErrInvalidConnection, exampleUnrouted)) := by
  refine ⟨by decide, by decide, by decide, by decide, ?_⟩
  intro other clk
  have h1 : ∀ args, Module.getInst exampleUnrouted "" (Key other (keyArgs args)) =
      .error ErrInvalidConnection := fun args => rfl
  exact ⟨(LockedOn_unresolved other exampleUnrouted "" _ clk _ (h1 _)).2,
    (LockedOn_unresolved other exampleUnrouted "" _ clk _ (h1 _)).1⟩

/-- C16 as amended. The probe, on every router, instance name, argument list
and instant. When the key composed from `args` resolves to an instance of the
reference backend: if the prefixed key is not held at the instant of the probe
(absent from the lock table, or with an expiry that is not after it), `LockedOn`
returns false and leaves the prefixed key absent from the table, the other keys
of the table and the other instances as they were, so that a lock of the key
that follows, through the router or through the function `LockOn` with any ttl,
succeeds at any instant; if the key is held, `LockedOn` returns true and leaves
the router, and with it the table and the recorded expiry, unchanged. When the
key does not resolve, `LockedOn` returns true whoever holds the key, leaves the
router unchanged, and a `LockOn` of the key fails with the error of the
resolution. One of the two cases applies. `Locked` is `LockedOn` with the empty
instance name. -/
theorem C16_probe_amended (other : Any → String) (m : Module defaultConnect) (conn : String)
    (args : List Any) (clk : Clock) :
    (∀ slot inst, Module.getInst m conn (Key other (keyArgs args)) = .ok (slot, inst) →
      ((∀ untl, GoMap.get? inst.conn.locks (inst.Config.Prefix ++ Key other (keyArgs args)) =
          some untl → untl ≤ clk.check) →
        (LockedOn other m conn args clk).1 = false ∧
        (∃ inst', GoMap.get? (LockedOn other m conn args clk).2.instances slot = some inst' ∧
          inst'.Config = inst.Config ∧
          GoMap.get? inst'.conn.locks (inst.Config.Prefix ++ Key other (keyArgs args)) = none ∧
          ∀ k', k' ≠ inst.Config.Prefix ++ Key other (keyArgs args) →
            GoMap.get? inst'.conn.locks k' = GoMap.get? inst.conn.locks k') ∧
        (∀ n, n ≠ slot →
          GoMap.get? (LockedOn other m conn args clk).2.instances n =
            GoMap.get? m.instances n) ∧
        (∀ expires2 clk2,
          (Module.LockOn (LockedOn other m conn args clk).2 conn (Key other (keyArgs args))
            expires2 clk2).1 = none) ∧
        (∀ args2 clk2, keyArgs args2 = keyArgs args →
          (LockOn other (LockedOn other m conn args clk).2 conn args2 clk2).1 =
            .ok { conn := conn, key := Key other (keyArgs args) })) ∧
      (∀ untl, GoMap.get? inst.conn.locks (inst.Config.Prefix ++ Key other (keyArgs args)) =
          some untl → clk.check < untl →
        LockedOn other m conn args clk = (true, m))) ∧
    (∀ err, Module.getInst m conn (Key other (keyArgs args)) = .error err →
      LockedOn other m conn args clk = (true, m) ∧
      ∀ args2 clk2, keyArgs args2 = keyArgs args →
        LockOn other m conn args2 clk2 = (.error err, m)) ∧
    ((∃ slot inst, Module.getInst m conn (Key other (keyArgs args)) = .ok (slot, inst)) ∨
      ∃ err, Module.getInst m conn (Key other (keyArgs args)) = .error err) ∧
    Locked other m args clk = LockedOn other m "" args clk := by
  refine ⟨fun slot inst hres => LockedOn_resolved other m conn args clk slot inst hres,
    ?_, ?_, rfl⟩
  · intro err herr
    refine ⟨(LockedOn_unresolved other m conn args clk err herr).2, ?_⟩
    intro args2 clk2 hk
    exact (LockedOn_unresolved other m conn args2 clk2 err (by rw [hk]; exact herr)).1
  · cases h : Module.getInst m conn (Key other (keyArgs args)) with
    | error err => exact Or.inr ⟨err, rfl⟩
    | ok p => exact Or.inl ⟨p.1, p.2, rfl⟩

/-- C16 as amended, at `exampleRouter`: the probe of the free key "job-1"
answers false and leaves it free; after "job-1" is locked at instant 100, the
probe at instant 101 answers true and leaves the router as it is; the probe on
the instance name "c", which the router does not have, answers true. -/
theorem C16_probe_amended_witness :
    (Locked (fun _ => "") exampleRouter [.string "job-1"] (Clock.at 100)).1 = false ∧
    (Module.Lock (Locked (fun _ => "") exampleRouter [.string "job-1"] (Clock.at 100)).2
      "job-1" [] (Clock.at 100)).1 = none ∧
    Locked (fun _ => "") (Module.Lock exampleRouter "job-1" [] (Clock.at 100)).2
      [.string "job-1"] (Clock.at 101) =
      (true, (Module.Lock exampleRouter "job-1" [] (Clock.at 100)).2) ∧
    LockedOn (fun _ => "") exampleRouter "c" [.string "job-1"] (Clock.at 100) =
      (true, exampleRouter) := by
  have h := (C16_probe_amended (fun _ => "") exampleRouter "" [.string "job-1"]
    (Clock.at 100)).1 "b" exampleInstanceB rfl
  have hfree := h.1 (fun untl hu => Option.noConfusion (show none = some untl from hu))
  have h2 := (C16_probe_amended (fun _ => "") (Module.Lock exampleRouter "job-1" []
    (Clock.at 100)).2 "" [.string "job-1"] (Clock.at 101)).1 "b"
    { exampleInstanceB with
      conn := { exampleInstanceB.conn with locks := [("b:job-1", 1000000100)] } } rfl
  have h3 := (C16_probe_amended (fun _ => "") exampleRouter "c" [.string "job-1"]
    (Clock.at 100)).2.1 ErrInvalidConnection rfl
  exact ⟨hfree.1, hfree.2.2.2.1 [] (Clock.at 100), h2.2 1000000100 rfl (by decide), h3.1⟩

/-! ## Key composition in the convenience functions -/

/-- The key parts that `LockOn` keeps hold no duration. -/
theorem keyArgs_no_duration (args : List Any) (d : Duration) : Any.duration d ∉ keyArgs args := by
  induction args with
  | nil => simp [keyArgs]
  | cons a rest ih =>
    cases a <;> simp [keyArgs, ih]

/-- Without a duration among the arguments, `LockOn` keeps them all. -/
theorem keyArgs_of_no_duration (args : List Any) (h : ∀ d, Any.duration d ∉ args) :
    keyArgs args = args ∧ durationArgs args = [] := by
  induction args with
  | nil => exact ⟨rfl, rfl⟩
  | cons a rest ih =>
    have hrest : ∀ d, Any.duration d ∉ rest := fun d hd => h d (List.mem_cons_of_mem _ hd)
    obtain ⟨i1, i2⟩ := ih hrest
    cases a with
    | duration d => exact absurd (List.mem_cons_self _ _) (h d)
    | null => simp [keyArgs, durationArgs, i1, i2]
    | bool b => simp [keyArgs, durationArgs, i1, i2]
    | int n => simp [keyArgs, durationArgs, i1, i2]
    | int64 n => simp [keyArgs, durationArgs, i1, i2]
    | float64 t => simp [keyArgs, durationArgs, i1, i2]
    | string s => simp [keyArgs, durationArgs, i1, i2]
    | map m => simp [keyArgs, durationArgs, i1, i2]

/-- The key that the function `LockOn` hands to the router is composed of the
arguments that are not durations; `UnlockOn` composes its key of all the
arguments, so the two agree when there is no duration among them. -/
theorem LockOn_UnlockOn_keys {C : Type} [Connection C] (other : Any → String) (m : Module C)
    (conn : String) (args : List Any) (clk : Clock) :
    (LockOn other m conn args clk).2 =
      (Module.LockOn m conn (Key other (keyArgs args)) (durationArgs args) clk).2 ∧
    (∀ l, (LockOn other m conn args clk).1 = .ok l →
      l = { conn := conn, key := Key other (keyArgs args) }) ∧
    UnlockOn other m conn args = Module.UnlockOn m conn (Key other args) ∧
    ((∀ d, Any.duration d ∉ args) →
      UnlockOn other m conn args = Module.UnlockOn m conn (Key other (keyArgs args))) := by
  refine ⟨?_, ?_, rfl, ?_⟩
  · unfold LockOn
    simp only
    split <;> rfl
  · intro l hl
    unfold LockOn at hl
    simp only at hl
    split at hl
    · cases hl
    · injection hl with hl
      exact hl.symm
  · intro h
    rw [(keyArgs_of_no_duration args h).1]
    rfl

/-- C17, the code at the failing input. For the arguments ("user", 42, one
second) the function `LockOn` composes the key "user-42" and passes the second
as ttl, while `UnlockOn` composes the key of all three arguments, "user-42-"
followed by the text of the duration, which is another key whatever that text
is. On `exampleRouter`, `Lock` with these arguments succeeds, `Unlock` with the
same arguments succeeds too but releases nothing: the same `Lock` right after
fails as already held. `Unlock` with the key parts alone does release it. -/
theorem C17_unlock_key_includes_ttl :
    (∀ other : Any → String,
      Key other (keyArgs [.string "user", .int 42, .duration time.Second]) = "user-42" ∧
      durationArgs [.string "user", .int 42, .duration time.Second] = [time.Second] ∧
      Key other [.string "user", .int 42, .duration time.Second] =
        "user-42-" ++ other (.duration time.Second) ∧
      Key other [.string "user", .int 42, .duration time.Second] ≠ "user-42") ∧
    (Lock exampleFormat exampleRouter [.string "user", .int 42, .duration time.Second]
      (Clock.at 0)).1 = .ok { conn := "", key := "user-42" } ∧
    (Unlock exampleFormat
      (Lock exampleFormat exampleRouter [.string "user", .int 42, .duration time.Second]
        (Clock.at 0)).2
      [.string "user", .int 42, .duration time.Second]).1 = none ∧
    (Lock exampleFormat
      (Unlock exampleFormat
        (Lock exampleFormat exampleRouter [.string "user", .int 42, .duration time.Second]
          (Clock.at 0)).2
        [.string "user", .int 42, .duration time.Second]).2
      [.string "user", .int 42, .duration time.Second] (Clock.at 1)).1 = .error ErrExisted ∧
    (Lock exampleFormat
      (Unlock exampleFormat
        (Lock exampleFormat exampleRouter [.string "user", .int 42, .duration time.Second]
          (Clock.at 0)).2
        [.string "user", .int 42]).2
      [.string "user", .int 42, .duration time.Second] (Clock.at 1)).1 =
      .ok { conn := "", key := "user-42" } := by
  refine ⟨?_, rfl, by decide, rfl, rfl⟩
  intro other
  have hk : Key other [.string "user", .int 42, .duration time.Second] =
      "user-42-" ++ other (.duration time.Second) := by
    simp only [Key, Sprintf, List.map, String.intercalate, String.intercalate.go]
    rfl
  refine ⟨rfl, rfl, hk, ?_⟩
  rw [hk]
  intro h
  have hlen := congrArg String.length h
  simp only [String.length_append] at hlen
  have h1 : ("user-42-" : String).length = 8 := by decide
  have h2 : ("user-42" : String).length = 7 := by decide
  omega

/-! ## An Open that aborts -/

/-- The routing table after a successful `Open` from a router that is not open
and has neither instances nor weights: the instance map has exactly the
configured names; the names of the Selector are exactly the configured names of
positive weight, each of them a key of the instance map; auto-routed resolution
only returns stored instances; and when no configuration of positive weight is
registered under the empty name, it succeeds for every key if and only if some
configured instance has a positive weight. -/
theorem Module.Open_routing_table {C : Type} [Connection C] (m : Module C)
    (ordC ordW : RangeOrder) (hclosed : m.opened = false) (hinst : m.instances = [])
    (hweights : m.weights = []) (hopen : (Module.Open m ordC ordW).abort = none) :
    (∀ n, (GoMap.get? (Module.Open m ordC ordW).state.instances n).isSome ↔
      (GoMap.get? m.configs n).isSome) ∧
    (∃ r, (Module.Open m ordC ordW).state.ring = some r ∧
      (∀ n, n ∈ r.nodes ↔ ∃ cfg, GoMap.get? m.configs n = some cfg ∧ 0 < cfg.Weight) ∧
      (∀ n, n ∈ r.nodes → (GoMap.get? (Module.Open m ordC ordW).state.instances n).isSome)) ∧
    (∀ key slot inst, Module.getInst (Module.Open m ordC ordW).state "" key = .ok (slot, inst) →
      GoMap.get? (Module.Open m ordC ordW).state.instances slot = some inst) ∧
    ((∃ key slot inst,
        Module.getInst (Module.Open m ordC ordW).state "" key = .ok (slot, inst)) →
      ∃ n cfg, GoMap.get? m.configs n = some cfg ∧ 0 < cfg.Weight) ∧
    ((∀ cfg, GoMap.get? m.configs "" = some cfg → cfg.Weight ≤ 0) →
      ((∀ key, ∃ slot inst,
          Module.getInst (Module.Open m ordC ordW).state "" key = .ok (slot, inst)) ↔
        ∃ n cfg, GoMap.get? m.configs n = some cfg ∧ 0 < cfg.Weight)) := by
  obtain ⟨_, _, hring, o1, o2, o3, o4⟩ := Module.Open_ok m ordC ordW hclosed hopen
  have hnodes : ∀ n, n ∈ (newHashRing (GoMap.range
      (Module.Open m ordC ordW).state.weights ordW)).nodes ↔
      ∃ cfg, GoMap.get? m.configs n = some cfg ∧ 0 < cfg.Weight := by
    intro n
    rw [newHashRing_mem]
    constructor
    · rintro ⟨w, hw, hpos⟩
      rw [GoMap.mem_range] at hw
      by_contra hcon
      rw [o4 n hcon, hweights] at hw
      cases hw
    · rintro ⟨cfg, hc, hpos⟩
      exact ⟨cfg.Weight, (GoMap.mem_range _ _ _ _).mpr (o3 n cfg hc hpos), hpos⟩
  have hstored : ∀ n, n ∈ (newHashRing (GoMap.range
      (Module.Open m ordC ordW).state.weights ordW)).nodes →
      (GoMap.get? (Module.Open m ordC ordW).state.instances n).isSome := by
    intro n hn
    obtain ⟨cfg, hc, _⟩ := (hnodes n).mp hn
    obtain ⟨inst, hi, _⟩ := o1 n cfg hc
    rw [hi]
    rfl
  have hlocate : ∀ key slot inst,
      Module.getInst (Module.Open m ordC ordW).state "" key = .ok (slot, inst) →
      slot ∈ (newHashRing (GoMap.range
        (Module.Open m ordC ordW).state.weights ordW)).nodes := by
    intro key slot inst hres
    obtain ⟨_, hslot, hne, _⟩ := (Module.getInst_ok_iff _ "" key slot inst).mp hres
    simp only [if_true] at hslot
    rw [hring] at hslot
    have hnn : (newHashRing (GoMap.range
        (Module.Open m ordC ordW).state.weights ordW)).nodes ≠ [] := by
      intro hnil
      rw [hslot] at hne
      simp [hashRing.Locate, hashRing.locateBytes, hashRing.locateOn, hnil] at hne
    have hmem := List.get?_mem (hashRing.locateBytes_eq _ (keyBytes key) hnn)
    rw [hslot]
    exact hmem
  refine ⟨?_, ⟨_, hring, hnodes, hstored⟩, ?_, ?_, ?_⟩
  · intro n
    cases hc : GoMap.get? m.configs n with
    | none => rw [o2 n hc, hinst]; rfl
    | some cfg =>
      obtain ⟨inst, hi, _⟩ := o1 n cfg hc
      rw [hi]
      exact ⟨fun _ => rfl, fun _ => rfl⟩
  · intro key slot inst hres
    exact ((Module.getInst_ok_iff _ "" key slot inst).mp hres).2.2.2
  · rintro ⟨key, slot, inst, hres⟩
    exact ⟨slot, (hnodes slot).mp (hlocate key slot inst hres)⟩
  · intro hempty
    constructor
    · intro hall
      obtain ⟨slot, inst, hres⟩ := hall ""
      exact ⟨slot, (hnodes slot).mp (hlocate "" slot inst hres)⟩
    · rintro ⟨n, cfg, hc, hpos⟩ key
      have hnn : (newHashRing (GoMap.range
          (Module.Open m ordC ordW).state.weights ordW)).nodes ≠ [] :=
        List.ne_nil_of_mem ((hnodes n).mpr ⟨cfg, hc, hpos⟩)
      have hmem := List.get?_mem (hashRing.locateBytes_eq _ (keyBytes key) hnn)
      change hashRing.Locate (some _) key ∈ _ at hmem
      have hne : hashRing.Locate (some (newHashRing (GoMap.range
          (Module.Open m ordC ordW).state.weights ordW))) key ≠ "" := by
        intro h0
        rw [h0] at hmem
        obtain ⟨c0, hc0, hpos0⟩ := (hnodes "").mp hmem
        exact absurd hpos0 (not_lt.mpr (hempty c0 hc0))
      obtain ⟨inst, hi⟩ := Option.isSome_iff_exists.mp (hstored _ hmem)
      refine ⟨hashRing.Locate (some (newHashRing (GoMap.range
        (Module.Open m ordC ordW).state.weights ordW))) key, inst, ?_⟩
      rw [Module.getInst_ok_iff]
      refine ⟨by simp [hring], by simp [hring], hne, hi⟩

/-- C20, the code at the failing input. `exampleEmptyName` is the fresh router
after `Module.Config` has read a `mutex` section with a nested entry under the
empty name; `configure` stores it under that name. `Setup` copies it to the
default name and leaves the entry, `Open` succeeds and builds an instance for
each of the two names, both with weight 1, and the Selector holds both names.
The auto-routed resolution of the key "a" locates the empty name and fails with
`ErrInvalidConnection`, so `Lock` of "a" fails, although configured instances
have a positive weight; the key "job-2" is routed to the instance "default". -/
theorem C20_empty_name_breaks_routing :
    exampleEmptyName.configs.map Prod.fst = [""] ∧
    (Module.Setup exampleEmptyName RangeOrder.stored).configs.map
      (fun e => (e.1, e.2.Weight)) = [("", 1), ("default", 1)] ∧
    (Module.Open (Module.Setup exampleEmptyName RangeOrder.stored)
      RangeOrder.stored RangeOrder.stored).abort = none ∧
    (Module.Open (Module.Setup exampleEmptyName RangeOrder.stored)
      RangeOrder.stored RangeOrder.stored).state.instances.map Prod.fst = ["", "default"] ∧
    (Module.Open (Module.Setup exampleEmptyName RangeOrder.stored)
      RangeOrder.stored RangeOrder.stored).state.ring = some ⟨["", "default"]⟩ ∧
    (Module.Lock (Module.Open (Module.Setup exampleEmptyName RangeOrder.stored)
      RangeOrder.stored RangeOrder.stored).state "a" [] (Clock.at 0)).1 =
      some ErrInvalidConnection ∧
    (Module.Lock (Module.Open (Module.Setup exampleEmptyName RangeOrder.stored)
      RangeOrder.stored RangeOrder.stored).state "job-2" [] (Clock.at 0)).1 = none :=
  ⟨by decide, by decide, by decide, by decide, by decide, by decide, by decide⟩

end Mutex
